import Mathlib

/-!
MCP79410RK: a shallow embedding of the driver and its verified properties.

Bytes (`uint8_t`) are natural numbers below 256, C `int` and `time_t` values are
integers, C integer division and remainder are `Int.tdiv` and `Int.tmod`
(truncation toward zero), and a conversion to `uint8_t` is a reduction modulo 256.
-/

/-- Bitwise complement of a byte, the value of `(uint8_t) ~m`. -/
def not8 (m : Nat) : Nat := 0xff ^^^ m

/-- Conversion of a C `int` to `uint8_t`. -/
def toU8 (v : Int) : Nat := (v % 256).toNat

/-- The fields of `struct tm` that the driver reads or writes. -/
structure Tm where
  tm_sec : Int
  tm_min : Int
  tm_hour : Int
  tm_mday : Int
  tm_mon : Int
  tm_year : Int
  tm_wday : Int
  deriving DecidableEq

/-- Modelled from the spec: the C library's `gmtime`, the standard civil-calendar
breakdown of epoch seconds at UTC. The day count is shifted to an era of 400 years
that starts on 1 March of year 0 (a Wednesday); `tm_mon` is 0..11, `tm_year` counts
from 1900 and `tm_wday` from Sunday. -/
def gmtime (time : Int) : Tm :=
  let days := time / 86400 + 719468
  let rem := time % 86400
  let era := days / 146097
  let eraday := days - era * 146097
  let erayear := (eraday - eraday / 1460 + eraday / 36524 - eraday / 146096) / 365
  let yearday := eraday - (365 * erayear + erayear / 4 - erayear / 100)
  let month := (5 * yearday + 2) / 153
  let day := yearday - (153 * month + 2) / 5 + 1
  let mon := if month < 10 then month + 2 else month - 10
  let year := erayear + era * 400 + (if mon ≤ 1 then 1 else 0)
  { tm_sec := rem % 60
    tm_min := rem % 3600 / 60
    tm_hour := rem / 3600
    tm_mday := day
    tm_mon := mon
    tm_year := year - 1900
    tm_wday := (3 + days) % 7 }

/-- Gregorian leap-year rule. -/
def isLeapYear (y : Int) : Bool :=
  (y % 4 = 0 && y % 100 != 0) || y % 400 = 0

/-- Number of days from 1 January 1970 to 1 January of year `y`. -/
def daysBeforeYear (y : Int) : Int :=
  365 * (y - 1970) + (y - 1969) / 4 - (y - 1901) / 100 + (y - 1601) / 400

/-- Number of days of the year that precede month `mon` (0 = January). -/
def daysBeforeMonth (leap : Bool) (mon : Int) : Int :=
  (match mon with
   | 0 => 0
   | 1 => 31
   | 2 => 59
   | 3 => 90
   | 4 => 120
   | 5 => 151
   | 6 => 181
   | 7 => 212
   | 8 => 243
   | 9 => 273
   | 10 => 304
   | _ => 334) + (if 1 < mon ∧ leap = true then 1 else 0)

/-- Number of days of month `mon` (0 = January). -/
def daysInMonth (leap : Bool) (mon : Int) : Int :=
  match mon with
  | 1 => if leap then 29 else 28
  | 3 => 30
  | 5 => 30
  | 8 => 30
  | 10 => 30
  | _ => 31

/-- Modelled from the spec: the C library's `mktime` with the time zone at UTC,
which rebuilds epoch seconds from year, month, day, hour, minute and second only
(`tm_wday` is ignored). A month outside 0..11 carries into the year; the other
fields enter linearly, which is what their normalisation amounts to. -/
def mktime (tm : Tm) : Int :=
  let year := tm.tm_year + 1900 + tm.tm_mon / 12
  let mon := tm.tm_mon % 12
  let days := daysBeforeYear year + daysBeforeMonth (isLeapYear year) mon + (tm.tm_mday - 1)
  days * 86400 + tm.tm_hour * 3600 + tm.tm_min * 60 + tm.tm_sec

/-- The time value `MCP79410Time`: seven raw register bytes and the alarm mode. -/
structure MCP79410Time where
  rawYear : Nat
  rawMonth : Nat
  rawDayOfMonth : Nat
  rawDayOfWeek : Nat
  rawHour : Nat
  rawMinute : Nat
  rawSecond : Nat
  alarmMode : Nat
  deriving DecidableEq

namespace MCP79410Time

def ALARM_SECOND : Nat := 0
def ALARM_MINUTE : Nat := 1
def ALARM_HOUR : Nat := 2
def ALARM_DAY_OF_WEEK : Nat := 3
def ALARM_DAY_OF_MONTH : Nat := 4
def ALARM_MONTH_DAY_DOW_HMS : Nat := 7

/-- The function `MCP79410Time::bcdToInt`. -/
def bcdToInt (value : Nat) : Int :=
  (((value >>> 4) &&& 0xf) * 10 + (value &&& 0xf) : Nat)

/-- The function `MCP79410Time::intToBcd`. -/
def intToBcd (value : Int) : Nat :=
  let result := toU8 (((value.tdiv 10).tmod 10) * 16)
  result ||| toU8 (value.tmod 10)

/-- The function `MCP79410Time::clear`; the constructor leaves a value in this state. -/
def clear : MCP79410Time :=
  { rawYear := 0, rawMonth := 1, rawDayOfMonth := 1, rawDayOfWeek := 1,
    rawHour := 0, rawMinute := 0, rawSecond := 0, alarmMode := 0 }

def getYear (t : MCP79410Time) : Int := bcdToInt t.rawYear + 2000

def setYear (t : MCP79410Time) (value : Int) : MCP79410Time :=
  { t with rawYear := intToBcd (value.tmod 100) }

def getMonth (t : MCP79410Time) : Int := bcdToInt (t.rawMonth &&& 0x1f)

def setMonth (t : MCP79410Time) (value : Int) : MCP79410Time :=
  { t with rawMonth := intToBcd value }

def getDayOfMonth (t : MCP79410Time) : Int := bcdToInt (t.rawDayOfMonth &&& 0x3f)

def setDayOfMonth (t : MCP79410Time) (value : Int) : MCP79410Time :=
  { t with rawDayOfMonth := (t.rawDayOfMonth &&& not8 0x3f) ||| intToBcd value }

def getDayOfWeek (t : MCP79410Time) : Int := bcdToInt (t.rawDayOfWeek &&& 0x7) - 1

def setDayOfWeek (t : MCP79410Time) (value : Int) : MCP79410Time :=
  { t with rawDayOfWeek := (t.rawDayOfWeek &&& not8 0x7) ||| intToBcd (value + 1) }

def getHour (t : MCP79410Time) : Int :=
  if t.rawHour &&& 0x40 ≠ 0 then
    let hour12 := bcdToInt (t.rawHour &&& 0x1f)
    if t.rawHour &&& 0x20 ≠ 0 then
      if hour12 = 12 then 12 else hour12 + 12
    else
      if hour12 = 12 then 0 else hour12
  else
    bcdToInt (t.rawHour &&& 0x3f)

def setHour (t : MCP79410Time) (value : Int) : MCP79410Time :=
  { t with rawHour := intToBcd value }

def getMinute (t : MCP79410Time) : Int := bcdToInt (t.rawMinute &&& 0x7f)

def setMinute (t : MCP79410Time) (value : Int) : MCP79410Time :=
  { t with rawMinute := intToBcd value }

def getSecond (t : MCP79410Time) : Int := bcdToInt (t.rawSecond &&& 0x7f)

def setSecond (t : MCP79410Time) (value : Int) : MCP79410Time :=
  { t with rawSecond := (t.rawSecond &&& not8 0x7f) ||| intToBcd value }

/-- The function `MCP79410Time::fromUnixTime`. -/
def fromUnixTime (t : MCP79410Time) (time : Int) : MCP79410Time :=
  let tm := gmtime time
  let t := t.setYear tm.tm_year
  let t := t.setMonth (tm.tm_mon + 1)
  let t := t.setDayOfMonth tm.tm_mday
  let t := t.setDayOfWeek tm.tm_wday
  let t := t.setHour tm.tm_hour
  let t := t.setMinute tm.tm_min
  t.setSecond (if tm.tm_sec < 60 then tm.tm_sec else 59)

/-- The function `MCP79410Time::toUnixTime`; the fields of `struct tm` it leaves zeroed stay 0. -/
def toUnixTime (t : MCP79410Time) : Int :=
  mktime
    { tm_sec := t.getSecond
      tm_min := t.getMinute
      tm_hour := t.getHour
      tm_mday := t.getDayOfMonth
      tm_mon := t.getMonth - 1
      tm_year := t.getYear - 1900
      tm_wday := 0 }

def setAlarmSecond (_t : MCP79410Time) (second : Int) : MCP79410Time :=
  let t := clear
  let t := { t with alarmMode := ALARM_SECOND }
  t.setSecond second

def setAlarmMinute (_t : MCP79410Time) (minute : Int) : MCP79410Time :=
  let t := clear
  let t := { t with alarmMode := ALARM_MINUTE }
  t.setMinute minute

def setAlarmHour (_t : MCP79410Time) (hour : Int) : MCP79410Time :=
  let t := clear
  let t := { t with alarmMode := ALARM_HOUR }
  t.setHour hour

def setAlarmDayOfWeek (_t : MCP79410Time) (dayOfWeek : Int) : MCP79410Time :=
  let t := clear
  let t := { t with alarmMode := ALARM_DAY_OF_WEEK }
  t.setDayOfWeek dayOfWeek

def setAlarmDayOfMonth (_t : MCP79410Time) (dayOfMonth : Int) : MCP79410Time :=
  let t := clear
  let t := { t with alarmMode := ALARM_DAY_OF_MONTH }
  t.setDayOfMonth dayOfMonth

def setAlarmTime (t : MCP79410Time) (unixTime : Int) : MCP79410Time :=
  let t := t.fromUnixTime unixTime
  { t with alarmMode := ALARM_MONTH_DAY_DOW_HMS }

end MCP79410Time


/-- One transaction on the two-wire bus, as the driver issues it. -/
inductive BusOp where
  /-- The sequence `beginTransmission(dev)`, the `write` calls, `endTransmission(stop)`. -/
  | write (dev : Nat) (data : List Nat) (stop : Bool)
  /-- The call `requestFrom(dev, count, true)`. -/
  | read (dev : Nat) (count : Nat)
  deriving DecidableEq

/-- The `TwoWire` object the driver talks to: how the bus answers a transmission
(the status of `endTransmission`, 0 for success) and a read request (the bytes
received), each with the next state of whatever is on the bus. -/
structure TwoWire (σ : Type) where
  endTransmission : σ → Nat → List Nat → Bool → Int × σ
  requestFrom : σ → Nat → Nat → List Nat × σ

/-- State of the bus together with the transactions issued so far, oldest first. -/
structure Bus (σ : Type) where
  st : σ
  log : List BusOp

namespace Bus

variable {σ : Type}

/-- A complete write transaction: address the device, send `data`, end. -/
def transmit (w : TwoWire σ) (b : Bus σ) (dev : Nat) (data : List Nat) (stop : Bool) :
    Int × Bus σ :=
  let r := w.endTransmission b.st dev data stop
  (r.1, { st := r.2, log := b.log ++ [BusOp.write dev data stop] })

/-- A read request for `count` bytes; the bus delivers at most `count`. -/
def request (w : TwoWire σ) (b : Bus σ) (dev : Nat) (count : Nat) : List Nat × Bus σ :=
  let r := w.requestFrom b.st dev count
  (r.1.take count, { st := r.2, log := b.log ++ [BusOp.read dev count] })

end Bus

/-- Store the bytes `rx` into `buf` from index `offset` on. -/
def storeAt (buf : List Nat) (offset : Nat) : List Nat → List Nat
  | [] => buf
  | x :: rx => storeAt (buf.set offset x) (offset + 1) rx

namespace MCP79410

variable {σ : Type}

def REG_I2C_ADDR : Nat := 0x6f
def REG_DATE_TIME : Nat := 0x00
def REG_DATE_RTCSEC : Nat := 0x00
def REG_DATE_RTCSEC_ST : Nat := 0x80
def REG_RTCWKDAY : Nat := 0x03
def REG_RTCWKDAY_OSCRUN : Nat := 0x20
def REG_RTCWKDAY_PWRFAIL : Nat := 0x10
def REG_RTCWKDAY_VBATEN : Nat := 0x08
def REG_CONTROL : Nat := 0x07
def REG_CONTROL_SQWEN : Nat := 0x40
def REG_CONTROL_ALM1EN : Nat := 0x20
def REG_CONTROL_ALM0EN : Nat := 0x10
def REG_OSCTRIM : Nat := 0x08
def REG_EE_UNLOCK : Nat := 0x09
def REG_ALARM0 : Nat := 0x0a
def REG_ALARM1 : Nat := 0x11
def REG_ALARM_WKDAY_OFFSET : Nat := 3
def REG_ALARM_WKDAY_ALMPOL : Nat := 0x80
def REG_ALARM_WKDAY_ALMIF : Nat := 0x08
def REG_POWER_DOWN : Nat := 0x18
def REG_POWER_UP : Nat := 0x1c
def REG_SRAM : Nat := 0x20
def EEPROM_I2C_ADDR : Nat := 0x57
def EEPROM_PROTECTED : Nat := 0xf0
def EEPROM_STATUS : Nat := 0xff
def EEPROM_PROTECTED_BLOCK_SIZE : Nat := 8

/-- The loop of `MCP79410::deviceRead`. `addr` is the `uint8_t` register address,
`offset` and `stat` the loop variables. A request that delivers no byte leaves
`offset` where it was, so the loop is run on `fuel`: `none` means the fuel ran out
with the loop still going. -/
def deviceReadLoop (w : TwoWire σ) (i2cAddr addr bufLen : Nat) :
    Nat → Nat → Int → List Nat → Bus σ → Option (Int × List Nat × Bus σ)
  | 0, offset, stat, buf, b => if offset < bufLen then none else some (stat, buf, b)
  | fuel + 1, offset, stat, buf, b =>
    if offset < bufLen then
      let r := b.transmit w i2cAddr [(addr + offset) % 256] false
      if r.1 = 0 then
        let count := if bufLen - offset > 32 then 32 else bufLen - offset
        let q := r.2.request w i2cAddr count
        deviceReadLoop w i2cAddr addr bufLen fuel (offset + q.1.length) r.1
          (storeAt buf offset q.1) q.2
      else
        some (r.1, buf, r.2)
    else
      some (stat, buf, b)

/-- The function `MCP79410::deviceRead`: status, the buffer after the call, the bus after the call. -/
def deviceRead (w : TwoWire σ) (fuel : Nat) (b : Bus σ) (i2cAddr addr : Nat)
    (buf : List Nat) (bufLen : Nat) : Option (Int × List Nat × Bus σ) :=
  deviceReadLoop w i2cAddr addr bufLen fuel 0 0 buf b

/-- The bytes `buf[offset] .. buf[offset + count - 1]` of a caller's buffer. -/
def chunk (buf : List Nat) (offset count : Nat) : List Nat :=
  (List.range count).map (fun ii => buf.getD (ii + offset) 0)

/-- The loop of `MCP79410::deviceWrite`. Every pass moves `offset` forward by at
least one, so `bufLen` passes are enough and the first argument counts them down. -/
def deviceWriteLoop (w : TwoWire σ) (i2cAddr addr : Nat) (buf : List Nat) (bufLen : Nat) :
    Nat → Nat → Int → Bus σ → Int × Bus σ
  | 0, _, stat, b => (stat, b)
  | fuel + 1, offset, stat, b =>
    if offset < bufLen then
      let count := if bufLen - offset > 31 then 31 else bufLen - offset
      let r := b.transmit w i2cAddr ((addr + offset) % 256 :: chunk buf offset count) true
      if r.1 ≠ 0 then r
      else deviceWriteLoop w i2cAddr addr buf bufLen fuel (offset + count) r.1 r.2
    else
      (stat, b)

/-- The function `MCP79410::deviceWrite`. -/
def deviceWrite (w : TwoWire σ) (b : Bus σ) (i2cAddr addr : Nat) (buf : List Nat)
    (bufLen : Nat) : Int × Bus σ :=
  deviceWriteLoop w i2cAddr addr buf bufLen bufLen 0 0 b

/-- The loop of `MCP79410::waitForEEPROM`, with the number of tries left. -/
def waitForEEPROMLoop (w : TwoWire σ) : Nat → Bus σ → Bus σ
  | 0, b => b
  | tries + 1, b =>
    let r := b.transmit w EEPROM_I2C_ADDR [] true
    if r.1 = 0 then r.2 else waitForEEPROMLoop w tries r.2

/-- The function `MCP79410::waitForEEPROM`. -/
def waitForEEPROM (w : TwoWire σ) (b : Bus σ) : Bus σ :=
  waitForEEPROMLoop w 50 b

/-- The loop of `MCP79410::deviceWriteEEPROM`; one byte per pass, so `bufLen`
passes are enough. -/
def deviceWriteEEPROMLoop (w : TwoWire σ) (addr : Nat) (buf : List Nat) (bufLen : Nat) :
    Nat → Nat → Int → Bus σ → Int × Bus σ
  | 0, _, stat, b => (stat, b)
  | fuel + 1, offset, stat, b =>
    if offset < bufLen then
      let count := if bufLen - offset > 1 then 1 else bufLen - offset
      let r := b.transmit w EEPROM_I2C_ADDR ((addr + offset) % 256 :: chunk buf offset count) true
      if r.1 ≠ 0 then r
      else deviceWriteEEPROMLoop w addr buf bufLen fuel (offset + count) r.1 (waitForEEPROM w r.2)
    else
      (stat, b)

/-- The function `MCP79410::deviceWriteEEPROM`. -/
def deviceWriteEEPROM (w : TwoWire σ) (b : Bus σ) (addr : Nat) (buf : List Nat)
    (bufLen : Nat) : Int × Bus σ :=
  deviceWriteEEPROMLoop w addr buf bufLen bufLen 0 0 b

end MCP79410

namespace MCP79410SRAM

variable {σ : Type}

def length : Nat := 64

def eraseValue : Nat := 0

/-- The function `MCP79410SRAM::readData`. `addr` and `dataLen` are `size_t` values of `bits`
bits, and their sum is formed in that type. -/
def readData (w : TwoWire σ) (bits fuel : Nat) (b : Bus σ) (addr : Nat) (data : List Nat)
    (dataLen : Nat) : Option (Bool × List Nat × Bus σ) :=
  if (addr + dataLen) % 2 ^ bits > length then
    some (false, data, b)
  else
    (MCP79410.deviceRead w fuel b MCP79410.REG_I2C_ADDR
        ((MCP79410.REG_SRAM + addr) % 2 ^ bits % 256) data dataLen).map
      (fun r => (decide (r.1 = 0), r.2.1, r.2.2))

/-- The function `MCP79410SRAM::writeData`. -/
def writeData (w : TwoWire σ) (bits : Nat) (b : Bus σ) (addr : Nat) (data : List Nat)
    (dataLen : Nat) : Bool × Bus σ :=
  if (addr + dataLen) % 2 ^ bits > length then
    (false, b)
  else
    let r := MCP79410.deviceWrite w b MCP79410.REG_I2C_ADDR
      ((MCP79410.REG_SRAM + addr) % 2 ^ bits % 256) data dataLen
    (decide (r.1 = 0), r.2)

end MCP79410SRAM

namespace MCP79410EEPROM

variable {σ : Type}

def length : Nat := 128

def eraseValue : Nat := 0xff

/-- The function `MCP79410EEPROM::readData`. -/
def readData (w : TwoWire σ) (bits fuel : Nat) (b : Bus σ) (addr : Nat) (data : List Nat)
    (dataLen : Nat) : Option (Bool × List Nat × Bus σ) :=
  if (addr + dataLen) % 2 ^ bits > length then
    some (false, data, b)
  else
    (MCP79410.deviceRead w fuel b MCP79410.EEPROM_I2C_ADDR (addr % 256) data dataLen).map
      (fun r => (decide (r.1 = 0), r.2.1, r.2.2))

/-- The function `MCP79410EEPROM::writeData`. -/
def writeData (w : TwoWire σ) (bits : Nat) (b : Bus σ) (addr : Nat) (data : List Nat)
    (dataLen : Nat) : Bool × Bus σ :=
  if (addr + dataLen) % 2 ^ bits > length then
    (false, b)
  else
    let r := MCP79410.deviceWriteEEPROM w b (addr % 256) data dataLen
    (decide (r.1 = 0), r.2)

end MCP79410EEPROM

/-- A bus on which every transmission is acknowledged and every read request
delivers the requested number of zero bytes. -/
def ackWire : TwoWire Unit where
  endTransmission := fun s _ _ _ => (0, s)
  requestFrom := fun s _ count => (List.replicate count 0, s)

/-- Whether a transaction carries data to the chip, that is, bytes after the register
address: the address phase of a read and the acknowledge poll do not. -/
def BusOp.carriesData : BusOp → Bool
  | BusOp.write _ data _ => decide (1 < data.length)
  | BusOp.read _ _ => false

/-- The bus `b2` is the bus `b1` after further transactions none of which carries data:
nothing was written to the chip in between. -/
def Bus.readsOnly {σ : Type} (b1 b2 : Bus σ) : Prop :=
  ∃ ops, b2.log = b1.log ++ ops ∧ ∀ op ∈ ops, op.carriesData = false

/-- The fields of the controller object `MCP79410` other than the bus and the two
memory accessors, with their initial values. -/
structure MCP79410 where
  setupDone : Bool
  timeSet : Bool
  batteryEnable : Bool
  timeSyncMode : Nat

namespace MCP79410

variable {σ : Type}

def TIME_SYNC_NONE : Nat := 0
def TIME_SYNC_CLOUD_TO_RTC : Nat := 1
def TIME_SYNC_RTC_TO_TIME : Nat := 2
def TIME_SYNC_AUTOMATIC : Nat := 3
def SQUARE_WAVE_MASK : Nat := 0x3
def TIME_MODE_RTC : Int := 0
def TIME_MODE_ALARM : Int := 1
def TIME_MODE_POWER : Int := 2

/-- The controller as its constructor leaves it. -/
def new : MCP79410 :=
  { setupDone := false, timeSet := false, batteryEnable := true,
    timeSyncMode := TIME_SYNC_AUTOMATIC }

/-- The function `MCP79410::getAlarmEnableBit`. -/
def getAlarmEnableBit (alarmNum : Int) : Nat :=
  if alarmNum = 0 then REG_CONTROL_ALM0EN else REG_CONTROL_ALM1EN

/-- The function `MCP79410::getAlarmRegister`; the result is a `uint8_t`. -/
def getAlarmRegister (alarmNum : Int) (offset : Nat) : Nat :=
  ((if alarmNum = 0 then REG_ALARM0 else REG_ALARM1) + offset) % 256

/-- The function `MCP79410::deviceReadRegisterByte`: the byte read, or 0 when the read fails. -/
def deviceReadRegisterByte (w : TwoWire σ) (fuel : Nat) (b : Bus σ) (addr : Nat) :
    Option (Nat × Bus σ) :=
  (deviceRead w fuel b REG_I2C_ADDR addr [0] 1).map
    (fun r => (if r.1 = 0 then r.2.1.getD 0 0 else 0, r.2.2))

/-- The function `MCP79410::deviceWriteRegisterByte`. -/
def deviceWriteRegisterByte (w : TwoWire σ) (b : Bus σ) (addr value : Nat) : Int × Bus σ :=
  deviceWrite w b REG_I2C_ADDR addr [value] 1

/-- The function `MCP79410::deviceWriteRegisterByteMask`. -/
def deviceWriteRegisterByteMask (w : TwoWire σ) (fuel : Nat) (b : Bus σ)
    (addr andMask orMask : Nat) : Option (Int × Bus σ) :=
  (deviceReadRegisterByte w fuel b addr).map
    (fun r => deviceWriteRegisterByte w r.2 addr ((r.1 &&& andMask) ||| orMask))

/-- The function `MCP79410::deviceWriteRegisterFlag`. -/
def deviceWriteRegisterFlag (w : TwoWire σ) (fuel : Nat) (b : Bus σ) (addr value : Nat)
    (set : Bool) : Option (Int × Bus σ) :=
  if set then deviceWriteRegisterByteMask w fuel b addr 0xff value
  else deviceWriteRegisterByteMask w fuel b addr (not8 value) 0

/-- The function `MCP79410::deviceReadTime`. The local buffer starts zeroed; `hostYear` is
what `Time.year()` returns, which only the alarm and power-fail modes ask for. -/
def deviceReadTime (w : TwoWire σ) (fuel : Nat) (b : Bus σ) (addr : Nat)
    (time : MCP79410Time) (timeMode : Int) (hostYear : Int) :
    Option (Int × MCP79410Time × Bus σ) :=
  if timeMode = TIME_MODE_RTC ∨ timeMode = TIME_MODE_ALARM then
    let numBytes := if timeMode = TIME_MODE_RTC then 7 else 6
    (deviceRead w fuel b REG_I2C_ADDR addr (List.replicate 8 0) numBytes).map
      (fun r =>
        if r.1 = 0 then
          (r.1,
            { time with
              rawSecond := r.2.1.getD 0 0
              rawMinute := r.2.1.getD 1 0
              rawHour := r.2.1.getD 2 0
              rawDayOfWeek := r.2.1.getD 3 0
              rawDayOfMonth := r.2.1.getD 4 0
              rawMonth := r.2.1.getD 5 0
              rawYear := if timeMode = TIME_MODE_RTC then r.2.1.getD 6 0
                else MCP79410Time.intToBcd hostYear },
            r.2.2)
        else (r.1, time, r.2.2))
  else if timeMode = TIME_MODE_POWER then
    (deviceRead w fuel b REG_I2C_ADDR addr (List.replicate 8 0) 4).map
      (fun r =>
        if r.1 = 0 then
          (r.1,
            { time with
              rawSecond := 0
              rawMinute := r.2.1.getD 0 0
              rawHour := r.2.1.getD 1 0
              rawDayOfMonth := r.2.1.getD 2 0
              rawMonth := r.2.1.getD 3 0
              rawYear := MCP79410Time.intToBcd hostYear },
            r.2.2)
        else (r.1, time, r.2.2))
  else
    some (-1, time, b)

/-- The function `MCP79410::deviceWriteRTCTime`. -/
def deviceWriteRTCTime (w : TwoWire σ) (b : Bus σ) (addr : Nat) (time : MCP79410Time) :
    Int × Bus σ :=
  deviceWrite w b REG_I2C_ADDR addr
    [time.rawSecond, time.rawMinute, time.rawHour, time.rawDayOfWeek, time.rawDayOfMonth,
      time.rawMonth, time.rawYear] 7

/-- The function `MCP79410::getOscillatorRunning`. -/
def getOscillatorRunning (w : TwoWire σ) (fuel : Nat) (b : Bus σ) : Option (Bool × Bus σ) :=
  (deviceReadRegisterByte w fuel b REG_RTCWKDAY).map
    (fun r => (decide (r.1 &&& REG_RTCWKDAY_OSCRUN ≠ 0), r.2))

/-- The function `MCP79410::getRTCTime(MCP79410Time &)`: the result and the time object after
the call. The oscillator status is only read when the year byte is nonzero. -/
def getRTCTime (w : TwoWire σ) (fuel : Nat) (b : Bus σ) (time : MCP79410Time) :
    Option (Bool × MCP79410Time × Bus σ) :=
  (deviceReadTime w fuel b REG_DATE_TIME time TIME_MODE_RTC 0).bind
    (fun r =>
      if r.1 = 0 then
        if r.2.1.rawYear > 0 then
          (getOscillatorRunning w fuel r.2.2).map (fun o => (o.1, r.2.1, o.2))
        else some (false, r.2.1, r.2.2)
      else some (false, r.2.1, r.2.2))

/-- The overload `time_t MCP79410::getRTCTime()`. -/
def getRTCTimeUnix (w : TwoWire σ) (fuel : Nat) (b : Bus σ) : Option (Int × Bus σ) :=
  (getRTCTime w fuel b MCP79410Time.clear).map
    (fun r => (if r.1 = true then r.2.1.toUnixTime else 0, r.2.2))

/-- The function `MCP79410::setRTCTime`. -/
def setRTCTime (w : TwoWire σ) (self : MCP79410) (b : Bus σ) (unixTime : Int) :
    Bool × Bus σ :=
  let time := MCP79410Time.clear.fromUnixTime unixTime
  let time := { time with rawSecond := time.rawSecond ||| REG_DATE_RTCSEC_ST }
  let time :=
    if self.batteryEnable = true then
      { time with rawDayOfWeek := time.rawDayOfWeek ||| REG_RTCWKDAY_VBATEN }
    else
      { time with rawDayOfWeek := time.rawDayOfWeek &&& not8 REG_RTCWKDAY_VBATEN }
  let r := deviceWriteRTCTime w b REG_DATE_TIME time
  (decide (r.1 = 0), r.2)

/-- The function `MCP79410::getInterrupt`. -/
def getInterrupt (w : TwoWire σ) (fuel : Nat) (b : Bus σ) (alarmNum : Int) :
    Option (Bool × Bus σ) :=
  (deviceReadRegisterByte w fuel b (getAlarmRegister alarmNum REG_ALARM_WKDAY_OFFSET)).map
    (fun r => (decide (r.1 &&& REG_ALARM_WKDAY_ALMIF ≠ 0), r.2))

/-- The function `MCP79410::clearInterrupt`. -/
def clearInterrupt (w : TwoWire σ) (fuel : Nat) (b : Bus σ) (alarmNum : Int) :
    Option (Bus σ) :=
  (deviceWriteRegisterFlag w fuel b (getAlarmRegister alarmNum REG_ALARM_WKDAY_OFFSET)
    REG_ALARM_WKDAY_ALMIF false).map (fun r => r.2)

/-- The function `MCP79410::clearAlarm`. -/
def clearAlarm (w : TwoWire σ) (fuel : Nat) (b : Bus σ) (alarmNum : Int) :
    Option (Bool × Bus σ) :=
  if alarmNum < 0 ∨ alarmNum > 1 then some (false, b)
  else
    (deviceWriteRegisterFlag w fuel b REG_CONTROL (getAlarmEnableBit alarmNum) false).map
      (fun r => (decide (r.1 = 0), r.2))

/-- The six bytes `MCP79410::setAlarm` builds for the alarm registers. -/
def alarmBlock (time : MCP79410Time) (polarity : Bool) : List Nat :=
  let buf3 :=
    if polarity = true then time.rawDayOfWeek ||| REG_ALARM_WKDAY_ALMPOL
    else time.rawDayOfWeek &&& not8 REG_ALARM_WKDAY_ALMPOL
  let buf3 := buf3 ||| ((time.alarmMode &&& 0x7) <<< 4)
  [time.rawSecond, time.rawMinute, time.rawHour, buf3, time.rawDayOfMonth, time.rawMonth]

/-- The overload `MCP79410::setAlarm(const MCP79410Time &, bool, int)`. -/
def setAlarm (w : TwoWire σ) (fuel : Nat) (b : Bus σ) (time : MCP79410Time)
    (polarity : Bool) (alarmNum : Int) : Option (Bool × Bus σ) :=
  if alarmNum < 0 ∨ alarmNum > 1 then some (false, b)
  else
    (getOscillatorRunning w fuel b).bind
      (fun o =>
        if o.1 = true then
          (clearInterrupt w fuel o.2 alarmNum).bind
            (fun b1 =>
              let r := deviceWrite w b1 REG_I2C_ADDR (getAlarmRegister alarmNum 0)
                (alarmBlock time polarity) 6
              if r.1 = 0 then
                (deviceWriteRegisterFlag w fuel r.2 REG_CONTROL (getAlarmEnableBit alarmNum)
                  true).map (fun f => (decide (r.1 = 0), f.2))
              else some (decide (r.1 = 0), r.2))
        else some (false, o.2))

/-- The overload `MCP79410::setAlarm(int secondsFromNow, bool, int)`. -/
def setAlarmFromNow (w : TwoWire σ) (fuel : Nat) (b : Bus σ) (secondsFromNow : Int)
    (polarity : Bool) (alarmNum : Int) : Option (Bool × Bus σ) :=
  if alarmNum < 0 ∨ alarmNum > 1 then some (false, b)
  else
    (getRTCTimeUnix w fuel b).bind
      (fun r =>
        if r.1 ≠ 0 then
          setAlarm w fuel r.2 (MCP79410Time.clear.setAlarmTime (r.1 + secondsFromNow))
            polarity alarmNum
        else some (false, r.2))

/-- The function `MCP79410::setSquareWaveMode`. -/
def setSquareWaveMode (w : TwoWire σ) (fuel : Nat) (b : Bus σ) (freq : Nat) :
    Option (Bool × Bus σ) :=
  if freq &&& not8 SQUARE_WAVE_MASK ≠ 0 then some (false, b)
  else
    (deviceWriteRegisterFlag w fuel b REG_DATE_RTCSEC REG_DATE_RTCSEC_ST true).bind
      (fun r0 =>
        let clearBits := REG_CONTROL_ALM1EN ||| REG_CONTROL_ALM0EN ||| SQUARE_WAVE_MASK
        (deviceWriteRegisterByteMask w fuel r0.2 REG_CONTROL (not8 clearBits)
          (REG_CONTROL_SQWEN ||| freq)).map (fun r => (decide (r.1 = 0), r.2)))

/-- The function `MCP79410::clearSquareWaveMode`. -/
def clearSquareWaveMode (w : TwoWire σ) (fuel : Nat) (b : Bus σ) : Option (Bool × Bus σ) :=
  (deviceWriteRegisterFlag w fuel b REG_CONTROL REG_CONTROL_SQWEN false).map
    (fun r => (decide (r.1 = 0), r.2))

/-- The byte `MCP79410::setOscTrim` computes from its `int8_t` argument. -/
def oscTrimValue (trim : Int) : Nat :=
  if trim < 0 then toU8 (-trim) else toU8 trim ||| 0x80

/-- The function `MCP79410::setOscTrim`. -/
def setOscTrim (w : TwoWire σ) (b : Bus σ) (trim : Int) : Bool × Bus σ :=
  let r := deviceWriteRegisterByte w b REG_OSCTRIM (oscTrimValue trim)
  (decide (r.1 = 0), r.2)

end MCP79410

namespace MCP79410MemoryBase

variable {σ : Type}

/-- The loop of `MCP79410MemoryBase::erase` over the accessor's `writeData`. Every pass
moves `offset` forward by at least one, so `len` passes are enough and the first
argument counts them down. -/
def eraseLoop (writeData : Bus σ → Nat → List Nat → Nat → Bool × Bus σ) (buf : List Nat)
    (len : Nat) : Nat → Nat → Bool → Bus σ → Bool × Bus σ
  | 0, _, bResult, b => (bResult, b)
  | fuel + 1, offset, bResult, b =>
    if offset < len then
      let count := if 16 > len - offset then len - offset else 16
      let r := writeData b offset buf count
      if r.1 = false then r
      else eraseLoop writeData buf len fuel (offset + count) r.1 r.2
    else
      (bResult, b)

/-- The function `MCP79410MemoryBase::erase`, given the accessor's `length()`, `eraseValue()`
and `writeData`. -/
def erase (length eraseValue : Nat)
    (writeData : Bus σ → Nat → List Nat → Nat → Bool × Bus σ) (b : Bus σ) : Bool × Bus σ :=
  eraseLoop writeData (List.replicate 16 eraseValue) length length 0 false b

end MCP79410MemoryBase

/-- The function `erase` of the SRAM accessor. -/
def MCP79410SRAM.erase {σ : Type} (w : TwoWire σ) (bits : Nat) (b : Bus σ) : Bool × Bus σ :=
  MCP79410MemoryBase.erase MCP79410SRAM.length MCP79410SRAM.eraseValue
    (fun b addr data dataLen => MCP79410SRAM.writeData w bits b addr data dataLen) b

/-- The function `erase` of the EEPROM accessor. -/
def MCP79410EEPROM.erase {σ : Type} (w : TwoWire σ) (bits : Nat) (b : Bus σ) : Bool × Bus σ :=
  MCP79410MemoryBase.erase MCP79410EEPROM.length MCP79410EEPROM.eraseValue
    (fun b addr data dataLen => MCP79410EEPROM.writeData w bits b addr data dataLen) b

/-- A chip that is a byte-addressed memory behind each device address: `mem dev a` is
the byte at address `a` of device `dev`, `ptr dev` the address pointer of the device. -/
structure Chip where
  mem : Nat → Nat → Nat
  ptr : Nat → Nat

namespace Chip

/-- Store the bytes `ds` at the addresses `a`, `a + 1`, ... (modulo 256). -/
def store (m : Nat → Nat) : Nat → List Nat → Nat → Nat
  | _, [] => m
  | a, d :: ds => store (fun x => if x = a % 256 then d else m x) (a + 1) ds

/-- The `count` bytes at the addresses `p`, `p + 1`, ... (modulo 256). -/
def load (m : Nat → Nat) (p count : Nat) : List Nat :=
  (List.range count).map (fun i => m ((p + i) % 256))

end Chip

/-- The chip after a transmission to device `dev` that starts at address `a` and
carries the bytes `ds`. -/
def Chip.write (s : Chip) (dev a : Nat) (ds : List Nat) : Chip where
  mem := fun d => if d = dev then Chip.store (s.mem dev) a ds else s.mem d
  ptr := fun d => if d = dev then (a + ds.length) % 256 else s.ptr d

/-- The bytes a read request for `count` bytes from device `dev` delivers, and the chip
after it. -/
def Chip.read (s : Chip) (dev count : Nat) : List Nat × Chip :=
  (Chip.load (s.mem dev) (s.ptr dev) count,
    { mem := s.mem, ptr := fun d => if d = dev then (s.ptr dev + count) % 256 else s.ptr d })

/-- The bus of the memory chip, on which every transaction succeeds: a transmission
sets the address pointer of the device from its first byte and stores the bytes that
follow from there on (an empty transmission is only acknowledged); a read request
delivers the bytes from the address pointer on. -/
def chipWire : TwoWire Chip where
  endTransmission := fun s dev data _ =>
    match data with
    | [] => (0, s)
    | a :: ds => (0, s.write dev a ds)
  requestFrom := fun s dev count => s.read dev count

/-- A chip whose clock registers read 2019-02-25 13:01:26 with the oscillator running
and the battery enabled, the control register `0x83`, the weekday byte of alarm 1
`0x9a`, and every other byte `0x00`. -/
def sampleChip : Chip where
  mem := fun dev a =>
    if dev = 0x6f then
      (if a = 0 then 0xa6 else if a = 1 then 0x01 else if a = 2 then 0x13
        else if a = 3 then 0x2a else if a = 4 then 0x25 else if a = 5 then 0x02
        else if a = 6 then 0x19 else if a = 7 then 0x83 else if a = 0x14 then 0x9a else 0)
    else 0
  ptr := fun _ => 0

/-- The sample chip with the oscillator stopped: the weekday register reads `0x0a`, the
year register still `0x19`. -/
def haltedChip : Chip where
  mem := fun dev a => if dev = 0x6f ∧ a = 3 then 0x0a else sampleChip.mem dev a
  ptr := fun _ => 0

namespace Bus

variable {σ : Type}

/-- Specification of a chunked write, in the words of the interface description: issue
the write transactions `(device, bytes)` of the list in order, run `settle` after each
one that succeeds, and stop at the first one that fails. The status returned is that of
the last transaction issued, or `stat` when the list is empty. -/
def transmitEach (w : TwoWire σ) (settle : Bus σ → Bus σ) :
    Bus σ → Int → List (Nat × List Nat) → Int × Bus σ
  | b, stat, [] => (stat, b)
  | b, _, (dev, data) :: rest =>
    let r := b.transmit w dev data true
    if r.1 ≠ 0 then r else transmitEach w settle (settle r.2) r.1 rest

/-- Specification of a chunked read, in the words of the interface description: for
each chunk `(register, count, offset)` of the list in order, address the register of
device `dev` without a stop; when that fails, stop with its status; otherwise request
`count` bytes and store the bytes delivered into the buffer from `offset` on. -/
def readEach (w : TwoWire σ) (dev : Nat) :
    Bus σ → Int → List Nat → List (Nat × Nat × Nat) → Int × List Nat × Bus σ
  | b, stat, buf, [] => (stat, buf, b)
  | b, _, buf, (reg, count, offset) :: rest =>
    let r := b.transmit w dev [reg] false
    if r.1 = 0 then
      let q := r.2.request w dev count
      readEach w dev q.2 r.1 (storeAt buf offset q.1) rest
    else
      (r.1, buf, r.2)

end Bus

namespace MCP79410EEPROM

variable {σ : Type}

/-- The function `MCP79410EEPROM::getBlockProtection`. -/
def getBlockProtection (w : TwoWire σ) (fuel : Nat) (b : Bus σ) : Option (Nat × Bus σ) :=
  (MCP79410.deviceRead w fuel b MCP79410.EEPROM_I2C_ADDR MCP79410.EEPROM_STATUS [0] 1).map
    (fun r => (if r.1 = (0 : Int) then (r.2.1.getD 0 0 >>> 2) &&& 0x3 else 0, r.2.2))

/-- The function `MCP79410EEPROM::setBlockProtection`. -/
def setBlockProtection (w : TwoWire σ) (b : Bus σ) (value : Nat) : Bool × Bus σ :=
  let buf0 := ((value &&& 3) <<< 2) % 256
  let r := MCP79410.deviceWrite w b MCP79410.EEPROM_I2C_ADDR MCP79410.EEPROM_STATUS [buf0] 1
  if r.1 = 0 then (true, MCP79410.waitForEEPROM w r.2) else (false, r.2)

end MCP79410EEPROM

/-- Modelled from the spec: the answers of the host system during one call into the
driver. `isValid` is `Time.isValid()` as the entry point asks it, `timeSyncedLast` is
`Particle.timeSyncedLast()`, `isValidLater` is `Time.isValid()` when `setRTCFromCloud`
asks it again, and `now` is `Time.now()`. -/
structure Host where
  isValid : Bool
  timeSyncedLast : Nat
  isValidLater : Bool
  now : Int

namespace MCP79410

variable {σ : Type}

/-- The function `MCP79410::eepromProtectedBlockWrite` (compiled when
`MCP79410_ENABLE_PROTECTED_WRITE` is defined). -/
def eepromProtectedBlockWrite (w : TwoWire σ) (b : Bus σ) (buf : List Nat) : Bool × Bus σ :=
  let r1 := deviceWriteRegisterByte w b REG_EE_UNLOCK 0x55
  let r2 := deviceWriteRegisterByte w r1.2 REG_EE_UNLOCK 0xaa
  let r := deviceWrite w r2.2 EEPROM_I2C_ADDR EEPROM_PROTECTED buf EEPROM_PROTECTED_BLOCK_SIZE
  if r.1 = 0 then (decide (r.1 = 0), waitForEEPROM w r.2) else (decide (r.1 = 0), r.2)

/-- The function `MCP79410::setRTCFromCloud`; `isValid` and `now` are the host's answers
to `Time.isValid()` and `Time.now()`. -/
def setRTCFromCloud (w : TwoWire σ) (self : MCP79410) (b : Bus σ) (isValid : Bool)
    (now : Int) : Bool × Bus σ :=
  if isValid = true then setRTCTime w self b now else (false, b)

/-- The function `MCP79410::loop`: the controller and the bus after the call. -/
def loop (w : TwoWire σ) (self : MCP79410) (b : Bus σ) (host : Host) : MCP79410 × Bus σ :=
  if self.timeSet = false then
    if host.isValid = true then
      if host.timeSyncedLast ≠ 0 then
        let b1 :=
          if self.timeSyncMode &&& TIME_SYNC_CLOUD_TO_RTC ≠ 0 then
            (setRTCFromCloud w self b host.isValidLater host.now).2
          else b
        ({ self with timeSet := true }, b1)
      else (self, b)
    else (self, b)
  else (self, b)

/-- A sequence of `loop()` calls, one for each entry of `hosts`, in order. -/
def loopCalls (w : TwoWire σ) (self : MCP79410) (b : Bus σ) (hosts : List Host) :
    MCP79410 × Bus σ :=
  hosts.foldl (fun sb host => loop w sb.1 sb.2 host) (self, b)

/-- The function `MCP79410::setup`: the controller after the call, the value passed to
`Time.setTime` if that call is made, and the bus after the call. `wire.begin()` issues
no transaction. -/
def setup (w : TwoWire σ) (fuel : Nat) (self : MCP79410) (b : Bus σ) (host : Host) :
    Option (MCP79410 × Option Int × Bus σ) :=
  if host.isValid = false then
    if self.timeSyncMode &&& TIME_SYNC_RTC_TO_TIME ≠ 0 then
      (getRTCTimeUnix w fuel b).map
        (fun r => ({ self with setupDone := true }, if r.1 ≠ 0 then some r.1 else none, r.2))
    else some ({ self with setupDone := true }, none, b)
  else some ({ self with setupDone := true }, none, b)

end MCP79410

/-- A bus whose answers to the transmissions are fixed in advance: the transmission
number `i` (from 0) returns the status `f i`, and the state counts the transmissions.
A read request delivers zero bytes. -/
def seqWire (f : Nat → Int) : TwoWire Nat where
  endTransmission := fun s _ _ _ => (f s, s + 1)
  requestFrom := fun s _ count => (List.replicate count 0, s)

/-- A bus on which the EEPROM never answers an acknowledge poll (status 2, address not
acknowledged) while every transmission that carries an address is acknowledged. -/
def busyWire : TwoWire Unit where
  endTransmission := fun s _ data _ =>
    match data with
    | [] => (2, s)
    | _ :: _ => (0, s)
  requestFrom := fun s _ count => (List.replicate count 0, s)

namespace MCP79410

variable {σ : Type}

/-- The function `MCP79410::setBatteryEnable`: the result, the controller after the
call and the bus after the call. -/
def setBatteryEnable (w : TwoWire σ) (fuel : Nat) (self : MCP79410) (b : Bus σ)
    (value : Bool) : Option (Bool × MCP79410 × Bus σ) :=
  let self1 := { self with batteryEnable := value }
  if self1.setupDone = true then
    (deviceWriteRegisterFlag w fuel b REG_RTCWKDAY REG_RTCWKDAY_VBATEN value).map
      (fun r => (decide (r.1 = 0), self1, r.2))
  else
    some (true, self1, b)

end MCP79410

/-- A bus that acknowledges every transmission and delivers no byte to any read
request. -/
def deafWire : TwoWire Unit where
  endTransmission := fun s _ _ _ => (0, s)
  requestFrom := fun s _ _ => ([], s)

/-- The memory chip behind a bus that loses transmissions: while the counter in the
state is positive a transmission does not reach the chip and returns status 2 (address
not acknowledged), and the counter goes down by one; after that the bus is that of the
memory chip. Read requests always reach the chip. -/
def lossyChipWire : TwoWire (Nat × Chip) where
  endTransmission := fun s dev data stop =>
    if 0 < s.1 then (2, (s.1 - 1, s.2))
    else ((chipWire.endTransmission s.2 dev data stop).1,
      (0, (chipWire.endTransmission s.2 dev data stop).2))
  requestFrom := fun s dev count =>
    ((chipWire.requestFrom s.2 dev count).1, (s.1, (chipWire.requestFrom s.2 dev count).2))

/-- The transaction goes to device `dev`, and the register address it carries, if it
carries one, lies in `lo..hi`. -/
def BusOp.inWindow (dev lo hi : Nat) : BusOp → Prop
  | BusOp.write d (r :: _) _ => d = dev ∧ lo ≤ r ∧ r ≤ hi
  | BusOp.write d [] _ => d = dev
  | BusOp.read d _ => d = dev

/-- The bus `b2` is the bus `b1` after further transactions, all of them to device `dev`
and with register addresses in `lo..hi`. -/
def Bus.within {σ : Type} (dev lo hi : Nat) (b1 b2 : Bus σ) : Prop :=
  ∃ ops, b2.log = b1.log ++ ops ∧ ∀ op ∈ ops, op.inWindow dev lo hi

/-! ## Calendar arithmetic of the `gmtime` and `mktime` models -/

theorem daysBeforeYear_succ (y : Int) :
    daysBeforeYear (y + 1) = daysBeforeYear y + (if isLeapYear y = true then 366 else 365) := by
  unfold daysBeforeYear isLeapYear
  have e1 : y + 1 - 1970 = y - 1970 + 1 := by ring
  have e2 : y + 1 - 1969 = y - 1969 + 1 := by ring
  have e3 : y + 1 - 1901 = y - 1901 + 1 := by ring
  have e4 : y + 1 - 1601 = y - 1601 + 1 := by ring
  rw [e1, e2, e3, e4]
  by_cases h4 : y % 4 = 0 <;> by_cases h100 : y % 100 = 0 <;> by_cases h400 : y % 400 = 0 <;>
    simp [h4, h100, h400] <;> omega

theorem isLeapYear_century (y : Int) (h0 : 2000 ≤ y) (h1 : y ≤ 2099) :
    isLeapYear y = decide (y % 4 = 0) := by
  unfold isLeapYear
  by_cases h : y % 4 = 0
  · have h4 : y % 100 ≠ 0 ∨ y % 400 = 0 := by omega
    rcases h4 with h4 | h4 <;> simp [h, h4]
  · have h4 : y % 400 ≠ 0 := by omega
    simp [h, h4]

theorem daysBeforeYear_century (y : Int) (h0 : 2000 ≤ y) (h1 : y ≤ 2100) :
    daysBeforeYear y = 365 * (y - 1970) + (y - 1969) / 4 := by
  unfold daysBeforeYear
  rcases (by omega : y = 2000 ∨ 2001 ≤ y) with h | h
  · subst h; norm_num
  · have e1 : (y - 1901) / 100 = 1 := by omega
    have e2 : (y - 1601) / 400 = 1 := by omega
    omega

theorem daysBeforeYear_epoch : daysBeforeYear 1970 = 0 := by decide

theorem daysBeforeMonth_succ (leap : Bool) (mon : Int) (h0 : 0 ≤ mon) (h1 : mon ≤ 10) :
    daysBeforeMonth leap (mon + 1) = daysBeforeMonth leap mon + daysInMonth leap mon := by
  interval_cases mon <;> cases leap <;> decide

/-- Year and day of year inside a century without a skipped leap day. -/
theorem erayear_century (ed : Int) (h0 : 0 ≤ ed) (h1 : ed < 36524) :
    let ey := (ed - ed / 1460) / 365
    let yd := ed - (365 * ey + ey / 4)
    0 ≤ ey ∧ ey ≤ 99 ∧ 0 ≤ yd ∧ yd ≤ 365 ∧ (yd = 365 → ey % 4 = 3) := by
  intro ey yd
  have hey : ey = (ed - ed / 1460) / 365 := rfl
  have hyd : yd = ed - (365 * ey + ey / 4) := rfl
  clear_value ey yd
  generalize hq : ed / 1461 = q at *
  generalize hr : ed % 1461 = r at *
  generalize hb : ed / 1460 = b at *
  have hb1 : b = q ∨ b = q + 1 := by omega
  have hb2 : b = q + 1 → 1436 ≤ r := by omega
  have hey2 : ey = 4 * q + (r - (b - q)) / 365 := by omega
  omega

/-- Month and day of month from the day of a year that starts on 1 March. -/
theorem month_day (leap : Bool) (yd : Int) (h0 : 0 ≤ yd) (h1 : yd ≤ 365)
    (hl : yd = 365 → leap = true) :
    0 ≤ (if (5 * yd + 2) / 153 < 10 then (5 * yd + 2) / 153 + 2 else (5 * yd + 2) / 153 - 10) ∧
    (if (5 * yd + 2) / 153 < 10 then (5 * yd + 2) / 153 + 2 else (5 * yd + 2) / 153 - 10) ≤ 11 ∧
    1 ≤ yd - (153 * ((5 * yd + 2) / 153) + 2) / 5 + 1 ∧
    yd - (153 * ((5 * yd + 2) / 153) + 2) / 5 + 1 ≤ daysInMonth leap
      (if (5 * yd + 2) / 153 < 10 then (5 * yd + 2) / 153 + 2 else (5 * yd + 2) / 153 - 10) ∧
    ((if (5 * yd + 2) / 153 < 10 then (5 * yd + 2) / 153 + 2 else (5 * yd + 2) / 153 - 10) ≤ 1
      ↔ 306 ≤ yd) ∧
    daysBeforeMonth leap
      (if (5 * yd + 2) / 153 < 10 then (5 * yd + 2) / 153 + 2 else (5 * yd + 2) / 153 - 10)
      + (yd - (153 * ((5 * yd + 2) / 153) + 2) / 5 + 1 - 1)
      = if 306 ≤ yd then yd - 306 else yd + 59 + (if leap = true then 1 else 0) := by
  generalize hmp : (5 * yd + 2) / 153 = mp
  have hmp0 : 0 ≤ mp := by omega
  have hmp1 : mp ≤ 11 := by omega
  have h306 : 306 ≤ yd ↔ 10 ≤ mp := by omega
  simp only [h306]
  have hl2 : leap = false → yd ≤ 364 := by
    intro h
    rcases (by omega : yd = 365 ∨ yd ≤ 364) with h365 | h364
    · rw [hl h365] at h; exact absurd h (by decide)
    · exact h364
  clear hl
  cases leap
  · have hl3 := hl2 rfl
    interval_cases mp <;> simp [daysBeforeMonth, daysInMonth] <;> omega
  · interval_cases mp <;> simp [daysBeforeMonth, daysInMonth] <;> omega

/-- The calendar date of `gmtime` in 2000..2099. -/
theorem gmtime_date (time : Int) (h0 : 946684800 ≤ time) (h1 : time < 4102444800) :
    0 ≤ (gmtime time).tm_mon ∧ (gmtime time).tm_mon ≤ 11 ∧ 1 ≤ (gmtime time).tm_mday ∧
      (gmtime time).tm_mday ≤
        daysInMonth (isLeapYear ((gmtime time).tm_year + 1900)) (gmtime time).tm_mon ∧
      100 ≤ (gmtime time).tm_year ∧ (gmtime time).tm_year ≤ 199 ∧
      daysBeforeYear ((gmtime time).tm_year + 1900)
        + daysBeforeMonth (isLeapYear ((gmtime time).tm_year + 1900)) (gmtime time).tm_mon
        + ((gmtime time).tm_mday - 1) = time / 86400 := by
  have hsimp : ∀ x : Int, x - 1900 + 1900 = x := fun x => by ring
  simp only [gmtime, hsimp]
  generalize hD : time / 86400 = D
  have hD0 : 10957 ≤ D := by omega
  have hD1 : D < 47482 := by omega
  clear hD h0 h1
  generalize he : (D + 719468) / 146097 = era
  have hera : era = 4 ∨ era = 5 := by omega
  generalize hed : D + 719468 - era * 146097 = ed
  generalize hey : (ed - ed / 1460 + ed / 36524 - ed / 146096) / 365 = ey
  generalize hyd : ed - (365 * ey + ey / 4 - ey / 100) = yd
  have key : 0 ≤ yd ∧ yd ≤ 365 ∧ (yd = 365 → ey % 4 = 3) ∧
      ((era = 4 ∧ ey = 399 ∧ 306 ≤ yd) ∨ (era = 5 ∧ 0 ≤ ey ∧ ey ≤ 99)) := by
    rcases hera with h | h
    · have hed0 : 146037 ≤ ed ∧ ed < 146097 := by omega
      have : ey = 399 := by omega
      omega
    · have hed0 : 0 ≤ ed ∧ ed < 36465 := by omega
      have e3 : ed / 36524 = 0 := by omega
      have e4 : ed / 146096 = 0 := by omega
      have hc := erayear_century ed hed0.1 (by omega)
      simp only at hc
      rw [e3, e4] at hey
      have e5 : ed - ed / 1460 + 0 - 0 = ed - ed / 1460 := by ring
      rw [e5] at hey
      rw [hey] at hc
      have e6 : ey / 100 = 0 := by omega
      rw [e6] at hyd
      have e7 : 365 * ey + ey / 4 - 0 = 365 * ey + ey / 4 := by ring
      rw [e7] at hyd
      rw [hyd] at hc
      omega
  obtain ⟨hyd0, hyd1, hyd2, hcase⟩ := key
  have hD2 : D = yd + (365 * ey + ey / 4 - ey / 100) + era * 146097 - 719468 := by omega
  clear he hera hed hey hyd
  have hjan := (month_day true yd hyd0 hyd1 (fun _ => rfl)).2.2.2.2.1
  generalize hY : ey + era * 400 +
    (if (if (5 * yd + 2) / 153 < 10 then (5 * yd + 2) / 153 + 2 else (5 * yd + 2) / 153 - 10) ≤ 1
      then 1 else 0) = Y
  have hY1 : Y = ey + era * 400 + (if 306 ≤ yd then 1 else 0) := by
    rw [← hY]
    by_cases h : 306 ≤ yd
    · rw [if_pos (hjan.2 h), if_pos h]
    · rw [if_neg (fun hh => h (hjan.1 hh)), if_neg h]
  have hYr : 2000 ≤ Y ∧ Y ≤ 2099 := by
    rw [hY1]; split_ifs <;> omega
  have hleap := isLeapYear_century Y hYr.1 hYr.2
  have hdby := daysBeforeYear_century Y hYr.1 (by omega)
  have hl : yd = 365 → isLeapYear Y = true := by
    intro h
    rw [hleap, decide_eq_true_eq, hY1, if_pos (by omega)]
    have := hyd2 h
    omega
  obtain ⟨m0, m1, d0, d1, -, hsum⟩ := month_day (isLeapYear Y) yd hyd0 hyd1 hl
  refine ⟨m0, m1, d0, d1, by omega, by omega, ?_⟩
  rw [add_assoc, hsum, hdby, hleap, hY1]
  simp only [decide_eq_true_eq]
  clear hsum d0 d1 m0 m1 hl hdby hleap hY hjan hY1
  rcases hcase with ⟨h4, h399, h306⟩ | ⟨h5, hey0, hey1⟩
  · subst h4 h399
    rw [if_pos h306, if_pos h306]
    omega
  · subst h5
    have e6 : ey / 100 = 0 := by omega
    obtain ⟨k, j, hj0, hj3, rfl⟩ : ∃ k j : Int, 0 ≤ j ∧ j ≤ 3 ∧ ey = 4 * k + j :=
      ⟨ey / 4, ey % 4, by omega, by omega, by omega⟩
    interval_cases j <;> split_ifs <;> omega

/-- Time of day of `gmtime`. -/
theorem gmtime_clock (time : Int) :
    0 ≤ (gmtime time).tm_hour ∧ (gmtime time).tm_hour ≤ 23 ∧
      0 ≤ (gmtime time).tm_min ∧ (gmtime time).tm_min ≤ 59 ∧
      0 ≤ (gmtime time).tm_sec ∧ (gmtime time).tm_sec ≤ 59 ∧
      (gmtime time).tm_hour * 3600 + (gmtime time).tm_min * 60 + (gmtime time).tm_sec
        = time % 86400 := by
  simp only [gmtime]
  omega

/-- Day of the week of `gmtime`: 1 January 1970 was a Thursday. -/
theorem gmtime_wday (time : Int) : (gmtime time).tm_wday = (time / 86400 + 4) % 7 := by
  simp only [gmtime]
  omega

/-! ## The BCD codec and the masks of the getters -/

namespace MCP79410Time

theorem bcd_table : ∀ k : Nat, k < 100 →
    bcdToInt (intToBcd (k : Int)) = (k : Int) ∧ intToBcd (k : Int) < 256 ∧
      (k < 80 → intToBcd (k : Int) &&& 0x7f = intToBcd (k : Int)) ∧
      (k < 40 → intToBcd (k : Int) &&& 0x3f = intToBcd (k : Int) ∧
        intToBcd (k : Int) &&& 0x40 = 0) ∧
      (k < 20 → intToBcd (k : Int) &&& 0x1f = intToBcd (k : Int)) ∧
      (k < 8 → intToBcd (k : Int) &&& 0x7 = k ∧ intToBcd (k : Int) = k) := by
  decide

theorem bcd_of_range (n : Int) (h0 : 0 ≤ n) (h1 : n ≤ 99) :
    bcdToInt (intToBcd n) = n ∧ intToBcd n < 256 ∧
      (n < 80 → intToBcd n &&& 0x7f = intToBcd n) ∧
      (n < 40 → intToBcd n &&& 0x3f = intToBcd n ∧ intToBcd n &&& 0x40 = 0) ∧
      (n < 20 → intToBcd n &&& 0x1f = intToBcd n) ∧
      (n < 8 → ((intToBcd n &&& 0x7 : Nat) : Int) = n ∧ ((intToBcd n : Nat) : Int) = n) := by
  obtain ⟨k, rfl⟩ := Int.eq_ofNat_of_zero_le h0
  have hk : k < 100 := by omega
  obtain ⟨a, b, c, d, e, f⟩ := bcd_table k hk
  refine ⟨a, b, fun h => c (by omega), fun h => d (by omega), fun h => e (by omega), fun h => ?_⟩
  have := f (by omega)
  constructor
  · rw [this.1]
  · rw [this.2]

/-- A setter that keeps only bits disjoint from `m` stores its value in the bits of `m`. -/
theorem keep_mask (r v a m : Nat) (h : a &&& m = 0) : ((r &&& a) ||| v) &&& m = v &&& m := by
  rw [Nat.and_distrib_right, Nat.and_assoc, h, Nat.and_zero, Nat.zero_or]

/-- Bits disjoint from the mask of a getter do not reach the masked value. -/
theorem junk_mask (v g a m : Nat) (h : a &&& m = 0) : (v ||| (g &&& a)) &&& m = v &&& m := by
  rw [Nat.and_distrib_right, Nat.and_assoc, h, Nat.and_zero, Nat.or_zero]


/-- What the getters return after `fromUnixTime`, whatever the value held before. -/
theorem fromUnixTime_getters (t0 : MCP79410Time) (time : Int) (h0 : 946684800 ≤ time)
    (h1 : time < 4102444800) :
    (t0.fromUnixTime time).getYear = (gmtime time).tm_year + 1900 ∧
      (t0.fromUnixTime time).getMonth = (gmtime time).tm_mon + 1 ∧
      (t0.fromUnixTime time).getDayOfMonth = (gmtime time).tm_mday ∧
      (t0.fromUnixTime time).getDayOfWeek = (gmtime time).tm_wday ∧
      (t0.fromUnixTime time).getHour = (gmtime time).tm_hour ∧
      (t0.fromUnixTime time).getMinute = (gmtime time).tm_min ∧
      (t0.fromUnixTime time).getSecond = (gmtime time).tm_sec := by
  obtain ⟨m0, m1, d0, d1, y0, y1, -⟩ := gmtime_date time h0 h1
  obtain ⟨hh0, hh1, mi0, mi1, s0, s1, -⟩ := gmtime_clock time
  have hw := gmtime_wday time
  have d31 : (gmtime time).tm_mday ≤ 31 := by
    refine le_trans d1 ?_
    unfold daysInMonth
    split <;> (try split) <;> decide
  simp only [fromUnixTime, getYear, getMonth, getDayOfMonth, getDayOfWeek, getHour, getMinute,
    getSecond, setYear, setMonth, setDayOfMonth, setDayOfWeek, setHour, setMinute, setSecond]
  rw [if_pos (by omega : (gmtime time).tm_sec < 60)]
  rw [keep_mask _ _ _ _ (by decide : not8 0x3f &&& 0x3f = 0),
    keep_mask _ _ _ _ (by decide : not8 0x7 &&& 0x7 = 0),
    keep_mask _ _ _ _ (by decide : not8 0x7f &&& 0x7f = 0)]
  have ey : ((gmtime time).tm_year).tmod 100 = (gmtime time).tm_year - 100 := by
    rw [Int.tmod_eq_emod (by omega) (by decide)]; omega
  have by_ := bcd_of_range ((gmtime time).tm_year - 100) (by omega) (by omega)
  have bm := bcd_of_range ((gmtime time).tm_mon + 1) (by omega) (by omega)
  have bd := bcd_of_range (gmtime time).tm_mday (by omega) (by omega)
  have bw := bcd_of_range ((gmtime time).tm_wday + 1) (by omega) (by omega)
  have bh := bcd_of_range (gmtime time).tm_hour (by omega) (by omega)
  have bmi := bcd_of_range (gmtime time).tm_min (by omega) (by omega)
  have bs := bcd_of_range (gmtime time).tm_sec (by omega) (by omega)
  rw [ey, by_.1, (bm.2.2.2.2.1 (by omega)), bm.1, (bd.2.2.2.1 (by omega)).1, bd.1,
    (bmi.2.2.1 (by omega)), bmi.1, (bs.2.2.1 (by omega)), bs.1,
    if_neg (by rw [(bh.2.2.2.1 (by omega)).2]; decide), (bh.2.2.2.1 (by omega)).1, bh.1]
  have hwd : bcdToInt (intToBcd ((gmtime time).tm_wday + 1) &&& 7)
      = (gmtime time).tm_wday + 1 := by
    have h7 := (bw.2.2.2.2.2 (by omega)).1
    have h8 := (bw.2.2.2.2.2 (by omega)).2
    have h9 : intToBcd ((gmtime time).tm_wday + 1) &&& 7 = intToBcd ((gmtime time).tm_wday + 1) := by
      have : ((intToBcd ((gmtime time).tm_wday + 1) &&& 7 : Nat) : Int)
          = ((intToBcd ((gmtime time).tm_wday + 1) : Nat) : Int) := by rw [h7, h8]
      exact_mod_cast this
    rw [h9, bw.1]
  rw [hwd]
  refine ⟨by ring, rfl, rfl, by ring, rfl, rfl, rfl⟩


/-- The epoch round trip holds whatever the value held before `fromUnixTime`. -/
theorem roundtrip_any (t0 : MCP79410Time) (time : Int) (h0 : 946684800 ≤ time)
    (h1 : time < 4102444800) : (t0.fromUnixTime time).toUnixTime = time := by
  obtain ⟨gy, gm, gd, -, gh, gmi, gs⟩ := fromUnixTime_getters t0 time h0 h1
  obtain ⟨m0, m1, -, -, -, -, hsum⟩ := gmtime_date time h0 h1
  obtain ⟨-, -, -, -, -, -, hclk⟩ := gmtime_clock time
  simp only [toUnixTime, mktime, gy, gm, gd, gh, gmi, gs]
  have e1 : (gmtime time).tm_mon + 1 - 1 = (gmtime time).tm_mon := by ring
  have e2 : (gmtime time).tm_year + 1900 - 1900 + 1900 + (gmtime time).tm_mon / 12
      = (gmtime time).tm_year + 1900 := by omega
  have e3 : (gmtime time).tm_mon % 12 = (gmtime time).tm_mon := by omega
  rw [e1, e2, e3, hsum]
  omega

/-- C1: for every integer `n` with `0 ≤ n ≤ 99`, `bcdToInt(intToBcd(n)) = n`. -/
theorem bcdToInt_intToBcd (n : Int) (h0 : 0 ≤ n) (h1 : n ≤ 99) : bcdToInt (intToBcd n) = n :=
  (bcd_of_range n h0 h1).1

theorem bcdToInt_intToBcd_witness :
    (0 : Int) ≤ 59 ∧ (59 : Int) ≤ 99 ∧ bcdToInt (intToBcd 59) = 59 :=
  ⟨by decide, by decide, bcdToInt_intToBcd 59 (by decide) (by decide)⟩

/-- C2: for every epoch-seconds value in the years 2000 to 2099, filling a freshly
constructed time value with `fromUnixTime` and converting back with `toUnixTime`
returns the same value, `gmtime` and `mktime` being the UTC calendar conversions. -/
theorem toUnixTime_fromUnixTime (time : Int) (h0 : 946684800 ≤ time)
    (h1 : time < 4102444800) : (clear.fromUnixTime time).toUnixTime = time :=
  roundtrip_any clear time h0 h1

theorem toUnixTime_fromUnixTime_witness :
    ((946684800 : Int) ≤ 1609459199 ∧ (1609459199 : Int) < 4102444800 ∧
      (clear.fromUnixTime 1609459199).toUnixTime = 1609459199) ∧
    ((946684800 : Int) ≤ 1551484800 ∧ (1551484800 : Int) < 4102444800 ∧
      (clear.fromUnixTime 1551484800).toUnixTime = 1551484800) ∧
    ((946684800 : Int) ≤ 1551615640 ∧ (1551615640 : Int) < 4102444800 ∧
      (clear.fromUnixTime 1551615640).toUnixTime = 1551615640) :=
  ⟨⟨by decide, by decide, toUnixTime_fromUnixTime 1609459199 (by decide) (by decide)⟩,
   ⟨by decide, by decide, toUnixTime_fromUnixTime 1551484800 (by decide) (by decide)⟩,
   ⟨by decide, by decide, toUnixTime_fromUnixTime 1551615640 (by decide) (by decide)⟩⟩

/-- C3: for every epoch-seconds value in the years 2000 to 2099, after `fromUnixTime`
on a freshly constructed value the getters return the fields of `gmtime`, which are
the UTC civil date and time of that instant: the date is a valid calendar date that
lies `time / 86400` days after 1 January 1970 (year in 2000..2099, month in 1..12,
day in 1..31 and within the month), hour, minute and second are in range and make up
`time % 86400`, `getDayOfWeek` is `(time / 86400 + 4) % 7` with 0 for Sunday, and the
raw weekday byte is that value plus 1. -/
theorem fromUnixTime_fields (time : Int) (h0 : 946684800 ≤ time) (h1 : time < 4102444800) :
    ((clear.fromUnixTime time).getYear = (gmtime time).tm_year + 1900 ∧
      (clear.fromUnixTime time).getMonth = (gmtime time).tm_mon + 1 ∧
      (clear.fromUnixTime time).getDayOfMonth = (gmtime time).tm_mday ∧
      (clear.fromUnixTime time).getHour = (gmtime time).tm_hour ∧
      (clear.fromUnixTime time).getMinute = (gmtime time).tm_min ∧
      (clear.fromUnixTime time).getSecond = (gmtime time).tm_sec) ∧
    (2000 ≤ (clear.fromUnixTime time).getYear ∧ (clear.fromUnixTime time).getYear ≤ 2099 ∧
      1 ≤ (clear.fromUnixTime time).getMonth ∧ (clear.fromUnixTime time).getMonth ≤ 12 ∧
      1 ≤ (clear.fromUnixTime time).getDayOfMonth ∧
      (clear.fromUnixTime time).getDayOfMonth ≤ 31 ∧
      (clear.fromUnixTime time).getDayOfMonth ≤
        daysInMonth (isLeapYear (clear.fromUnixTime time).getYear)
          ((clear.fromUnixTime time).getMonth - 1) ∧
      0 ≤ (clear.fromUnixTime time).getHour ∧ (clear.fromUnixTime time).getHour ≤ 23 ∧
      0 ≤ (clear.fromUnixTime time).getMinute ∧ (clear.fromUnixTime time).getMinute ≤ 59 ∧
      0 ≤ (clear.fromUnixTime time).getSecond ∧ (clear.fromUnixTime time).getSecond ≤ 59) ∧
    daysBeforeYear (clear.fromUnixTime time).getYear
      + daysBeforeMonth (isLeapYear (clear.fromUnixTime time).getYear)
          ((clear.fromUnixTime time).getMonth - 1)
      + ((clear.fromUnixTime time).getDayOfMonth - 1) = time / 86400 ∧
    (clear.fromUnixTime time).getHour * 3600 + (clear.fromUnixTime time).getMinute * 60
      + (clear.fromUnixTime time).getSecond = time % 86400 ∧
    (clear.fromUnixTime time).getDayOfWeek = (time / 86400 + 4) % 7 ∧
    ((clear.fromUnixTime time).rawDayOfWeek : Int) = (time / 86400 + 4) % 7 + 1 := by
  obtain ⟨gy, gm, gd, gw, gh, gmi, gs⟩ := fromUnixTime_getters clear time h0 h1
  obtain ⟨m0, m1, d0, d1, y0, y1, hsum⟩ := gmtime_date time h0 h1
  obtain ⟨hh0, hh1, mi0, mi1, s0, s1, hclk⟩ := gmtime_clock time
  have hw := gmtime_wday time
  have d31 : (gmtime time).tm_mday ≤ 31 := by
    refine le_trans d1 ?_
    unfold daysInMonth
    split <;> (try split) <;> decide
  have e1 : (gmtime time).tm_mon + 1 - 1 = (gmtime time).tm_mon := by ring
  have hraw : ((clear.fromUnixTime time).rawDayOfWeek : Int) = (time / 86400 + 4) % 7 + 1 := by
    have bw := bcd_of_range ((gmtime time).tm_wday + 1) (by omega) (by omega)
    simp only [fromUnixTime, setYear, setMonth, setDayOfMonth, setDayOfWeek, setHour,
      setMinute, setSecond, clear]
    rw [show (1 &&& not8 7 : Nat) = 0 from by decide, Nat.zero_or,
      (bw.2.2.2.2.2 (by omega)).2, hw]
  rw [gy, gm, gd, gw, gh, gmi, gs, e1]
  refine ⟨⟨rfl, rfl, rfl, rfl, rfl, rfl⟩, ⟨by omega, by omega, by omega, by omega, d0, d31, d1,
    hh0, hh1, mi0, mi1, s0, s1⟩, hsum, hclk, hw, hraw⟩

theorem fromUnixTime_fields_witness :
    ((946684800 : Int) ≤ 1551099686 ∧ (1551099686 : Int) < 4102444800) ∧
    (clear.fromUnixTime 1551099686).getYear = 2019 ∧
    (clear.fromUnixTime 1551099686).getMonth = 2 ∧
    (clear.fromUnixTime 1551099686).getDayOfMonth = 25 ∧
    (clear.fromUnixTime 1551099686).getHour = 13 ∧
    (clear.fromUnixTime 1551099686).getMinute = 1 ∧
    (clear.fromUnixTime 1551099686).getSecond = 26 ∧
    (clear.fromUnixTime 1551099686).getDayOfWeek = 1 ∧
    (clear.fromUnixTime 1551099686).rawDayOfWeek = 2 ∧
    daysBeforeYear 2019 + daysBeforeMonth (isLeapYear 2019) (2 - 1) + (25 - 1)
      = 1551099686 / 86400 := by
  have h := fromUnixTime_fields 1551099686 (by decide) (by decide)
  refine ⟨⟨by decide, by decide⟩, ?_⟩
  obtain ⟨⟨gy, gm, gd, gh, gmi, gs⟩, -, hsum, -, hw, -⟩ := h
  have ey : (clear.fromUnixTime 1551099686).getYear = 2019 := by rw [gy]; decide
  have em : (clear.fromUnixTime 1551099686).getMonth = 2 := by rw [gm]; decide
  have ed : (clear.fromUnixTime 1551099686).getDayOfMonth = 25 := by rw [gd]; decide
  rw [ey, em, ed] at hsum
  exact ⟨ey, em, ed, by rw [gh]; decide, by rw [gmi]; decide, by rw [gs]; decide,
    by rw [hw]; decide, by decide, hsum⟩


theorem hour12_table : ∀ k : Nat, k < 13 → 1 ≤ k →
    ({ clear with rawHour := 0x40 ||| 0 ||| intToBcd (k : Int) } : MCP79410Time).getHour
      = (k : Int) % 12 ∧
    ({ clear with rawHour := 0x40 ||| 0x20 ||| intToBcd (k : Int) } : MCP79410Time).getHour
      = (k : Int) % 12 + 12 := by
  decide

/-- The 12-hour decoding of `getHour`, with the encoding of the hour byte spelled out. -/
theorem getHour_hour12 (t : MCP79410Time) (h : Int) (pm : Bool) (h1 : 1 ≤ h) (h12 : h ≤ 12) :
    ({ t with rawHour := 0x40 ||| (if pm = true then 0x20 else 0) ||| intToBcd h }).getHour
      = h % 12 + (if pm = true then 12 else 0) := by
  obtain ⟨k, rfl⟩ := Int.eq_ofNat_of_zero_le (by omega : 0 ≤ h)
  have hk := hour12_table k (by omega) (by omega)
  cases pm
  · simpa [getHour] using hk.1
  · simpa [getHour] using hk.2

/-- C4: for every 12-hour value `h` in 1..12 and every AM/PM flag, `getHour` on the raw
hour byte `0x40 | (pm ? 0x20 : 0) | intToBcd(h)` returns `h mod 12 + (pm ? 12 : 0)`, and
the 24 encodings map bijectively onto 0..23. -/
theorem getHour_12hour :
    (∀ (t : MCP79410Time) (h : Int) (pm : Bool), 1 ≤ h → h ≤ 12 →
      ({ t with rawHour := 0x40 ||| (if pm = true then 0x20 else 0) ||| intToBcd h }).getHour
        = h % 12 + (if pm = true then 12 else 0)) ∧
    Set.BijOn
      (fun p : Int × Bool =>
        ({ clear with
            rawHour := 0x40 ||| (if p.2 = true then 0x20 else 0) ||| intToBcd p.1 }).getHour)
      {p | 1 ≤ p.1 ∧ p.1 ≤ 12} {v | 0 ≤ v ∧ v ≤ 23} := by
  refine ⟨getHour_hour12, ?_, ?_, ?_⟩
  · rintro ⟨h, pm⟩ ⟨h1, h12⟩
    simp only [Set.mem_setOf_eq] at h1 h12 ⊢
    rw [getHour_hour12 clear h pm h1 h12]
    cases pm <;> simp <;> omega
  · rintro ⟨h, pm⟩ ⟨h1, h12⟩ ⟨h', pm'⟩ ⟨h1', h12'⟩ heq
    simp only at h1 h12 h1' h12' heq
    rw [getHour_hour12 clear h pm h1 h12, getHour_hour12 clear h' pm' h1' h12'] at heq
    cases pm <;> cases pm' <;> simp at heq <;> simp <;> omega
  · rintro v ⟨v0, v23⟩
    simp only [Set.mem_image, Set.mem_setOf_eq, Prod.exists]
    refine ⟨if v % 12 = 0 then 12 else v % 12, decide (12 ≤ v), ⟨?_, ?_⟩, ?_⟩
    · split_ifs <;> omega
    · split_ifs <;> omega
    · rw [getHour_hour12 clear _ _ (by split_ifs <;> omega) (by split_ifs <;> omega)]
      by_cases hv : 12 ≤ v <;> simp [hv] <;> split_ifs <;> omega

theorem getHour_12hour_witness :
    (({ clear with rawHour := 0x40 ||| (if false = true then 0x20 else 0) ||| intToBcd 12 }
        : MCP79410Time).getHour = 12 % 12 + (if false = true then 12 else 0)) ∧
    (({ clear with rawHour := 0x40 ||| (if true = true then 0x20 else 0) ||| intToBcd 12 }
        : MCP79410Time).getHour = 12 % 12 + (if true = true then 12 else 0)) ∧
    (({ clear with rawHour := 0x40 ||| (if true = true then 0x20 else 0) ||| intToBcd 1 }
        : MCP79410Time).getHour = 1 % 12 + (if true = true then 12 else 0)) :=
  ⟨getHour_12hour.1 clear 12 false (by decide) (by decide),
   getHour_12hour.1 clear 12 true (by decide) (by decide),
   getHour_12hour.1 clear 1 true (by decide) (by decide)⟩

/-- C5: for every month `m` in 1..12, `getMonth` on the raw byte `intToBcd(m) | 0x20`
(leap-year indicator set) returns `m`, the same as without the leap-year bit. -/
theorem getMonth_leap_bit (t : MCP79410Time) (m : Int) (h1 : 1 ≤ m) (h12 : m ≤ 12) :
    ({ t with rawMonth := intToBcd m ||| 0x20 }).getMonth = m ∧
      ({ t with rawMonth := intToBcd m }).getMonth = m := by
  have b := bcd_of_range m (by omega) (by omega)
  have e := junk_mask (intToBcd m) 0x20 0x20 0x1f (by decide)
  rw [show (0x20 &&& 0x20 : Nat) = 0x20 from by decide] at e
  simp only [getMonth]
  rw [e, b.2.2.2.2.1 (by omega), b.1]
  exact ⟨rfl, rfl⟩

theorem getMonth_leap_bit_witness :
    ((1 : Int) ≤ 2 ∧ (2 : Int) ≤ 12) ∧ intToBcd 2 ||| 0x20 = 0x22 ∧
      ({ clear with rawMonth := intToBcd 2 ||| 0x20 } : MCP79410Time).getMonth = 2 :=
  ⟨⟨by decide, by decide⟩, by decide,
    (getMonth_leap_bit clear 2 (by decide) (by decide)).1⟩


/-- C6: a raw byte whose used bits hold the BCD encoding of an in-range value `v` and
whose unused bits are arbitrary (`g` supplies them) is read back as `v`:
`getDayOfMonth` ignores bits 6-7, `getMinute` and `getSecond` ignore bit 7,
`getDayOfWeek` ignores bits 3-7 (raw 1..7 gives 0..6), `getMonth` ignores bits 5-7 and
`getHour` in 24-hour mode ignores bit 7. -/
theorem getters_ignore_unused_bits (t : MCP79410Time) (g : Nat) (v : Int) :
    (1 ≤ v → v ≤ 31 →
      ({ t with rawDayOfMonth := intToBcd v ||| (g &&& 0xc0) }).getDayOfMonth = v) ∧
    (0 ≤ v → v ≤ 59 → ({ t with rawMinute := intToBcd v ||| (g &&& 0x80) }).getMinute = v) ∧
    (0 ≤ v → v ≤ 59 → ({ t with rawSecond := intToBcd v ||| (g &&& 0x80) }).getSecond = v) ∧
    (0 ≤ v → v ≤ 6 →
      ({ t with rawDayOfWeek := intToBcd (v + 1) ||| (g &&& 0xf8) }).getDayOfWeek = v) ∧
    (1 ≤ v → v ≤ 12 → ({ t with rawMonth := intToBcd v ||| (g &&& 0xe0) }).getMonth = v) ∧
    (0 ≤ v → v ≤ 23 → ({ t with rawHour := intToBcd v ||| (g &&& 0x80) }).getHour = v) := by
  refine ⟨?_, ?_, ?_, ?_, ?_, ?_⟩
  · intro h0 h1
    have b := bcd_of_range v (by omega) (by omega)
    simp only [getDayOfMonth]
    rw [junk_mask _ _ _ _ (by decide), (b.2.2.2.1 (by omega)).1, b.1]
  · intro h0 h1
    have b := bcd_of_range v (by omega) (by omega)
    simp only [getMinute]
    rw [junk_mask _ _ _ _ (by decide), b.2.2.1 (by omega), b.1]
  · intro h0 h1
    have b := bcd_of_range v (by omega) (by omega)
    simp only [getSecond]
    rw [junk_mask _ _ _ _ (by decide), b.2.2.1 (by omega), b.1]
  · intro h0 h1
    have b := bcd_of_range (v + 1) (by omega) (by omega)
    have h7 := (b.2.2.2.2.2 (by omega)).1
    have h8 := (b.2.2.2.2.2 (by omega)).2
    have h9 : intToBcd (v + 1) &&& 7 = intToBcd (v + 1) := by
      have : ((intToBcd (v + 1) &&& 7 : Nat) : Int) = ((intToBcd (v + 1) : Nat) : Int) := by
        rw [h7, h8]
      exact_mod_cast this
    simp only [getDayOfWeek]
    rw [junk_mask _ _ _ _ (by decide), h9, b.1]
    ring
  · intro h0 h1
    have b := bcd_of_range v (by omega) (by omega)
    simp only [getMonth]
    rw [junk_mask _ _ _ _ (by decide), b.2.2.2.2.1 (by omega), b.1]
  · intro h0 h1
    have b := bcd_of_range v (by omega) (by omega)
    have e40 : (intToBcd v ||| (g &&& 0x80)) &&& 0x40 = 0 := by
      rw [junk_mask _ _ _ _ (by decide), (b.2.2.2.1 (by omega)).2]
    simp only [getHour]
    rw [if_neg (by rw [e40]; decide), junk_mask _ _ _ _ (by decide),
      (b.2.2.2.1 (by omega)).1, b.1]

theorem getters_ignore_unused_bits_witness :
    ({ clear with rawDayOfMonth := intToBcd 1 ||| (0x80 &&& 0xc0) } : MCP79410Time).getDayOfMonth
        = 1 ∧
    ({ clear with rawMinute := intToBcd 59 ||| (0x80 &&& 0x80) } : MCP79410Time).getMinute = 59 ∧
    ({ clear with rawSecond := intToBcd 59 ||| (0x80 &&& 0x80) } : MCP79410Time).getSecond = 59 ∧
    ({ clear with rawDayOfWeek := intToBcd (1 + 1) ||| (0x28 &&& 0xf8) }
        : MCP79410Time).getDayOfWeek = 1 ∧
    ({ clear with rawMonth := intToBcd 12 ||| (0x20 &&& 0xe0) } : MCP79410Time).getMonth = 12 ∧
    ({ clear with rawHour := intToBcd 23 ||| (0x80 &&& 0x80) } : MCP79410Time).getHour = 23 :=
  ⟨(getters_ignore_unused_bits clear 0x80 1).1 (by decide) (by decide),
   (getters_ignore_unused_bits clear 0x80 59).2.1 (by decide) (by decide),
   (getters_ignore_unused_bits clear 0x80 59).2.2.1 (by decide) (by decide),
   (getters_ignore_unused_bits clear 0x28 1).2.2.2.1 (by decide) (by decide),
   (getters_ignore_unused_bits clear 0x20 12).2.2.2.2.1 (by decide) (by decide),
   (getters_ignore_unused_bits clear 0x80 23).2.2.2.2.2 (by decide) (by decide)⟩

/-- C7: for every day of the week `d` in 0..6 (0 = Sunday) and every prior value,
`setDayOfWeek(d)` stores `d + 1` in the low three bits of the raw weekday byte and
`getDayOfWeek` afterwards returns `d`. -/
theorem setDayOfWeek_getDayOfWeek (t : MCP79410Time) (d : Int) (h0 : 0 ≤ d) (h1 : d ≤ 6) :
    (((t.setDayOfWeek d).rawDayOfWeek &&& 0x7 : Nat) : Int) = d + 1 ∧
      (t.setDayOfWeek d).getDayOfWeek = d := by
  have b := bcd_of_range (d + 1) (by omega) (by omega)
  have h7 := (b.2.2.2.2.2 (by omega)).1
  have h8 := (b.2.2.2.2.2 (by omega)).2
  have h9 : intToBcd (d + 1) &&& 7 = intToBcd (d + 1) := by
    have : ((intToBcd (d + 1) &&& 7 : Nat) : Int) = ((intToBcd (d + 1) : Nat) : Int) := by
      rw [h7, h8]
    exact_mod_cast this
  simp only [setDayOfWeek, getDayOfWeek]
  rw [keep_mask _ _ _ _ (by decide), h9, b.1]
  exact ⟨h8, by ring⟩

theorem setDayOfWeek_getDayOfWeek_witness :
    (((0 : Int) ≤ 0 ∧ (0 : Int) ≤ 6) ∧
      ((((clear.setDayOfWeek 0).rawDayOfWeek &&& 0x7 : Nat) : Int) = 0 + 1 ∧
        (clear.setDayOfWeek 0).getDayOfWeek = 0)) ∧
    (((0 : Int) ≤ 6 ∧ (6 : Int) ≤ 6) ∧
      ((((clear.setDayOfWeek 6).rawDayOfWeek &&& 0x7 : Nat) : Int) = 6 + 1 ∧
        (clear.setDayOfWeek 6).getDayOfWeek = 6)) :=
  ⟨⟨⟨by decide, by decide⟩, setDayOfWeek_getDayOfWeek clear 0 (by decide) (by decide)⟩,
   ⟨⟨by decide, by decide⟩, setDayOfWeek_getDayOfWeek clear 6 (by decide) (by decide)⟩⟩

/-- C8: each single-field alarm setter, for every prior value and every in-range
argument, yields the cleared baseline (year 0, month 1, day 1, weekday 1, hour, minute
and second 0) with exactly one field replaced and the matching alarm mode; the result
does not mention the prior value. -/
theorem setAlarm_single_field (t : MCP79410Time) (v : Int) :
    (0 ≤ v → v ≤ 59 → t.setAlarmSecond v =
      { rawYear := 0, rawMonth := 1, rawDayOfMonth := 1, rawDayOfWeek := 1, rawHour := 0,
        rawMinute := 0, rawSecond := intToBcd v, alarmMode := 0 }) ∧
    (0 ≤ v → v ≤ 59 → t.setAlarmMinute v =
      { rawYear := 0, rawMonth := 1, rawDayOfMonth := 1, rawDayOfWeek := 1, rawHour := 0,
        rawMinute := intToBcd v, rawSecond := 0, alarmMode := 1 }) ∧
    (0 ≤ v → v ≤ 23 → t.setAlarmHour v =
      { rawYear := 0, rawMonth := 1, rawDayOfMonth := 1, rawDayOfWeek := 1,
        rawHour := intToBcd v, rawMinute := 0, rawSecond := 0, alarmMode := 2 }) ∧
    (0 ≤ v → v ≤ 6 → t.setAlarmDayOfWeek v =
      { rawYear := 0, rawMonth := 1, rawDayOfMonth := 1, rawDayOfWeek := (v + 1).toNat,
        rawHour := 0, rawMinute := 0, rawSecond := 0, alarmMode := 3 }) ∧
    (1 ≤ v → v ≤ 31 → t.setAlarmDayOfMonth v =
      { rawYear := 0, rawMonth := 1, rawDayOfMonth := intToBcd v, rawDayOfWeek := 1,
        rawHour := 0, rawMinute := 0, rawSecond := 0, alarmMode := 4 }) := by
  refine ⟨?_, ?_, ?_, ?_, ?_⟩
  · intro _ _
    simp only [setAlarmSecond, setSecond, clear, ALARM_SECOND, Nat.zero_and, Nat.zero_or]
  · intro _ _
    simp only [setAlarmMinute, setMinute, clear, ALARM_MINUTE]
  · intro _ _
    simp only [setAlarmHour, setHour, clear, ALARM_HOUR]
  · intro h0 h1
    have b := bcd_of_range (v + 1) (by omega) (by omega)
    have h8 : intToBcd (v + 1) = (v + 1).toNat := by
      have := (b.2.2.2.2.2 (by omega)).2
      omega
    simp only [setAlarmDayOfWeek, setDayOfWeek, clear, ALARM_DAY_OF_WEEK]
    rw [show (1 &&& not8 7 : Nat) = 0 from by decide, Nat.zero_or, h8]
  · intro _ _
    simp only [setAlarmDayOfMonth, setDayOfMonth, clear, ALARM_DAY_OF_MONTH]
    rw [show (1 &&& not8 0x3f : Nat) = 0 from by decide, Nat.zero_or]

theorem setAlarm_single_field_witness :
    (clear.fromUnixTime 1551099686).setAlarmSecond 30 =
      { rawYear := 0, rawMonth := 1, rawDayOfMonth := 1, rawDayOfWeek := 1, rawHour := 0,
        rawMinute := 0, rawSecond := intToBcd 30, alarmMode := 0 } ∧
    (clear.fromUnixTime 1551099686).setAlarmMinute 40 =
      { rawYear := 0, rawMonth := 1, rawDayOfMonth := 1, rawDayOfWeek := 1, rawHour := 0,
        rawMinute := intToBcd 40, rawSecond := 0, alarmMode := 1 } ∧
    (clear.fromUnixTime 1551099686).setAlarmHour 23 =
      { rawYear := 0, rawMonth := 1, rawDayOfMonth := 1, rawDayOfWeek := 1,
        rawHour := intToBcd 23, rawMinute := 0, rawSecond := 0, alarmMode := 2 } ∧
    (clear.fromUnixTime 1551099686).setAlarmDayOfWeek 6 =
      { rawYear := 0, rawMonth := 1, rawDayOfMonth := 1, rawDayOfWeek := (6 + 1 : Int).toNat,
        rawHour := 0, rawMinute := 0, rawSecond := 0, alarmMode := 3 } ∧
    (clear.fromUnixTime 1551099686).setAlarmDayOfMonth 25 =
      { rawYear := 0, rawMonth := 1, rawDayOfMonth := intToBcd 25, rawDayOfWeek := 1,
        rawHour := 0, rawMinute := 0, rawSecond := 0, alarmMode := 4 } :=
  ⟨(setAlarm_single_field (clear.fromUnixTime 1551099686) 30).1 (by decide) (by decide),
   (setAlarm_single_field (clear.fromUnixTime 1551099686) 40).2.1 (by decide) (by decide),
   (setAlarm_single_field (clear.fromUnixTime 1551099686) 23).2.2.1 (by decide) (by decide),
   (setAlarm_single_field (clear.fromUnixTime 1551099686) 6).2.2.2.1 (by decide) (by decide),
   (setAlarm_single_field (clear.fromUnixTime 1551099686) 25).2.2.2.2 (by decide) (by decide)⟩


/-- C9, evaluated where the code departs from it: `setAlarmTime` does not clear the
value first. On a value as read from the running clock at 2019-02-25 13:01:26 (second
byte `0xa6` with the oscillator bit, weekday byte `0x2a` with the oscillator-running and
battery bits) it sets alarm mode 7 but keeps bit 7 of the old second byte and bits 3-7
of the old weekday byte, so the bytes differ from those of a freshly cleared value. -/
theorem setAlarmTime_keeps_prior_bits :
    ({ rawYear := 0x19, rawMonth := 0x02, rawDayOfMonth := 0x25, rawDayOfWeek := 0x2a,
        rawHour := 0x13, rawMinute := 0x01, rawSecond := 0xa6, alarmMode := 0 }
        : MCP79410Time).setAlarmTime 1551099746 =
      { rawYear := 0x19, rawMonth := 0x02, rawDayOfMonth := 0x25, rawDayOfWeek := 0x2a,
        rawHour := 0x13, rawMinute := 0x02, rawSecond := 0xa6, alarmMode := 7 } ∧
    clear.setAlarmTime 1551099746 =
      { rawYear := 0x19, rawMonth := 0x02, rawDayOfMonth := 0x25, rawDayOfWeek := 0x02,
        rawHour := 0x13, rawMinute := 0x02, rawSecond := 0x26, alarmMode := 7 } ∧
    ({ rawYear := 0x19, rawMonth := 0x02, rawDayOfMonth := 0x25, rawDayOfWeek := 0x2a,
        rawHour := 0x13, rawMinute := 0x01, rawSecond := 0xa6, alarmMode := 0 }
        : MCP79410Time).setAlarmTime 1551099746 ≠ clear.setAlarmTime 1551099746 := by
  decide

end MCP79410Time

/-! ## Bounds of the memory accessors -/

/-- When the sum formed in `size_t` exceeds the capacity, the SRAM read is refused and
nothing is put on the bus. -/
theorem MCP79410SRAM.sram_readData_refused {σ : Type} (w : TwoWire σ) (bits fuel : Nat) (b : Bus σ)
    (addr : Nat) (data : List Nat) (dataLen : Nat)
    (h : (addr + dataLen) % 2 ^ bits > MCP79410SRAM.length) :
    MCP79410SRAM.readData w bits fuel b addr data dataLen = some (false, data, b) := by
  simp only [MCP79410SRAM.readData, if_pos h]

theorem MCP79410SRAM.sram_writeData_refused {σ : Type} (w : TwoWire σ) (bits : Nat) (b : Bus σ)
    (addr : Nat) (data : List Nat) (dataLen : Nat)
    (h : (addr + dataLen) % 2 ^ bits > MCP79410SRAM.length) :
    MCP79410SRAM.writeData w bits b addr data dataLen = (false, b) := by
  simp only [MCP79410SRAM.writeData, if_pos h]

theorem MCP79410EEPROM.eeprom_readData_refused {σ : Type} (w : TwoWire σ) (bits fuel : Nat)
    (b : Bus σ) (addr : Nat) (data : List Nat) (dataLen : Nat)
    (h : (addr + dataLen) % 2 ^ bits > MCP79410EEPROM.length) :
    MCP79410EEPROM.readData w bits fuel b addr data dataLen = some (false, data, b) := by
  simp only [MCP79410EEPROM.readData, if_pos h]

theorem MCP79410EEPROM.eeprom_writeData_refused {σ : Type} (w : TwoWire σ) (bits : Nat) (b : Bus σ)
    (addr : Nat) (data : List Nat) (dataLen : Nat)
    (h : (addr + dataLen) % 2 ^ bits > MCP79410EEPROM.length) :
    MCP79410EEPROM.writeData w bits b addr data dataLen = (false, b) := by
  simp only [MCP79410EEPROM.writeData, if_pos h]

/-- C10, evaluated where the code departs from it: with a 32-bit `size_t`, offset
`0xFFFFFFFF` and length 2 have `offset + length` above either capacity, but the sum
formed in `size_t` wraps to 1 and passes the guard. On a bus that acknowledges
everything, all four accessors report success and issue transactions: the SRAM ones at
register `0x1f`, the EEPROM write at `0xff` (the block-protection register) and `0x00`. -/
theorem memory_bounds_wrap :
    (4294967295 < 2 ^ 32 ∧ 4294967295 + 2 > MCP79410SRAM.length ∧
      4294967295 + 2 > MCP79410EEPROM.length) ∧
    (MCP79410SRAM.readData ackWire 32 1 ⟨(), []⟩ 4294967295 [0, 0] 2).map
        (fun r => (r.1, r.2.2.log))
      = some (true, [BusOp.write 0x6f [0x1f] false, BusOp.read 0x6f 2]) ∧
    ((MCP79410SRAM.writeData ackWire 32 ⟨(), []⟩ 4294967295 [7, 8] 2).1 = true ∧
      (MCP79410SRAM.writeData ackWire 32 ⟨(), []⟩ 4294967295 [7, 8] 2).2.log
        = [BusOp.write 0x6f [0x1f, 7, 8] true]) ∧
    (MCP79410EEPROM.readData ackWire 32 1 ⟨(), []⟩ 4294967295 [0, 0] 2).map
        (fun r => (r.1, r.2.2.log))
      = some (true, [BusOp.write 0x57 [0xff] false, BusOp.read 0x57 2]) ∧
    ((MCP79410EEPROM.writeData ackWire 32 ⟨(), []⟩ 4294967295 [7, 8] 2).1 = true ∧
      (MCP79410EEPROM.writeData ackWire 32 ⟨(), []⟩ 4294967295 [7, 8] 2).2.log
        = [BusOp.write 0x57 [0xff, 7] true, BusOp.write 0x57 [] true,
           BusOp.write 0x57 [0x00, 8] true, BusOp.write 0x57 [] true]) := by
  decide

/-! ## The memory-chip model -/

theorem storeAt_append (buf : List Nat) (off : Nat) (l1 l2 : List Nat) :
    storeAt buf off (l1 ++ l2) = storeAt (storeAt buf off l1) (off + l1.length) l2 := by
  induction l1 generalizing buf off with
  | nil => simp [storeAt]
  | cons x l1 ih =>
    rw [List.cons_append, storeAt, storeAt, ih, List.length_cons]
    congr 1
    omega

theorem storeAt_length (buf : List Nat) (off : Nat) (rx : List Nat) :
    (storeAt buf off rx).length = buf.length := by
  induction rx generalizing buf off with
  | nil => simp [storeAt]
  | cons x rx ih => simp [storeAt, ih]

/-- Storing as many bytes as the buffer holds, from index 0, replaces the buffer. -/
theorem storeAt_all (rx : List Nat) : ∀ (pre buf : List Nat), buf.length = rx.length →
    storeAt (pre ++ buf) pre.length rx = pre ++ rx := by
  induction rx with
  | nil =>
    intro pre buf h
    have : buf = [] := List.length_eq_zero.mp h
    simp [storeAt, this]
  | cons x rx ih =>
    intro pre buf h
    cases buf with
    | nil => simp at h
    | cons y buf =>
      simp only [storeAt]
      have e1 : (pre ++ y :: buf).set pre.length x = (pre ++ [x]) ++ buf := by
        simp [List.set_append]
      have e2 : pre.length + 1 = (pre ++ [x]).length := by simp
      rw [e1, e2, ih (pre ++ [x]) buf (by simpa using h)]
      simp

theorem chunk_succ (buf : List Nat) (off m : Nat) :
    MCP79410.chunk buf off (m + 1) = buf.getD off 0 :: MCP79410.chunk buf (off + 1) m := by
  simp only [MCP79410.chunk, List.range_succ_eq_map, List.map_cons, List.map_map, Nat.zero_add]
  congr 1
  apply List.map_congr_left
  intro i _
  simp only [Function.comp]
  congr 1
  omega

theorem chunk_replicate (v : Nat) : ∀ (c n off : Nat), off + c ≤ n →
    MCP79410.chunk (List.replicate n v) off c = List.replicate c v := by
  intro c
  induction c with
  | zero => intro n off _; simp [MCP79410.chunk]
  | succ c ih =>
    intro n off h
    rw [chunk_succ, ih n (off + 1) (by omega), List.replicate_succ]
    congr 1
    simp [List.getD_eq_getElem?_getD, List.getElem?_replicate, show off < n by omega]

namespace Chip

theorem load_length (m : Nat → Nat) (p c : Nat) : (load m p c).length = c := by
  simp [load]

theorem load_succ (m : Nat → Nat) (p c : Nat) :
    load m p (c + 1) = m (p % 256) :: load m (p + 1) c := by
  simp only [load, List.range_succ_eq_map, List.map_cons, List.map_map, Nat.add_zero]
  congr 1
  apply List.map_congr_left
  intro i _
  simp only [Function.comp]
  congr 2
  omega

theorem load_add (m : Nat → Nat) (c1 : Nat) : ∀ (p c2 : Nat),
    load m p (c1 + c2) = load m p c1 ++ load m (p + c1) c2 := by
  induction c1 with
  | zero => intro p c2; simp [load]
  | succ c1 ih =>
    intro p c2
    rw [show c1 + 1 + c2 = (c1 + c2) + 1 by omega, load_succ, load_succ, ih (p + 1) c2]
    simp only [List.cons_append]
    congr 3
    omega

theorem load_mod (m : Nat → Nat) (p c : Nat) : load m (p % 256) c = load m p c := by
  simp only [load]
  apply List.map_congr_left
  intro i _
  rw [Nat.mod_add_mod]

theorem store_miss (ds : List Nat) : ∀ (m : Nat → Nat) (a x : Nat),
    (∀ i, i < ds.length → (a + i) % 256 ≠ x) → store m a ds x = m x := by
  induction ds with
  | nil => intro m a x _; rfl
  | cons d ds ih =>
    intro m a x h
    simp only [store]
    rw [ih _ (a + 1) x (fun i hi => by
      have := h (i + 1) (by simpa using hi)
      rwa [show a + (i + 1) = a + 1 + i by omega] at this)]
    have h0 := h 0 (by simp)
    simp only [Nat.add_zero] at h0
    rw [if_neg (fun e => h0 e.symm)]

theorem store_congr_addr (ds : List Nat) : ∀ (m : Nat → Nat) (a a2 : Nat),
    a % 256 = a2 % 256 → store m a ds = store m a2 ds := by
  induction ds with
  | nil => intro m a a2 _; rfl
  | cons d ds ih =>
    intro m a a2 h
    simp only [store]
    rw [h]
    exact ih _ (a + 1) (a2 + 1) (by omega)

theorem store_mod (ds : List Nat) (m : Nat → Nat) (a : Nat) :
    store m (a % 256) ds = store m a ds :=
  store_congr_addr ds m (a % 256) a (Nat.mod_mod _ _)

theorem store_append (l1 : List Nat) : ∀ (m : Nat → Nat) (a : Nat) (l2 : List Nat),
    store m a (l1 ++ l2) = store (store m a l1) (a + l1.length) l2 := by
  induction l1 with
  | nil => intro m a l2; rfl
  | cons d l1 ih =>
    intro m a l2
    rw [List.cons_append, store, store, ih, List.length_cons,
      show a + (l1.length + 1) = a + 1 + l1.length by omega]

theorem load_store (ds : List Nat) : ∀ (m : Nat → Nat) (a : Nat), ds.length ≤ 256 →
    load (store m a ds) a ds.length = ds := by
  induction ds with
  | nil => intro m a _; rfl
  | cons d ds ih =>
    intro m a h
    simp only [List.length_cons] at h
    rw [List.length_cons, load_succ, store, ih _ (a + 1) (by omega),
      store_miss ds _ (a + 1) (a % 256) (fun i hi => by omega)]
    simp

end Chip

namespace Chip

theorem write_mem_same (s : Chip) (dev a : Nat) (ds : List Nat) :
    (s.write dev a ds).mem dev = store (s.mem dev) a ds := by
  simp [write]

theorem write_mem_other (s : Chip) (dev a : Nat) (ds : List Nat) (d : Nat) (h : d ≠ dev) :
    (s.write dev a ds).mem d = s.mem d := by
  simp [write, h]

theorem write_nil_mem (s : Chip) (dev a : Nat) : (s.write dev a []).mem = s.mem := by
  funext d
  by_cases h : d = dev
  · subst h; simp [write, store]
  · simp [write, h]

theorem write_ptr_same (s : Chip) (dev a : Nat) (ds : List Nat) :
    (s.write dev a ds).ptr dev = (a + ds.length) % 256 := by
  simp [write]

theorem read_mem (s : Chip) (dev count : Nat) : (s.read dev count).2.mem = s.mem := rfl

theorem read_bytes (s : Chip) (dev count : Nat) :
    (s.read dev count).1 = load (s.mem dev) (s.ptr dev) count := rfl

/-- The memory of the chip after the address phase and the request of a read. -/
theorem seek_mem (s : Chip) (dev a n : Nat) :
    ((s.write dev a []).read dev n).2.mem = s.mem := by
  rw [read_mem, write_nil_mem]

/-- What a read request delivers after the address phase. -/
theorem read_after_address (s : Chip) (dev a n : Nat) :
    ((s.write dev (a % 256) []).read dev n).1 = load (s.mem dev) a n := by
  rw [read_bytes, write_nil_mem, write_ptr_same]
  simp only [List.length_nil, Nat.add_zero, Nat.mod_mod]
  exact load_mod _ _ _

end Chip

theorem chipWire_transmit (s : Chip) (dev a : Nat) (ds : List Nat) (stop : Bool) :
    chipWire.endTransmission s dev (a :: ds) stop = (0, s.write dev a ds) := rfl

theorem chipWire_poll (s : Chip) (dev : Nat) (stop : Bool) :
    chipWire.endTransmission s dev [] stop = (0, s) := rfl

theorem chipWire_request (s : Chip) (dev count : Nat) :
    chipWire.requestFrom s dev count = s.read dev count := rfl

namespace MCP79410

theorem deviceReadLoop_done {σ : Type} (w : TwoWire σ) (dev addr n fuel offset : Nat)
    (stat : Int) (buf : List Nat) (b : Bus σ) (h : ¬ offset < n) :
    deviceReadLoop w dev addr n fuel offset stat buf b = some (stat, buf, b) := by
  cases fuel <;> simp [deviceReadLoop, h]

theorem deviceWriteLoop_done {σ : Type} (w : TwoWire σ) (dev addr : Nat) (buf : List Nat)
    (n fuel offset : Nat) (stat : Int) (b : Bus σ) (h : ¬ offset < n) :
    deviceWriteLoop w dev addr buf n fuel offset stat b = (stat, b) := by
  cases fuel <;> simp [deviceWriteLoop, h]

/-- A read of up to 32 bytes from the chip: one address phase and one request. -/
theorem deviceRead_chip (k : Nat) (s : Chip) (log : List BusOp) (dev addr : Nat)
    (buf : List Nat) (n : Nat) (h0 : 0 < n) (h32 : n ≤ 32) :
    deviceRead chipWire (k + 1) ⟨s, log⟩ dev addr buf n =
      some (0, storeAt buf 0 (Chip.load (s.mem dev) addr n),
        ⟨((s.write dev (addr % 256) []).read dev n).2,
          log ++ [BusOp.write dev [addr % 256] false, BusOp.read dev n]⟩) := by
  have hc : (if n - 0 > 32 then 32 else n - 0) = n := by
    rw [if_neg (by omega)]; omega
  have htake : List.take n ((s.write dev (addr % 256) []).read dev n).1
      = Chip.load (s.mem dev) addr n := by
    rw [Chip.read_after_address]
    exact List.take_of_length_le (by rw [Chip.load_length])
  simp only [deviceRead, deviceReadLoop, if_pos h0, Bus.transmit, Bus.request,
    chipWire_transmit, chipWire_request, Nat.add_zero, hc, if_true, htake, Nat.zero_add]
  rw [deviceReadLoop_done _ _ _ _ _ _ _ _ _ (by rw [Chip.load_length]; omega)]
  simp

/-- A write of up to 31 bytes to the chip: one transaction. -/
theorem deviceWrite_chip (s : Chip) (log : List BusOp) (dev addr : Nat)
    (buf : List Nat) (n : Nat) (h0 : 0 < n) (h31 : n ≤ 31) :
    deviceWrite chipWire ⟨s, log⟩ dev addr buf n =
      (0, ⟨s.write dev (addr % 256) (chunk buf 0 n),
        log ++ [BusOp.write dev (addr % 256 :: chunk buf 0 n) true]⟩) := by
  obtain ⟨m, rfl⟩ : ∃ m, n = m + 1 := ⟨n - 1, by omega⟩
  have hc : (if m + 1 - 0 > 31 then 31 else m + 1 - 0) = m + 1 := by
    rw [if_neg (by omega)]; omega
  simp only [deviceWrite, deviceWriteLoop, if_pos h0, Bus.transmit, chipWire_transmit,
    Nat.add_zero, hc]
  rw [deviceWriteLoop_done _ _ _ _ _ _ _ _ _ (by omega)]
  simp

theorem waitForEEPROM_chip (s : Chip) (log : List BusOp) :
    waitForEEPROM chipWire ⟨s, log⟩ = ⟨s, log ++ [BusOp.write EEPROM_I2C_ADDR [] true]⟩ := by
  simp [waitForEEPROM, waitForEEPROMLoop, Bus.transmit, chipWire_poll]

end MCP79410

namespace MCP79410

/-- Reading any number of bytes from the chip, with enough fuel for the chunks of 32:
the buffer receives the bytes of the device from `addr` on and the memory of the chip
is unchanged. -/
theorem deviceReadLoop_chip (dev addr n : Nat) : ∀ (fuel offset : Nat) (stat : Int)
    (buf : List Nat) (s : Chip) (log : List BusOp), offset ≤ n → (n - offset + 31) / 32 ≤ fuel →
    ∃ b2, deviceReadLoop chipWire dev addr n fuel offset stat buf ⟨s, log⟩ =
        some (if offset < n then 0 else stat,
          storeAt buf offset (Chip.load (s.mem dev) (addr + offset) (n - offset)), b2) ∧
      b2.st.mem = s.mem := by
  intro fuel
  induction fuel with
  | zero =>
    intro offset stat buf s log h1 h2
    have h3 : ¬ offset < n := by omega
    refine ⟨⟨s, log⟩, ?_, rfl⟩
    rw [deviceReadLoop_done _ _ _ _ _ _ _ _ _ h3, if_neg h3,
      show n - offset = 0 by omega]
    rfl
  | succ fuel ih =>
    intro offset stat buf s log h1 h2
    by_cases h3 : offset < n
    · have hc : ∀ c, c = (if n - offset > 32 then 32 else n - offset) →
          ∃ b2, deviceReadLoop chipWire dev addr n (fuel + 1) offset stat buf ⟨s, log⟩ =
            some (if offset < n then 0 else stat,
              storeAt buf offset (Chip.load (s.mem dev) (addr + offset) (n - offset)), b2) ∧
          b2.st.mem = s.mem := by
        intro c hc
        have hc1 : 0 < c ∧ ((32 < n - offset ∧ c = 32) ∨ (n - offset ≤ 32 ∧ c = n - offset)) := by
          rw [hc]; split_ifs <;> omega
        have htake : List.take c ((s.write dev ((addr + offset) % 256) []).read dev c).1
            = Chip.load (s.mem dev) (addr + offset) c := by
          rw [Chip.read_after_address]
          exact List.take_of_length_le (by rw [Chip.load_length])
        obtain ⟨b2, hb2, hm2⟩ := ih (offset + c) 0 (storeAt buf offset
            (Chip.load (s.mem dev) (addr + offset) c))
          ((s.write dev ((addr + offset) % 256) []).read dev c).2
          (log ++ [BusOp.write dev [(addr + offset) % 256] false] ++ [BusOp.read dev c])
          (by omega) (by omega)
        refine ⟨b2, ?_, ?_⟩
        · simp only [deviceReadLoop, if_pos h3, Bus.transmit, Bus.request, chipWire_transmit,
            chipWire_request, ← hc, if_true, htake, Chip.load_length]
          rw [hb2]
          rw [Chip.read_mem, Chip.write_nil_mem] at *
          have e1 : n - offset = c + (n - (offset + c)) := by omega
          have e2 : addr + (offset + c) = addr + offset + c := by omega
          rw [e1, Chip.load_add, storeAt_append, Chip.load_length, e2]
          have e3 : c + (n - (offset + c)) - c = n - (offset + c) := by omega
          simp only [ite_self, e3]
        · rw [hm2, Chip.read_mem, Chip.write_nil_mem]
      exact hc _ rfl
    · have : n - offset = 0 := by omega
      refine ⟨⟨s, log⟩, ?_, rfl⟩
      rw [deviceReadLoop_done _ _ _ _ _ _ _ _ _ h3, if_neg h3, this]
      rfl

/-- One-byte writes to the EEPROM of the chip, each followed by the poll: the bytes
land at `addr + offset` and after, nothing else changes. -/
theorem deviceWriteEEPROMLoop_chip (addr : Nat) (buf : List Nat) (n : Nat) :
    ∀ (fuel offset : Nat) (stat : Int) (s : Chip) (log : List BusOp), n - offset ≤ fuel →
    ∃ b2, deviceWriteEEPROMLoop chipWire addr buf n fuel offset stat ⟨s, log⟩ =
        (if offset < n then 0 else stat, b2) ∧
      b2.st.mem EEPROM_I2C_ADDR =
        Chip.store (s.mem EEPROM_I2C_ADDR) (addr + offset) (chunk buf offset (n - offset)) ∧
      ∀ d, d ≠ EEPROM_I2C_ADDR → b2.st.mem d = s.mem d := by
  intro fuel
  induction fuel with
  | zero =>
    intro offset stat s log h
    have h3 : ¬ offset < n := by omega
    refine ⟨⟨s, log⟩, ?_, ?_, fun _ _ => rfl⟩
    · simp [deviceWriteEEPROMLoop, h3]
    · rw [show n - offset = 0 by omega]; rfl
  | succ fuel ih =>
    intro offset stat s log h
    by_cases h3 : offset < n
    · have hc : (if n - offset > 1 then 1 else n - offset) = 1 := by
        split_ifs <;> omega
      obtain ⟨b2, hb2, hm2, ho2⟩ := ih (offset + 1) 0
        (s.write EEPROM_I2C_ADDR ((addr + offset) % 256) (chunk buf offset 1))
        (log ++ [BusOp.write EEPROM_I2C_ADDR ((addr + offset) % 256 :: chunk buf offset 1) true]
          ++ [BusOp.write EEPROM_I2C_ADDR [] true]) (by omega)
      refine ⟨b2, ?_, ?_, ?_⟩
      · simp only [deviceWriteEEPROMLoop, if_pos h3, hc, Bus.transmit, chipWire_transmit,
          waitForEEPROM_chip]
        simp only [ne_eq, not_true_eq_false, if_false]
        rw [hb2]
        simp
      · have e1 : chunk buf offset 1 = [buf.getD offset 0] := chunk_succ buf offset 0
        rw [hm2, Chip.write_mem_same, Chip.store_mod, e1,
          show n - offset = (n - (offset + 1)) + 1 by omega, chunk_succ,
          show addr + (offset + 1) = addr + offset + 1 by omega]
        rfl
      · intro d hd
        rw [ho2 d hd, Chip.write_mem_other _ _ _ _ _ hd]
    · refine ⟨⟨s, log⟩, ?_, ?_, fun _ _ => rfl⟩
      · cases fuel <;> simp [deviceWriteEEPROMLoop, h3]
      · rw [show n - offset = 0 by omega]; rfl

end MCP79410

theorem mod_two_pow_bits (bits x : Nat) (hbits : 8 ≤ bits) (hx : x < 256) : x % 2 ^ bits = x :=
  Nat.mod_eq_of_lt (lt_of_lt_of_le hx (Nat.pow_le_pow_right Nat.zero_lt_two hbits))

namespace MCP79410MemoryBase

/-- Erasing on the chip through a `writeData` that stores the bytes it is given at
`base + offset` of device `dev`: the block ends up filled with the erase value. -/
theorem eraseLoop_chip (wd : Bus Chip → Nat → List Nat → Nat → Bool × Bus Chip)
    (dev base len v : Nat)
    (hwd : ∀ (b : Bus Chip) (offset count : Nat), 0 < count → count ≤ 16 →
      offset + count ≤ len →
      ∃ b2, wd b offset (List.replicate 16 v) count = (true, b2) ∧
        b2.st.mem dev = Chip.store (b.st.mem dev) (base + offset) (List.replicate count v) ∧
        ∀ d, d ≠ dev → b2.st.mem d = b.st.mem d) :
    ∀ (fuel offset : Nat) (res : Bool) (b : Bus Chip), offset ≤ len → len - offset ≤ fuel →
      ∃ b2, eraseLoop wd (List.replicate 16 v) len fuel offset res b =
          (if offset < len then true else res, b2) ∧
        b2.st.mem dev =
          Chip.store (b.st.mem dev) (base + offset) (List.replicate (len - offset) v) ∧
        ∀ d, d ≠ dev → b2.st.mem d = b.st.mem d := by
  intro fuel
  induction fuel with
  | zero =>
    intro offset res b h1 h2
    have h3 : ¬ offset < len := by omega
    refine ⟨b, ?_, ?_, fun _ _ => rfl⟩
    · simp [eraseLoop, h3]
    · rw [show len - offset = 0 by omega]; rfl
  | succ fuel ih =>
    intro offset res b h1 h2
    by_cases h3 : offset < len
    · have hc : ∀ c, c = (if 16 > len - offset then len - offset else 16) →
          ∃ b2, eraseLoop wd (List.replicate 16 v) len (fuel + 1) offset res b =
              (if offset < len then true else res, b2) ∧
            b2.st.mem dev =
              Chip.store (b.st.mem dev) (base + offset) (List.replicate (len - offset) v) ∧
            ∀ d, d ≠ dev → b2.st.mem d = b.st.mem d := by
        intro c hc
        have hc1 : 0 < c ∧ c ≤ 16 ∧ offset + c ≤ len := by
          rw [hc]; split_ifs <;> omega
        obtain ⟨b1, hb1, hm1, ho1⟩ := hwd b offset c hc1.1 hc1.2.1 hc1.2.2
        obtain ⟨b2, hb2, hm2, ho2⟩ := ih (offset + c) true b1 (by omega) (by omega)
        refine ⟨b2, ?_, ?_, fun d hd => by rw [ho2 d hd, ho1 d hd]⟩
        · simp only [eraseLoop, if_pos h3, ← hc, hb1]
          rw [if_neg (by decide), hb2]
          simp
        · rw [hm2, hm1, show len - offset = c + (len - (offset + c)) by omega,
            ← List.append_replicate_replicate, Chip.store_append, List.length_replicate,
            show base + (offset + c) = base + offset + c by omega]
      exact hc _ rfl
    · refine ⟨b, ?_, ?_, fun _ _ => rfl⟩
      · cases fuel <;> simp [eraseLoop, h3]
      · rw [show len - offset = 0 by omega]; rfl

end MCP79410MemoryBase

theorem sram_writeData_chip (bits : Nat) (hbits : 8 ≤ bits) (v : Nat) (b : Bus Chip)
    (offset count : Nat) (h0 : 0 < count) (h16 : count ≤ 16) (hlen : offset + count ≤ 64) :
    ∃ b2, MCP79410SRAM.writeData chipWire bits b offset (List.replicate 16 v) count = (true, b2) ∧
      b2.st.mem 0x6f = Chip.store (b.st.mem 0x6f) (0x20 + offset) (List.replicate count v) ∧
      ∀ d, d ≠ 0x6f → b2.st.mem d = b.st.mem d := by
  obtain ⟨s, log⟩ := b
  have e1 : (offset + count) % 2 ^ bits = offset + count :=
    mod_two_pow_bits bits _ hbits (by omega)
  have e2 : (MCP79410.REG_SRAM + offset) % 2 ^ bits = 0x20 + offset :=
    mod_two_pow_bits bits _ hbits (by simp only [MCP79410.REG_SRAM]; omega)
  have hch := chunk_replicate v count 16 0 (by omega)
  generalize List.replicate 16 v = buf at hch ⊢
  refine ⟨⟨s.write 0x6f ((0x20 + offset) % 256 % 256) (MCP79410.chunk buf 0 count),
    log ++ [BusOp.write 0x6f ((0x20 + offset) % 256 % 256 :: MCP79410.chunk buf 0 count) true]⟩,
    ?_, ?_, fun d hd => Chip.write_mem_other _ _ _ _ _ hd⟩
  · simp only [MCP79410SRAM.writeData, e1, e2, MCP79410SRAM.length,
      if_neg (by omega : ¬ offset + count > 64),
      MCP79410.deviceWrite_chip s log _ _ _ count h0 (by omega), MCP79410.REG_I2C_ADDR]
    simp
  · simp only []
    rw [Chip.write_mem_same, Chip.store_mod, Chip.store_mod, hch]

theorem eeprom_writeData_chip (bits : Nat) (hbits : 8 ≤ bits) (v : Nat) (b : Bus Chip)
    (offset count : Nat) (h0 : 0 < count) (h16 : count ≤ 16) (hlen : offset + count ≤ 128) :
    ∃ b2, MCP79410EEPROM.writeData chipWire bits b offset (List.replicate 16 v) count
        = (true, b2) ∧
      b2.st.mem 0x57 = Chip.store (b.st.mem 0x57) (0 + offset) (List.replicate count v) ∧
      ∀ d, d ≠ 0x57 → b2.st.mem d = b.st.mem d := by
  obtain ⟨s, log⟩ := b
  have e1 : (offset + count) % 2 ^ bits = offset + count :=
    mod_two_pow_bits bits _ hbits (by omega)
  obtain ⟨b2, hb2, hm2, ho2⟩ := MCP79410.deviceWriteEEPROMLoop_chip (offset % 256)
    (List.replicate 16 v) count count 0 0 s log (by omega)
  refine ⟨b2, ?_, ?_, ho2⟩
  · simp only [MCP79410EEPROM.writeData, e1, MCP79410EEPROM.length,
      if_neg (by omega : ¬ offset + count > 128), MCP79410.deviceWriteEEPROM, hb2, if_pos h0]
    simp
  · have hm3 := hm2
    simp only [MCP79410.EEPROM_I2C_ADDR] at hm3
    rw [hm3, Nat.add_zero, Nat.sub_zero, Chip.store_mod, Nat.zero_add,
      chunk_replicate v count 16 0 (by omega)]

/-- C11: on the chip that is a byte-addressed memory, where every transaction succeeds,
`erase()` returns success and `readData(0, length())` afterwards returns `length()`
bytes all equal to the erase value: 64 bytes of `0x00` for the SRAM, 128 bytes of `0xff`
for the EEPROM. The `size_t` width is any number of bits from 8 on, the fuel any that
covers the chunks of 32 bytes, the caller's buffer any of the right length. -/
theorem erase_reads_back (bits : Nat) (hbits : 8 ≤ bits) (s : Chip) (log : List BusOp)
    (fuel : Nat) (data : List Nat) :
    (2 ≤ fuel → data.length = 64 →
      (MCP79410SRAM.erase chipWire bits ⟨s, log⟩).1 = true ∧
      ∃ b2, MCP79410SRAM.readData chipWire bits fuel
          (MCP79410SRAM.erase chipWire bits ⟨s, log⟩).2 0 data 64
        = some (true, List.replicate 64 0x00, b2)) ∧
    (4 ≤ fuel → data.length = 128 →
      (MCP79410EEPROM.erase chipWire bits ⟨s, log⟩).1 = true ∧
      ∃ b2, MCP79410EEPROM.readData chipWire bits fuel
          (MCP79410EEPROM.erase chipWire bits ⟨s, log⟩).2 0 data 128
        = some (true, List.replicate 128 0xff, b2)) := by
  have e64 : (0 + 64) % 2 ^ bits = 64 := mod_two_pow_bits bits _ hbits (by decide)
  have e128 : (0 + 128) % 2 ^ bits = 128 := mod_two_pow_bits bits _ hbits (by decide)
  have e32 : MCP79410.REG_SRAM % 2 ^ bits = 0x20 :=
    mod_two_pow_bits bits _ hbits (by decide)
  constructor
  · intro hf hd
    obtain ⟨b1, hb1, hm1, -⟩ := MCP79410MemoryBase.eraseLoop_chip
      (fun b addr data dataLen => MCP79410SRAM.writeData chipWire bits b addr data dataLen)
      0x6f 0x20 64 0 (sram_writeData_chip bits hbits 0) 64 0 false ⟨s, log⟩ (by decide)
      (by decide)
    have he : MCP79410SRAM.erase chipWire bits ⟨s, log⟩ = (true, b1) := by
      simp only [MCP79410SRAM.erase, MCP79410MemoryBase.erase, MCP79410SRAM.length,
        MCP79410SRAM.eraseValue]
      rw [hb1]; rfl
    rw [he]
    refine ⟨rfl, ?_⟩
    obtain ⟨s1, log1⟩ := b1
    obtain ⟨b2, hb2, -⟩ := MCP79410.deviceReadLoop_chip 0x6f 0x20 64 fuel 0 0 data s1 log1
      (by decide) (by omega)
    refine ⟨b2, ?_⟩
    have hl : Chip.load (s1.mem 0x6f) 0x20 64 = List.replicate 64 0 := by
      simp only at hm1
      rw [hm1]
      exact Chip.load_store (List.replicate 64 0) (s.mem 0x6f) 0x20 (by simp)
    have hs := storeAt_all (List.replicate 64 0) [] data (by simpa using hd)
    simp only [List.nil_append, List.length_nil] at hs
    generalize List.replicate 64 0 = z at hl hs ⊢
    simp only [Nat.add_zero, Nat.sub_zero, hl, hs] at hb2
    simp only [MCP79410SRAM.readData, e64, e32, MCP79410SRAM.length, MCP79410.deviceRead,
      MCP79410.REG_I2C_ADDR, if_neg (by decide : ¬ 64 > 64), Nat.add_zero, Nat.reduceMod, hb2]
    rfl
  · intro hf hd
    obtain ⟨b1, hb1, hm1, -⟩ := MCP79410MemoryBase.eraseLoop_chip
      (fun b addr data dataLen => MCP79410EEPROM.writeData chipWire bits b addr data dataLen)
      0x57 0 128 0xff (eeprom_writeData_chip bits hbits 0xff) 128 0 false ⟨s, log⟩ (by decide)
      (by decide)
    have he : MCP79410EEPROM.erase chipWire bits ⟨s, log⟩ = (true, b1) := by
      simp only [MCP79410EEPROM.erase, MCP79410MemoryBase.erase, MCP79410EEPROM.length,
        MCP79410EEPROM.eraseValue]
      rw [hb1]; rfl
    rw [he]
    refine ⟨rfl, ?_⟩
    obtain ⟨s1, log1⟩ := b1
    obtain ⟨b2, hb2, -⟩ := MCP79410.deviceReadLoop_chip 0x57 0 128 fuel 0 0 data s1 log1
      (by decide) (by omega)
    refine ⟨b2, ?_⟩
    have hl : Chip.load (s1.mem 0x57) 0 128 = List.replicate 128 0xff := by
      simp only at hm1
      rw [hm1]
      exact Chip.load_store (List.replicate 128 0xff) (s.mem 0x57) 0 (by simp)
    have hs := storeAt_all (List.replicate 128 0xff) [] data (by simpa using hd)
    simp only [List.nil_append, List.length_nil] at hs
    generalize List.replicate 128 0xff = z at hl hs ⊢
    simp only [Nat.add_zero, Nat.sub_zero, hl, hs] at hb2
    simp only [MCP79410EEPROM.readData, e128, MCP79410EEPROM.length, MCP79410.deviceRead,
      MCP79410.EEPROM_I2C_ADDR, if_neg (by decide : ¬ 128 > 128), Nat.reduceMod, hb2]
    rfl

theorem erase_reads_back_witness :
    ((MCP79410SRAM.erase chipWire 32 ⟨sampleChip, []⟩).1 = true ∧
      ∃ b2, MCP79410SRAM.readData chipWire 32 4
          (MCP79410SRAM.erase chipWire 32 ⟨sampleChip, []⟩).2 0 (List.replicate 64 7) 64
        = some (true, List.replicate 64 0x00, b2)) ∧
    ((MCP79410EEPROM.erase chipWire 32 ⟨sampleChip, []⟩).1 = true ∧
      ∃ b2, MCP79410EEPROM.readData chipWire 32 4
          (MCP79410EEPROM.erase chipWire 32 ⟨sampleChip, []⟩).2 0 (List.replicate 128 7) 128
        = some (true, List.replicate 128 0xff, b2)) :=
  ⟨(erase_reads_back 32 (by decide) sampleChip [] 4 (List.replicate 64 7)).1 (by decide)
      (List.length_replicate 64 7),
    (erase_reads_back 32 (by decide) sampleChip [] 4 (List.replicate 128 7)).2 (by decide)
      (List.length_replicate 128 7)⟩

/-! ## Reads put no data on the bus -/

namespace Bus

variable {σ : Type}

theorem readsOnly_refl (b : Bus σ) : b.readsOnly b :=
  ⟨[], by simp, by simp⟩

theorem readsOnly_trans {b1 b2 b3 : Bus σ} (h12 : b1.readsOnly b2) (h23 : b2.readsOnly b3) :
    b1.readsOnly b3 := by
  obtain ⟨o1, e1, p1⟩ := h12
  obtain ⟨o2, e2, p2⟩ := h23
  refine ⟨o1 ++ o2, by rw [e2, e1, List.append_assoc], ?_⟩
  intro op hop
  rcases List.mem_append.mp hop with h | h
  · exact p1 op h
  · exact p2 op h

theorem readsOnly_address (w : TwoWire σ) (b : Bus σ) (dev x : Nat) (stop : Bool) :
    b.readsOnly (b.transmit w dev [x] stop).2 :=
  ⟨[BusOp.write dev [x] stop], rfl, by simp [BusOp.carriesData]⟩

theorem readsOnly_request (w : TwoWire σ) (b : Bus σ) (dev count : Nat) :
    b.readsOnly (b.request w dev count).2 :=
  ⟨[BusOp.read dev count], rfl, by simp [BusOp.carriesData]⟩

end Bus

namespace MCP79410

variable {σ : Type}

theorem deviceReadLoop_readsOnly (w : TwoWire σ) (dev addr n : Nat) :
    ∀ (fuel offset : Nat) (stat : Int) (buf : List Nat) (b : Bus σ)
      (r : Int × List Nat × Bus σ),
      deviceReadLoop w dev addr n fuel offset stat buf b = some r → b.readsOnly r.2.2 := by
  intro fuel
  induction fuel with
  | zero =>
    intro offset stat buf b r h
    by_cases h3 : offset < n
    · simp [deviceReadLoop, h3] at h
    · simp only [deviceReadLoop, if_neg h3] at h
      obtain rfl := Option.some.inj h
      exact Bus.readsOnly_refl b
  | succ fuel ih =>
    intro offset stat buf b r h
    by_cases h3 : offset < n
    · simp only [deviceReadLoop, if_pos h3] at h
      by_cases h4 : (b.transmit w dev [(addr + offset) % 256] false).1 = 0
      · rw [if_pos h4] at h
        exact Bus.readsOnly_trans (Bus.readsOnly_address w b dev _ false)
          (Bus.readsOnly_trans (Bus.readsOnly_request w _ dev _) (ih _ _ _ _ _ h))
      · rw [if_neg h4] at h
        obtain rfl := Option.some.inj h
        exact Bus.readsOnly_address w b dev _ false
    · simp only [deviceReadLoop, if_neg h3] at h
      obtain rfl := Option.some.inj h
      exact Bus.readsOnly_refl b

theorem deviceRead_readsOnly (w : TwoWire σ) (fuel : Nat) (b : Bus σ) (dev addr : Nat)
    (buf : List Nat) (n : Nat) (r : Int × List Nat × Bus σ)
    (h : deviceRead w fuel b dev addr buf n = some r) : b.readsOnly r.2.2 :=
  deviceReadLoop_readsOnly w dev addr n fuel 0 0 buf b r h

theorem deviceReadRegisterByte_readsOnly (w : TwoWire σ) (fuel : Nat) (b : Bus σ) (addr : Nat)
    (r : Nat × Bus σ) (h : deviceReadRegisterByte w fuel b addr = some r) :
    b.readsOnly r.2 := by
  simp only [deviceReadRegisterByte, Option.map_eq_some'] at h
  obtain ⟨q, hq, rfl⟩ := h
  exact deviceRead_readsOnly w fuel b _ _ _ _ q hq

theorem getOscillatorRunning_readsOnly (w : TwoWire σ) (fuel : Nat) (b : Bus σ)
    (r : Bool × Bus σ) (h : getOscillatorRunning w fuel b = some r) : b.readsOnly r.2 := by
  simp only [getOscillatorRunning, Option.map_eq_some'] at h
  obtain ⟨q, hq, rfl⟩ := h
  exact deviceReadRegisterByte_readsOnly w fuel b _ q hq

theorem deviceReadTime_readsOnly (w : TwoWire σ) (fuel : Nat) (b : Bus σ) (addr : Nat)
    (time : MCP79410Time) (timeMode hostYear : Int) (r : Int × MCP79410Time × Bus σ)
    (h : deviceReadTime w fuel b addr time timeMode hostYear = some r) : b.readsOnly r.2.2 := by
  unfold deviceReadTime at h
  split_ifs at h
  all_goals first
    | (obtain rfl := Option.some.inj h
       exact Bus.readsOnly_refl b)
    | (simp only [Option.map_eq_some'] at h
       obtain ⟨q, hq, rfl⟩ := h
       have := deviceRead_readsOnly w fuel b _ _ _ _ q hq
       split_ifs <;> exact this)

theorem getRTCTime_readsOnly (w : TwoWire σ) (fuel : Nat) (b : Bus σ) (time : MCP79410Time)
    (r : Bool × MCP79410Time × Bus σ) (h : getRTCTime w fuel b time = some r) :
    b.readsOnly r.2.2 := by
  simp only [getRTCTime, Option.bind_eq_some] at h
  obtain ⟨q, hq, h2⟩ := h
  have h1 := deviceReadTime_readsOnly w fuel b _ _ _ _ q hq
  split_ifs at h2 with h3 h4
  · simp only [Option.map_eq_some'] at h2
    obtain ⟨o, ho, rfl⟩ := h2
    exact Bus.readsOnly_trans h1 (getOscillatorRunning_readsOnly w fuel _ o ho)
  · obtain rfl := Option.some.inj h2
    exact h1
  · obtain rfl := Option.some.inj h2
    exact h1

theorem getRTCTimeUnix_readsOnly (w : TwoWire σ) (fuel : Nat) (b : Bus σ) (r : Int × Bus σ)
    (h : getRTCTimeUnix w fuel b = some r) : b.readsOnly r.2 := by
  simp only [getRTCTimeUnix, Option.map_eq_some'] at h
  obtain ⟨q, hq, rfl⟩ := h
  exact getRTCTime_readsOnly w fuel b _ q hq

end MCP79410

/-! ## Register operations on the memory chip -/

namespace MCP79410

theorem deviceReadRegisterByte_chip (k : Nat) (s : Chip) (log : List BusOp) (addr : Nat) :
    deviceReadRegisterByte chipWire (k + 1) ⟨s, log⟩ addr =
      some (s.mem 0x6f (addr % 256),
        ⟨((s.write 0x6f (addr % 256) []).read 0x6f 1).2,
          log ++ [BusOp.write 0x6f [addr % 256] false, BusOp.read 0x6f 1]⟩) := by
  simp only [deviceReadRegisterByte, REG_I2C_ADDR,
    deviceRead_chip k s log 0x6f addr [0] 1 (by decide) (by decide)]
  rfl

theorem deviceWriteRegisterByte_chip (s : Chip) (log : List BusOp) (addr value : Nat) :
    deviceWriteRegisterByte chipWire ⟨s, log⟩ addr value =
      (0, ⟨s.write 0x6f (addr % 256) [value],
        log ++ [BusOp.write 0x6f [addr % 256, value] true]⟩) := by
  simp only [deviceWriteRegisterByte, REG_I2C_ADDR,
    deviceWrite_chip s log 0x6f addr [value] 1 (by decide) (by decide)]
  rfl

theorem deviceWriteRegisterByteMask_chip (k : Nat) (s : Chip) (log : List BusOp)
    (addr andMask orMask : Nat) :
    deviceWriteRegisterByteMask chipWire (k + 1) ⟨s, log⟩ addr andMask orMask =
      some (0,
        ⟨(((s.write 0x6f (addr % 256) []).read 0x6f 1).2).write 0x6f (addr % 256)
            [(s.mem 0x6f (addr % 256) &&& andMask) ||| orMask],
          log ++ [BusOp.write 0x6f [addr % 256] false, BusOp.read 0x6f 1,
            BusOp.write 0x6f [addr % 256, (s.mem 0x6f (addr % 256) &&& andMask) ||| orMask]
              true]⟩) := by
  simp only [deviceWriteRegisterByteMask, deviceReadRegisterByte_chip, Option.map_some',
    deviceWriteRegisterByte_chip, List.append_assoc, List.cons_append, List.nil_append]

end MCP79410

namespace MCP79410

theorem getOscillatorRunning_chip (k : Nat) (s : Chip) (log : List BusOp) :
    getOscillatorRunning chipWire (k + 1) ⟨s, log⟩ =
      some (decide (s.mem 0x6f 3 &&& 0x20 ≠ 0),
        ⟨((s.write 0x6f 3 []).read 0x6f 1).2,
          log ++ [BusOp.write 0x6f [3] false, BusOp.read 0x6f 1]⟩) := by
  simp only [getOscillatorRunning, REG_RTCWKDAY, deviceReadRegisterByte_chip, Option.map_some',
    REG_RTCWKDAY_OSCRUN]

theorem deviceWriteRegisterFlag_chip (k : Nat) (s : Chip) (log : List BusOp)
    (addr value : Nat) (set : Bool) :
    deviceWriteRegisterFlag chipWire (k + 1) ⟨s, log⟩ addr value set =
      some (0,
        ⟨(((s.write 0x6f (addr % 256) []).read 0x6f 1).2).write 0x6f (addr % 256)
            [if set = true then (s.mem 0x6f (addr % 256) &&& 0xff) ||| value
              else (s.mem 0x6f (addr % 256) &&& not8 value) ||| 0],
          log ++ [BusOp.write 0x6f [addr % 256] false, BusOp.read 0x6f 1,
            BusOp.write 0x6f [addr % 256,
              if set = true then (s.mem 0x6f (addr % 256) &&& 0xff) ||| value
              else (s.mem 0x6f (addr % 256) &&& not8 value) ||| 0] true]⟩) := by
  cases set <;> simp only [deviceWriteRegisterFlag, deviceWriteRegisterByteMask_chip, if_true,
    if_false, Bool.false_eq_true]

end MCP79410

/-! ## Validity of the clock and the alarm gates -/

namespace MCP79410

variable {σ : Type}

theorem time_block_year (m : Nat → Nat) :
    (storeAt (List.replicate 8 0) 0 (Chip.load m 0 7)).getD 6 0 = m 6 := rfl

/-- C12: `getRTCTime(time)` returns success if and only if the 7-byte read of the time
registers succeeds, the year byte read is nonzero and the oscillator-running bit (`0x20`
of register `0x03`) is read as set; it fails when that bit is clear although the year
is nonzero; the overload that returns epoch seconds returns 0 whenever the call fails;
and on the memory chip, where every transaction succeeds, the call returns with success
exactly when the year register is nonzero and the oscillator-running bit is set. -/
theorem getRTCTime_validity (w : TwoWire σ) (fuel : Nat) (b : Bus σ) (time : MCP79410Time) :
    ((∃ t2 b2, getRTCTime w fuel b time = some (true, t2, b2)) ↔
      ∃ buf b1, deviceRead w fuel b REG_I2C_ADDR REG_DATE_TIME (List.replicate 8 0) 7
          = some (0, buf, b1) ∧ buf.getD 6 0 ≠ 0 ∧
        ∃ v b2, deviceReadRegisterByte w fuel b1 REG_RTCWKDAY = some (v, b2) ∧
          v &&& REG_RTCWKDAY_OSCRUN ≠ 0) ∧
    (∀ buf b1 v b2, deviceRead w fuel b REG_I2C_ADDR REG_DATE_TIME (List.replicate 8 0) 7
          = some (0, buf, b1) → buf.getD 6 0 ≠ 0 →
        deviceReadRegisterByte w fuel b1 REG_RTCWKDAY = some (v, b2) →
        v &&& REG_RTCWKDAY_OSCRUN = 0 →
        ∃ t2, getRTCTime w fuel b time = some (false, t2, b2)) ∧
    (∀ t2 b2, getRTCTime w fuel b MCP79410Time.clear = some (false, t2, b2) →
      getRTCTimeUnix w fuel b = some (0, b2)) ∧
    (∀ (k : Nat) (s : Chip) (log : List BusOp), ∃ t2 b2,
      getRTCTime chipWire (k + 1) ⟨s, log⟩ time =
        some (decide (s.mem 0x6f 6 ≠ 0 ∧ s.mem 0x6f 3 &&& 0x20 ≠ 0), t2, b2)) := by
  refine ⟨⟨?_, ?_⟩, ?_, ?_, ?_⟩
  · rintro ⟨t2, b2, h⟩
    simp only [getRTCTime, deviceReadTime, TIME_MODE_RTC, true_or, if_true,
      Option.bind_eq_some, Option.map_eq_some'] at h
    obtain ⟨q, ⟨p, hp, rfl⟩, h2⟩ := h
    by_cases h0 : p.1 = 0
    · simp only [h0, if_true] at h2
      by_cases hy : p.2.1.getD 6 0 > 0
      · simp only [hy, if_true, getOscillatorRunning, Option.map_eq_some'] at h2
        obtain ⟨o, ⟨v, hv, rfl⟩, ho⟩ := h2
        simp only [Prod.mk.injEq, decide_eq_true_eq] at ho
        refine ⟨p.2.1, p.2.2, ?_, by omega, v.1, v.2, hv, ho.1⟩
        rw [hp, ← h0]
      · simp only [hy, if_false] at h2
        simp at h2
    · simp only [h0, if_false] at h2
      simp at h2
  · rintro ⟨buf, b1, hr, hy, v, b2, hv, hb⟩
    suffices h : ∃ t2, getRTCTime w fuel b time = some (true, t2, b2) from
      let ⟨t2, h2⟩ := h; ⟨t2, b2, h2⟩
    simp only [getRTCTime, deviceReadTime, TIME_MODE_RTC, true_or, if_true, hr, Option.map_some',
      Option.some_bind, Nat.pos_of_ne_zero hy, getOscillatorRunning, hv, gt_iff_lt,
      decide_eq_true hb]
    exact ⟨_, rfl⟩
  · intro buf b1 v b2 hr hy hv hb
    simp only [getRTCTime, deviceReadTime, TIME_MODE_RTC, true_or, if_true, hr, Option.map_some',
      Option.some_bind, Nat.pos_of_ne_zero hy, getOscillatorRunning, hv, gt_iff_lt, hb]
    exact ⟨_, rfl⟩
  · intro t2 b2 h
    simp only [getRTCTimeUnix, h, Option.map_some']
    simp
  · intro k s log
    simp only [getRTCTime, deviceReadTime, TIME_MODE_RTC, true_or, if_true, REG_I2C_ADDR,
      REG_DATE_TIME, deviceRead_chip k s log 0x6f 0 _ 7 (by decide) (by decide),
      Option.map_some', Option.some_bind, time_block_year]
    by_cases hy : s.mem 0x6f 6 = 0
    · simp only [hy]
      exact ⟨_, _, rfl⟩
    · simp only [gt_iff_lt, Nat.pos_of_ne_zero hy, if_true, getOscillatorRunning,
        REG_RTCWKDAY, deviceReadRegisterByte_chip, Option.map_some', Chip.seek_mem,
        REG_RTCWKDAY_OSCRUN]
      have hd : decide (s.mem 0x6f 6 ≠ 0 ∧ s.mem 0x6f 3 &&& 0x20 ≠ 0)
          = decide (s.mem 0x6f (3 % 256) &&& 32 ≠ 0) := by simp [hy]
      rw [hd]
      exact ⟨_, _, rfl⟩

end MCP79410

namespace MCP79410

variable {σ : Type}

theorem getRTCTime_validity_witness :
    (∃ t2 b2, getRTCTime chipWire 1 ⟨haltedChip, []⟩ MCP79410Time.clear
      = some (false, t2, b2)) ∧
    (∃ t2 b2, getRTCTime chipWire 1 ⟨sampleChip, []⟩ MCP79410Time.clear
      = some (true, t2, b2)) ∧
    getRTCTimeUnix ackWire 1 ⟨(), []⟩
      = some (0, ⟨(), [BusOp.write 0x6f [0] false, BusOp.read 0x6f 7]⟩) := by
  refine ⟨?_, ?_, ?_⟩
  · have h := (getRTCTime_validity chipWire 0 ⟨haltedChip, []⟩ MCP79410Time.clear).2.2.2
      0 haltedChip []
    rw [show decide (haltedChip.mem 0x6f 6 ≠ 0 ∧ haltedChip.mem 0x6f 3 &&& 0x20 ≠ 0) = false
      from by decide] at h
    exact h
  · have h := (getRTCTime_validity chipWire 0 ⟨sampleChip, []⟩ MCP79410Time.clear).2.2.2
      0 sampleChip []
    rw [show decide (sampleChip.mem 0x6f 6 ≠ 0 ∧ sampleChip.mem 0x6f 3 &&& 0x20 ≠ 0) = true
      from by decide] at h
    exact h
  · exact (getRTCTime_validity ackWire 1 ⟨(), []⟩ MCP79410Time.clear).2.2.1
      { rawYear := 0, rawMonth := 0, rawDayOfMonth := 0, rawDayOfWeek := 0, rawHour := 0,
        rawMinute := 0, rawSecond := 0, alarmMode := 0 }
      ⟨(), [BusOp.write 0x6f [0] false, BusOp.read 0x6f 7]⟩ rfl

/-- C13: for every time value, polarity and slot in {0, 1}, when the oscillator-running
bit of register `0x03` reads as clear, `setAlarm` returns failure and the bus is left as
the status read left it: no transaction that carries data was issued, so no alarm
register, interrupt flag or control register was written. On the memory chip the only
transactions are the address phase and the one-byte read of register `0x03`, and every
register keeps its value. -/
theorem setAlarm_needs_oscillator (time : MCP79410Time) (polarity : Bool) (alarmNum : Int)
    (hslot : alarmNum = 0 ∨ alarmNum = 1) :
    (∀ (τ : Type) (w : TwoWire τ) (fuel : Nat) (b b1 : Bus τ),
      getOscillatorRunning w fuel b = some (false, b1) →
      setAlarm w fuel b time polarity alarmNum = some (false, b1) ∧ b.readsOnly b1) ∧
    (∀ (k : Nat) (s : Chip) (log : List BusOp), s.mem 0x6f 3 &&& 0x20 = 0 →
      ∃ b1, setAlarm chipWire (k + 1) ⟨s, log⟩ time polarity alarmNum = some (false, b1) ∧
        b1.log = log ++ [BusOp.write 0x6f [0x03] false, BusOp.read 0x6f 1] ∧
        b1.st.mem = s.mem) := by
  have hg : ¬ (alarmNum < 0 ∨ alarmNum > 1) := by omega
  refine ⟨fun τ w fuel b b1 hosc => ⟨?_, getOscillatorRunning_readsOnly w fuel b _ hosc⟩,
    fun k s log hosc => ?_⟩
  · simp [setAlarm, hg, hosc]
  · have hrun : decide (s.mem 0x6f 3 &&& 0x20 ≠ 0) = false := by simp [hosc]
    simp only [setAlarm, if_neg hg, getOscillatorRunning_chip, Option.some_bind, hrun,
      Bool.false_eq_true, if_false]
    exact ⟨_, rfl, rfl, Chip.seek_mem s 0x6f 3 1⟩

theorem setAlarm_needs_oscillator_witness :
    (getOscillatorRunning ackWire 1 ⟨(), []⟩
        = some (false, ⟨(), [BusOp.write 0x6f [3] false, BusOp.read 0x6f 1]⟩) ∧
      setAlarm ackWire 1 ⟨(), []⟩ (MCP79410Time.clear.setAlarmSecond 30) true 0
        = some (false, ⟨(), [BusOp.write 0x6f [3] false, BusOp.read 0x6f 1]⟩) ∧
      Bus.readsOnly (⟨(), []⟩ : Bus Unit)
        ⟨(), [BusOp.write 0x6f [3] false, BusOp.read 0x6f 1]⟩) ∧
    haltedChip.mem 0x6f 3 &&& 0x20 = 0 ∧
    ∃ b1, setAlarm chipWire 1 ⟨haltedChip, []⟩ (MCP79410Time.clear.setAlarmSecond 30) true 0
        = some (false, b1) ∧
      b1.log = [] ++ [BusOp.write 0x6f [0x03] false, BusOp.read 0x6f 1] ∧
      b1.st.mem = haltedChip.mem :=
  ⟨⟨rfl, (setAlarm_needs_oscillator (MCP79410Time.clear.setAlarmSecond 30) true 0
      (Or.inl rfl)).1 Unit ackWire 1 ⟨(), []⟩ _ rfl⟩,
    by decide,
    (setAlarm_needs_oscillator (MCP79410Time.clear.setAlarmSecond 30) true 0
      (Or.inl rfl)).2 0 haltedChip [] (by decide)⟩

/-- C14: for every alarm slot index outside {0, 1}, both `setAlarm` overloads and
`clearAlarm` return failure and leave the bus as it was: no transaction, read or write,
is issued. -/
theorem alarm_slot_rejected (w : TwoWire σ) (fuel : Nat) (b : Bus σ) (time : MCP79410Time)
    (secondsFromNow : Int) (polarity : Bool) (alarmNum : Int)
    (hslot : alarmNum < 0 ∨ 1 < alarmNum) :
    setAlarm w fuel b time polarity alarmNum = some (false, b) ∧
      setAlarmFromNow w fuel b secondsFromNow polarity alarmNum = some (false, b) ∧
      clearAlarm w fuel b alarmNum = some (false, b) := by
  have hg : alarmNum < 0 ∨ alarmNum > 1 := hslot
  simp only [setAlarm, setAlarmFromNow, clearAlarm, if_pos hg, and_self]

theorem alarm_slot_rejected_witness :
    ((2 : Int) < 0 ∨ (1 : Int) < 2) ∧
    setAlarm chipWire 1 ⟨sampleChip, []⟩ (MCP79410Time.clear.setAlarmSecond 30) true 2
        = some (false, ⟨sampleChip, []⟩) ∧
      setAlarmFromNow chipWire 1 ⟨sampleChip, []⟩ 60 true 2 = some (false, ⟨sampleChip, []⟩) ∧
      clearAlarm chipWire 1 ⟨sampleChip, []⟩ 2 = some (false, ⟨sampleChip, []⟩) :=
  ⟨Or.inr (by decide),
    alarm_slot_rejected chipWire 1 ⟨sampleChip, []⟩ (MCP79410Time.clear.setAlarmSecond 30) 60 true
      2 (Or.inr (by decide))⟩

/-- Every slot index other than 0 is taken for alarm 1 by `getInterrupt` and
`clearInterrupt`. -/
theorem interrupt_slot_as_alarm1 (w : TwoWire σ) (fuel : Nat) (b : Bus σ) (alarmNum : Int)
    (h : alarmNum ≠ 0) :
    getInterrupt w fuel b alarmNum = getInterrupt w fuel b 1 ∧
      clearInterrupt w fuel b alarmNum = clearInterrupt w fuel b 1 := by
  simp [getInterrupt, clearInterrupt, getAlarmRegister, h]

/-- C15, evaluated where the code departs from it: `getInterrupt` and `clearInterrupt`
do not check the slot index. With index 2, on the sample chip whose alarm 1 weekday
register `0x14` holds `0x9a`, `getInterrupt` reads that register and returns true, and
`clearInterrupt` reads it and writes back `0x92`, clearing the interrupt flag of
alarm 1. -/
theorem interrupt_slot_not_checked :
    sampleChip.mem 0x6f 0x14 = 0x9a ∧
    (getInterrupt chipWire 1 ⟨sampleChip, []⟩ 2).map (fun r => (r.1, r.2.log))
      = some (true, [BusOp.write 0x6f [0x14] false, BusOp.read 0x6f 1]) ∧
    (clearInterrupt chipWire 1 ⟨sampleChip, []⟩ 2).map (fun r => (r.log, r.st.mem 0x6f 0x14))
      = some ([BusOp.write 0x6f [0x14] false, BusOp.read 0x6f 1,
          BusOp.write 0x6f [0x14, 0x92] true], 0x92) := by
  decide

end MCP79410

namespace MCP79410

/-- C16: on the memory chip with the oscillator-running bit set, `setAlarm` for slot 0 or
1 returns success; its transactions are the status read, the read and write-back that
clear the slot's interrupt flag, one write of the 6-byte block
`[rawSecond, rawMinute, rawHour, W, rawDayOfMonth, rawMonth]` at the slot's first
register (`0x0a` for slot 0, `0x11` for slot 1), and the read and write-back of control
register `0x07` with the slot's enable bit (`0x10` or `0x20`) set. Afterwards the six
alarm registers hold the block and the control register holds its old value with the
enable bit set. -/
theorem setAlarm_writes_block (k : Nat) (s : Chip) (log : List BusOp) (time : MCP79410Time)
    (polarity : Bool) (alarmNum : Int) (hslot : alarmNum = 0 ∨ alarmNum = 1)
    (hosc : s.mem 0x6f 3 &&& 0x20 ≠ 0) :
    (getAlarmRegister alarmNum 0 = if alarmNum = 0 then 0x0a else 0x11) ∧
    (getAlarmEnableBit alarmNum = if alarmNum = 0 then 0x10 else 0x20) ∧
    alarmBlock time polarity =
      [time.rawSecond, time.rawMinute, time.rawHour,
        (if polarity = true then time.rawDayOfWeek ||| 0x80
          else time.rawDayOfWeek &&& not8 0x80) ||| ((time.alarmMode &&& 7) <<< 4),
        time.rawDayOfMonth, time.rawMonth] ∧
    ∃ b2, setAlarm chipWire (k + 1) ⟨s, log⟩ time polarity alarmNum = some (true, b2) ∧
      b2.log = log ++
        [BusOp.write 0x6f [0x03] false, BusOp.read 0x6f 1,
         BusOp.write 0x6f [getAlarmRegister alarmNum 3] false, BusOp.read 0x6f 1,
         BusOp.write 0x6f [getAlarmRegister alarmNum 3,
           (s.mem 0x6f (getAlarmRegister alarmNum 3) &&& not8 0x08) ||| 0] true,
         BusOp.write 0x6f (getAlarmRegister alarmNum 0 :: alarmBlock time polarity) true,
         BusOp.write 0x6f [0x07] false, BusOp.read 0x6f 1,
         BusOp.write 0x6f [0x07, (s.mem 0x6f 0x07 &&& 0xff) ||| getAlarmEnableBit alarmNum]
           true] ∧
      Chip.load (b2.st.mem 0x6f) (getAlarmRegister alarmNum 0) 6 = alarmBlock time polarity ∧
      b2.st.mem 0x6f 0x07 = (s.mem 0x6f 0x07 &&& 0xff) ||| getAlarmEnableBit alarmNum ∧
      (s.mem 0x6f 0x07 < 256 →
        b2.st.mem 0x6f 0x07 = s.mem 0x6f 0x07 ||| getAlarmEnableBit alarmNum) := by
  have hg : ¬ (alarmNum < 0 ∨ alarmNum > 1) := by omega
  have hff : ∀ c : Nat, c < 256 → c &&& 0xff = c := fun c hc => by
    have h := Nat.and_pow_two_sub_one_eq_mod c 8
    rw [Nat.mod_eq_of_lt hc] at h
    exact h
  have hblock : chunk (alarmBlock time polarity) 0 6 = alarmBlock time polarity := rfl
  have hrun : decide (s.mem 0x6f 3 &&& 0x20 ≠ 0) = true := decide_eq_true hosc
  refine ⟨?_, ?_, rfl, ?_⟩
  · rcases hslot with rfl | rfl <;> rfl
  · rcases hslot with rfl | rfl <;> rfl
  simp only [setAlarm, if_neg hg, getOscillatorRunning_chip, Option.some_bind, hrun, if_true,
    clearInterrupt, deviceWriteRegisterFlag_chip, Option.map_some', REG_I2C_ADDR,
    deviceWrite_chip _ _ 0x6f _ _ 6 (by decide) (by decide), hblock, Chip.seek_mem,
    Bool.false_eq_true, if_false, REG_CONTROL, REG_ALARM_WKDAY_ALMIF, REG_ALARM_WKDAY_OFFSET,
    decide_True, List.append_assoc, List.cons_append, List.nil_append]
  refine ⟨_, rfl, ?_, ?_, ?_, ?_⟩
  · rcases hslot with rfl | rfl <;> rfl
  · rcases hslot with rfl | rfl <;> rfl
  · rcases hslot with rfl | rfl <;> rfl
  · intro hc
    conv_rhs => rw [← hff _ hc]
    rcases hslot with rfl | rfl <;> rfl

theorem setAlarm_writes_block_witness :
    sampleChip.mem 0x6f 3 &&& 0x20 ≠ 0 ∧
    ∃ b2, setAlarm chipWire 1 ⟨sampleChip, []⟩
        (MCP79410Time.clear.setAlarmHour 8) true 1
        = some (true, b2) ∧
      b2.st.mem 0x6f 0x07 = 0xa3 :=
  ⟨by decide,
    let ⟨b2, h1, _, _, h2, _⟩ := (setAlarm_writes_block 0 sampleChip []
      (MCP79410Time.clear.setAlarmHour 8) true 1
      (Or.inr rfl) (by decide)).2.2.2
    ⟨b2, h1, h2.trans (by decide)⟩⟩

end MCP79410

namespace MCP79410

variable {σ : Type}

/-- A write of up to 31 bytes is one transaction, on any bus. -/
theorem deviceWrite_single (w : TwoWire σ) (b : Bus σ) (dev addr : Nat) (buf : List Nat)
    (n : Nat) (h0 : 0 < n) (h31 : n ≤ 31) :
    deviceWrite w b dev addr buf n =
      ((w.endTransmission b.st dev (addr % 256 :: chunk buf 0 n) true).1,
        ⟨(w.endTransmission b.st dev (addr % 256 :: chunk buf 0 n) true).2,
          b.log ++ [BusOp.write dev (addr % 256 :: chunk buf 0 n) true]⟩) := by
  obtain ⟨m, rfl⟩ : ∃ m, n = m + 1 := ⟨n - 1, by omega⟩
  have hc : (if m + 1 - 0 > 31 then 31 else m + 1 - 0) = m + 1 := by
    rw [if_neg (by omega)]; omega
  simp only [deviceWrite, deviceWriteLoop, if_pos h0, Bus.transmit, Nat.add_zero, hc]
  split_ifs with h
  · rfl
  · rw [deviceWriteLoop_done _ _ _ _ _ _ _ _ _ (by omega)]

/-- C17: for slot 0 or 1, `setAlarm(secondsFromNow, polarity, slot)` first reads the
clock as epoch seconds. When that read returns 0 the call returns failure and no
transaction carrying data was issued. When it returns `r ≠ 0` the call is
`setAlarm(T, polarity, slot)`, continued on the bus as the read left it, for `T` a fresh
time value after `setAlarmTime(r + secondsFromNow)`; `T` holds the fields of that moment
and alarm mode 7. -/
theorem setAlarmFromNow_delegates (w : TwoWire σ) (fuel : Nat) (b : Bus σ)
    (secondsFromNow : Int) (polarity : Bool) (alarmNum : Int)
    (hslot : alarmNum = 0 ∨ alarmNum = 1) :
    (∀ b1, getRTCTimeUnix w fuel b = some (0, b1) →
      setAlarmFromNow w fuel b secondsFromNow polarity alarmNum = some (false, b1) ∧
        b.readsOnly b1) ∧
    (∀ r b1, getRTCTimeUnix w fuel b = some (r, b1) → r ≠ 0 →
      setAlarmFromNow w fuel b secondsFromNow polarity alarmNum =
        setAlarm w fuel b1 (MCP79410Time.clear.setAlarmTime (r + secondsFromNow)) polarity
          alarmNum) ∧
    (∀ r : Int, (MCP79410Time.clear.setAlarmTime (r + secondsFromNow)).alarmMode = 7 ∧
      MCP79410Time.clear.setAlarmTime (r + secondsFromNow) =
        { MCP79410Time.clear.fromUnixTime (r + secondsFromNow) with alarmMode := 7 }) := by
  have hg : ¬ (alarmNum < 0 ∨ alarmNum > 1) := by omega
  refine ⟨fun b1 h => ⟨?_, getRTCTimeUnix_readsOnly w fuel b _ h⟩, fun r b1 h hr => ?_,
    fun r => ⟨rfl, rfl⟩⟩
  · simp [setAlarmFromNow, hg, h]
  · simp [setAlarmFromNow, hg, h, hr]

theorem setAlarmFromNow_delegates_witness :
    (getRTCTimeUnix ackWire 1 ⟨(), []⟩
        = some (0, ⟨(), [BusOp.write 0x6f [0] false, BusOp.read 0x6f 7]⟩) ∧
      setAlarmFromNow ackWire 1 ⟨(), []⟩ 60 true 0
        = some (false, ⟨(), [BusOp.write 0x6f [0] false, BusOp.read 0x6f 7]⟩)) ∧
    ∃ b1, getRTCTimeUnix chipWire 1 ⟨sampleChip, []⟩ = some (1551099686, b1) ∧
      setAlarmFromNow chipWire 1 ⟨sampleChip, []⟩ 60 true 0 =
        setAlarm chipWire 1 b1 (MCP79410Time.clear.setAlarmTime (1551099686 + 60)) true 0 := by
  refine ⟨⟨rfl, ((setAlarmFromNow_delegates ackWire 1 ⟨(), []⟩ 60 true 0 (Or.inl rfl)).1
    _ rfl).1⟩, ?_⟩
  have h : (getRTCTimeUnix chipWire 1 ⟨sampleChip, []⟩).map Prod.fst = some 1551099686 := by
    decide
  obtain ⟨⟨r, b1⟩, hr, hr1⟩ := Option.map_eq_some'.1 h
  have hr2 : r = 1551099686 := hr1
  subst hr2
  exact ⟨b1, hr, (setAlarmFromNow_delegates chipWire 1 ⟨sampleChip, []⟩ 60 true 0
    (Or.inl rfl)).2.1 _ b1 hr (by decide)⟩

/-- Splitting a masked read of a value that was masked and then or-ed. -/
theorem mask_split (c a v m : Nat) : (c &&& a ||| v) &&& m = c &&& (a &&& m) ||| (v &&& m) := by
  rw [Nat.and_distrib_right, Nat.and_assoc]

theorem or_absorb (x y : Nat) : x &&& y ||| y = y := by
  apply Nat.eq_of_testBit_eq
  intro i
  rw [Nat.testBit_or, Nat.testBit_and]
  cases x.testBit i <;> cases y.testBit i <;> rfl

theorem squareWave_guard_table : ∀ f : Nat, f < 256 →
    (4 ≤ f → f &&& not8 SQUARE_WAVE_MASK ≠ 0) ∧ (f < 4 → ¬ f &&& not8 SQUARE_WAVE_MASK ≠ 0) := by
  set_option maxRecDepth 100000 in decide

theorem squareWave_bits_table : ∀ f : Nat, f < 4 →
    (not8 0x33 &&& 0x30 = 0 ∧ (0x40 ||| f) &&& 0x30 = 0) ∧
    (not8 0x33 &&& 0x40 = 0x40 ∧ (0x40 ||| f) &&& 0x40 = 0x40) ∧
    (not8 0x33 &&& 0x03 = 0 ∧ (0x40 ||| f) &&& 0x03 = f) ∧
    (not8 0x33 &&& 0x8c = 0x8c ∧ (0x40 ||| f) &&& 0x8c = 0) := by
  decide

theorem oscTrim_table : ∀ k : Nat, k < 255 →
    oscTrimValue ((k : Int) - 127) &&& 0x7f = ((k : Int) - 127).natAbs ∧
    (oscTrimValue ((k : Int) - 127) &&& 0x80 ≠ 0 ↔ 0 ≤ (k : Int) - 127) ∧
    oscTrimValue ((k : Int) - 127) < 256 := by
  set_option maxRecDepth 100000 in decide

/-- C18: on the memory chip, for every `freq` in 0..3 and every prior value `c` of control
register `0x07`, `setSquareWaveMode(freq)` returns success and leaves the register equal
to `(c & ~0x33) | 0x40 | freq`: both alarm-enable bits are clear, square-wave enable is
set, the low two bits equal `freq`, and bits `0x80`, `0x08`, `0x04` are those of `c`. On
any bus, for every `freq` below 256 with a bit outside `0x03` set, the call returns
failure and issues no transaction. -/
theorem setSquareWaveMode_control (freq : Nat) :
    (freq < 4 → ∀ (k : Nat) (s : Chip) (log : List BusOp),
      ∃ b2, setSquareWaveMode chipWire (k + 1) ⟨s, log⟩ freq = some (true, b2) ∧
        b2.st.mem 0x6f 0x07 = (s.mem 0x6f 0x07 &&& not8 0x33) ||| (0x40 ||| freq)) ∧
    (freq < 4 → ∀ c : Nat,
      ((c &&& not8 0x33) ||| (0x40 ||| freq)) &&& 0x30 = 0 ∧
      ((c &&& not8 0x33) ||| (0x40 ||| freq)) &&& 0x40 = 0x40 ∧
      ((c &&& not8 0x33) ||| (0x40 ||| freq)) &&& 0x03 = freq ∧
      ((c &&& not8 0x33) ||| (0x40 ||| freq)) &&& 0x8c = c &&& 0x8c) ∧
    (4 ≤ freq → freq < 256 → ∀ (τ : Type) (w : TwoWire τ) (fuel : Nat) (b : Bus τ),
      setSquareWaveMode w fuel b freq = some (false, b)) := by
  refine ⟨fun hf k s log => ?_, fun hf c => ?_, fun h4 h256 τ w fuel b => ?_⟩
  · have hguard : ¬ (freq &&& not8 SQUARE_WAVE_MASK ≠ 0) :=
      (squareWave_guard_table freq (by omega)).2 hf
    simp only [setSquareWaveMode, if_neg hguard, deviceWriteRegisterFlag_chip,
      Option.some_bind, deviceWriteRegisterByteMask_chip, Option.map_some', decide_True]
    exact ⟨_, rfl, rfl⟩
  · obtain ⟨⟨a1, a2⟩, ⟨b1, b2⟩, ⟨c1, c2⟩, ⟨d1, d2⟩⟩ := squareWave_bits_table freq hf
    refine ⟨?_, ?_, ?_, ?_⟩
    · rw [mask_split, a1, a2, Nat.and_zero, Nat.or_zero]
    · rw [mask_split, b1, b2, or_absorb]
    · rw [mask_split, c1, c2, Nat.and_zero, Nat.zero_or]
    · rw [mask_split, d1, d2, Nat.or_zero]
  · have hguard : freq &&& not8 SQUARE_WAVE_MASK ≠ 0 :=
      (squareWave_guard_table freq h256).1 h4
    simp only [setSquareWaveMode, if_pos hguard]

theorem setSquareWaveMode_control_witness :
    (∃ b2, setSquareWaveMode chipWire 1 ⟨sampleChip, []⟩ 2 = some (true, b2) ∧
      b2.st.mem 0x6f 0x07 = (sampleChip.mem 0x6f 0x07 &&& not8 0x33) ||| (0x40 ||| 2)) ∧
    (sampleChip.mem 0x6f 0x07 &&& not8 0x33) ||| (0x40 ||| 2) = 0xc2 ∧
    setSquareWaveMode ackWire 1 ⟨(), []⟩ 4 = some (false, ⟨(), []⟩) :=
  ⟨(setSquareWaveMode_control 2).1 (by decide) 0 sampleChip [], by decide,
    (setSquareWaveMode_control 4).2.2 (by decide) (by decide) Unit ackWire 1 ⟨(), []⟩⟩

/-- C19: for every trim value in -127..127, `setOscTrim` issues one write of register
`0x08` whose data byte has `|trim|` in bits 0-6 and bit 7 set exactly when `trim ≥ 0`;
the call returns success exactly when that transaction succeeds, and two trim values in
the range with the same byte are equal. -/
theorem setOscTrim_encoding (w : TwoWire σ) (b : Bus σ) (trim : Int)
    (hlo : -127 ≤ trim) (hhi : trim ≤ 127) :
    (setOscTrim w b trim).2.log = b.log ++ [BusOp.write 0x6f [0x08, oscTrimValue trim] true] ∧
    ((setOscTrim w b trim).1 = true ↔
      (w.endTransmission b.st 0x6f [0x08, oscTrimValue trim] true).1 = 0) ∧
    oscTrimValue trim &&& 0x7f = trim.natAbs ∧
    (oscTrimValue trim &&& 0x80 ≠ 0 ↔ 0 ≤ trim) ∧
    oscTrimValue trim < 256 ∧
    (∀ trim2 : Int, -127 ≤ trim2 → trim2 ≤ 127 → oscTrimValue trim2 = oscTrimValue trim →
      trim2 = trim) := by
  have hrange : ∀ x : Int, -127 ≤ x → x ≤ 127 →
      oscTrimValue x &&& 0x7f = x.natAbs ∧ (oscTrimValue x &&& 0x80 ≠ 0 ↔ 0 ≤ x) ∧
      oscTrimValue x < 256 := by
    intro x h0 h1
    obtain ⟨k, hk⟩ := Int.eq_ofNat_of_zero_le (show 0 ≤ x + 127 by omega)
    have hx : x = (k : Int) - 127 := by omega
    subst hx
    exact oscTrim_table k (by omega)
  obtain ⟨hm, hs, hb⟩ := hrange trim hlo hhi
  refine ⟨?_, ?_, hm, hs, hb, fun trim2 h0 h1 he => ?_⟩
  · simp only [setOscTrim, deviceWriteRegisterByte, REG_I2C_ADDR, REG_OSCTRIM,
      deviceWrite_single w b 0x6f 0x08 _ 1 (by decide) (by decide)]
    rfl
  · simp only [setOscTrim, deviceWriteRegisterByte, REG_I2C_ADDR, REG_OSCTRIM,
      deviceWrite_single w b 0x6f 0x08 _ 1 (by decide) (by decide), decide_eq_true_eq]
    rfl
  · obtain ⟨hm2, hs2, -⟩ := hrange trim2 h0 h1
    rw [he] at hm2 hs2
    have habs : trim2.natAbs = trim.natAbs := by rw [← hm2, ← hm]
    have hsign : 0 ≤ trim2 ↔ 0 ≤ trim := by rw [← hs2, ← hs]
    omega

theorem setOscTrim_encoding_witness :
    ((-127 : Int) ≤ -5 ∧ (-5 : Int) ≤ 127) ∧
    (setOscTrim ackWire ⟨(), []⟩ (-5)).2.log = [] ++ [BusOp.write 0x6f [0x08, 0x05] true] ∧
    oscTrimValue (-5) = 0x05 ∧ oscTrimValue 5 = 0x85 :=
  ⟨⟨by decide, by decide⟩,
    (setOscTrim_encoding ackWire ⟨(), []⟩ (-5) (by decide) (by decide)).1,
    by decide, by decide⟩

end MCP79410

namespace MCP79410

variable {σ : Type}

theorem weekday_table : ∀ k : Nat, k < 7 →
    MCP79410Time.intToBcd ((k : Int) + 1) = k + 1 ∧
    (MCP79410Time.intToBcd ((k : Int) + 1) ||| 0x08) = (k + 1) ||| 0x08 ∧
    MCP79410Time.intToBcd ((k : Int) + 1) &&& not8 0x08 = k + 1 := by
  decide

/-- The raw bytes of a fresh time value after `fromUnixTime`, for a moment in 2000..2099. -/
theorem fromUnixTime_raw (t : Int) (h0 : 946684800 ≤ t) (h1 : t < 4102444800) :
    MCP79410Time.clear.fromUnixTime t =
      { rawYear := MCP79410Time.intToBcd ((gmtime t).tm_year - 100)
        rawMonth := MCP79410Time.intToBcd ((gmtime t).tm_mon + 1)
        rawDayOfMonth := MCP79410Time.intToBcd (gmtime t).tm_mday
        rawDayOfWeek := MCP79410Time.intToBcd ((gmtime t).tm_wday + 1)
        rawHour := MCP79410Time.intToBcd (gmtime t).tm_hour
        rawMinute := MCP79410Time.intToBcd (gmtime t).tm_min
        rawSecond := MCP79410Time.intToBcd (gmtime t).tm_sec
        alarmMode := 0 } := by
  obtain ⟨-, -, -, -, y0, y1, -⟩ := gmtime_date t h0 h1
  obtain ⟨-, -, -, -, -, s1, -⟩ := gmtime_clock t
  have hy : (gmtime t).tm_year.tmod 100 = (gmtime t).tm_year - 100 := by
    rw [Int.tmod_eq_emod (by omega) (by decide)]
    omega
  have hs : (if (gmtime t).tm_sec < 60 then (gmtime t).tm_sec else 59) = (gmtime t).tm_sec := by
    rw [if_pos (by omega)]
  have e1 : (1 : Nat) &&& not8 0x3f = 0 := by decide
  have e2 : (1 : Nat) &&& not8 0x7 = 0 := by decide
  have e3 : (0 : Nat) &&& not8 0x7f = 0 := by decide
  simp only [MCP79410Time.fromUnixTime, MCP79410Time.setYear, MCP79410Time.setMonth,
    MCP79410Time.setDayOfMonth, MCP79410Time.setDayOfWeek, MCP79410Time.setHour,
    MCP79410Time.setMinute, MCP79410Time.setSecond, MCP79410Time.clear, hy, hs, e1, e2, e3,
    Nat.zero_or]

/-- C20: for every epoch time `t` in 2000..2099 and either value of the cached
battery-enable flag, `setRTCTime(t)` issues exactly one transaction, a write to device
`0x6f` of register address `0x00` followed by the 7 bytes
`[0x80 | bcd(sec), bcd(min), bcd(hour), (weekday + 1) | (flag ? 0x08 : 0x00), bcd(day),
bcd(month), bcd(year - 2000)]` taken from `gmtime t`; the hour byte has bit 6 clear (24
hour form); and the call returns success exactly when that transaction succeeds. -/
theorem setRTCTime_block (w : TwoWire σ) (self : MCP79410) (b : Bus σ) (t : Int)
    (h0 : 946684800 ≤ t) (h1 : t < 4102444800) :
    (setRTCTime w self b t).2.log = b.log ++
      [BusOp.write 0x6f
        [0x00, 0x80 ||| MCP79410Time.intToBcd (gmtime t).tm_sec,
          MCP79410Time.intToBcd (gmtime t).tm_min,
          MCP79410Time.intToBcd (gmtime t).tm_hour,
          ((gmtime t).tm_wday + 1).toNat ||| (if self.batteryEnable = true then 0x08 else 0x00),
          MCP79410Time.intToBcd (gmtime t).tm_mday,
          MCP79410Time.intToBcd ((gmtime t).tm_mon + 1),
          MCP79410Time.intToBcd ((gmtime t).tm_year + 1900 - 2000)] true] ∧
    ((setRTCTime w self b t).1 = true ↔
      (w.endTransmission b.st 0x6f
        [0x00, 0x80 ||| MCP79410Time.intToBcd (gmtime t).tm_sec,
          MCP79410Time.intToBcd (gmtime t).tm_min,
          MCP79410Time.intToBcd (gmtime t).tm_hour,
          ((gmtime t).tm_wday + 1).toNat ||| (if self.batteryEnable = true then 0x08 else 0x00),
          MCP79410Time.intToBcd (gmtime t).tm_mday,
          MCP79410Time.intToBcd ((gmtime t).tm_mon + 1),
          MCP79410Time.intToBcd ((gmtime t).tm_year + 1900 - 2000)] true).1 = 0) ∧
    MCP79410Time.intToBcd (gmtime t).tm_hour &&& 0x40 = 0 ∧
    (0 ≤ (gmtime t).tm_wday ∧ (gmtime t).tm_wday ≤ 6) ∧
    (2000 ≤ (gmtime t).tm_year + 1900 ∧ (gmtime t).tm_year + 1900 ≤ 2099) := by
  obtain ⟨-, -, -, -, y0, y1, -⟩ := gmtime_date t h0 h1
  obtain ⟨hh0, hh1, -⟩ := gmtime_clock t
  have hw := gmtime_wday t
  have hw0 : 0 ≤ (gmtime t).tm_wday := by omega
  have hw1 : (gmtime t).tm_wday ≤ 6 := by omega
  obtain ⟨k, hk⟩ := Int.eq_ofNat_of_zero_le hw0
  have hk7 : k < 7 := by omega
  obtain ⟨wa, wb, wc⟩ := weekday_table k hk7
  have hyear : (gmtime t).tm_year + 1900 - 2000 = (gmtime t).tm_year - 100 := by ring
  have hnat : ((k : Int) + 1).toNat = k + 1 := by omega
  have hblock : ∀ a0 a1 a2 a3 a4 a5 a6 : Nat,
      chunk [a0, a1, a2, a3, a4, a5, a6] 0 7 = [a0, a1, a2, a3, a4, a5, a6] :=
    fun _ _ _ _ _ _ _ => rfl
  have hday : (if self.batteryEnable = true then
        { MCP79410Time.clear.fromUnixTime t with
          rawSecond := (MCP79410Time.clear.fromUnixTime t).rawSecond ||| REG_DATE_RTCSEC_ST,
          rawDayOfWeek := (MCP79410Time.clear.fromUnixTime t).rawDayOfWeek
            ||| REG_RTCWKDAY_VBATEN }
      else
        { MCP79410Time.clear.fromUnixTime t with
          rawSecond := (MCP79410Time.clear.fromUnixTime t).rawSecond ||| REG_DATE_RTCSEC_ST,
          rawDayOfWeek := (MCP79410Time.clear.fromUnixTime t).rawDayOfWeek
            &&& not8 REG_RTCWKDAY_VBATEN }) =
      { rawYear := MCP79410Time.intToBcd ((gmtime t).tm_year - 100)
        rawMonth := MCP79410Time.intToBcd ((gmtime t).tm_mon + 1)
        rawDayOfMonth := MCP79410Time.intToBcd (gmtime t).tm_mday
        rawDayOfWeek := (k + 1) ||| (if self.batteryEnable = true then 0x08 else 0x00)
        rawHour := MCP79410Time.intToBcd (gmtime t).tm_hour
        rawMinute := MCP79410Time.intToBcd (gmtime t).tm_min
        rawSecond := 0x80 ||| MCP79410Time.intToBcd (gmtime t).tm_sec
        alarmMode := 0 } := by
    rw [fromUnixTime_raw t h0 h1, hk]
    cases self.batteryEnable
    · simp only [Bool.false_eq_true, if_false, REG_DATE_RTCSEC_ST, REG_RTCWKDAY_VBATEN, wc,
        Nat.or_zero, Nat.zero_or, Nat.lor_comm]
    · simp only [if_true, REG_DATE_RTCSEC_ST, REG_RTCWKDAY_VBATEN, wb, Nat.lor_comm]
  have hrun : setRTCTime w self b t =
      (decide ((w.endTransmission b.st 0x6f
        [0x00, 0x80 ||| MCP79410Time.intToBcd (gmtime t).tm_sec,
          MCP79410Time.intToBcd (gmtime t).tm_min,
          MCP79410Time.intToBcd (gmtime t).tm_hour,
          (k + 1) ||| (if self.batteryEnable = true then 0x08 else 0x00),
          MCP79410Time.intToBcd (gmtime t).tm_mday,
          MCP79410Time.intToBcd ((gmtime t).tm_mon + 1),
          MCP79410Time.intToBcd ((gmtime t).tm_year - 100)] true).1 = 0),
        ⟨(w.endTransmission b.st 0x6f
          [0x00, 0x80 ||| MCP79410Time.intToBcd (gmtime t).tm_sec,
            MCP79410Time.intToBcd (gmtime t).tm_min,
            MCP79410Time.intToBcd (gmtime t).tm_hour,
            (k + 1) ||| (if self.batteryEnable = true then 0x08 else 0x00),
            MCP79410Time.intToBcd (gmtime t).tm_mday,
            MCP79410Time.intToBcd ((gmtime t).tm_mon + 1),
            MCP79410Time.intToBcd ((gmtime t).tm_year - 100)] true).2,
          b.log ++ [BusOp.write 0x6f
            [0x00, 0x80 ||| MCP79410Time.intToBcd (gmtime t).tm_sec,
              MCP79410Time.intToBcd (gmtime t).tm_min,
              MCP79410Time.intToBcd (gmtime t).tm_hour,
              (k + 1) ||| (if self.batteryEnable = true then 0x08 else 0x00),
              MCP79410Time.intToBcd (gmtime t).tm_mday,
              MCP79410Time.intToBcd ((gmtime t).tm_mon + 1),
              MCP79410Time.intToBcd ((gmtime t).tm_year - 100)] true]⟩) := by
    have hrun0 : setRTCTime w self b t = (decide ((deviceWriteRTCTime w b REG_DATE_TIME
        (if self.batteryEnable = true then
          { MCP79410Time.clear.fromUnixTime t with
            rawSecond := (MCP79410Time.clear.fromUnixTime t).rawSecond ||| REG_DATE_RTCSEC_ST,
            rawDayOfWeek := (MCP79410Time.clear.fromUnixTime t).rawDayOfWeek
              ||| REG_RTCWKDAY_VBATEN }
        else
          { MCP79410Time.clear.fromUnixTime t with
            rawSecond := (MCP79410Time.clear.fromUnixTime t).rawSecond ||| REG_DATE_RTCSEC_ST,
            rawDayOfWeek := (MCP79410Time.clear.fromUnixTime t).rawDayOfWeek
              &&& not8 REG_RTCWKDAY_VBATEN })).1 = 0),
        (deviceWriteRTCTime w b REG_DATE_TIME
        (if self.batteryEnable = true then
          { MCP79410Time.clear.fromUnixTime t with
            rawSecond := (MCP79410Time.clear.fromUnixTime t).rawSecond ||| REG_DATE_RTCSEC_ST,
            rawDayOfWeek := (MCP79410Time.clear.fromUnixTime t).rawDayOfWeek
              ||| REG_RTCWKDAY_VBATEN }
        else
          { MCP79410Time.clear.fromUnixTime t with
            rawSecond := (MCP79410Time.clear.fromUnixTime t).rawSecond ||| REG_DATE_RTCSEC_ST,
            rawDayOfWeek := (MCP79410Time.clear.fromUnixTime t).rawDayOfWeek
              &&& not8 REG_RTCWKDAY_VBATEN })).2) := rfl
    rw [hrun0, hday]
    simp only [deviceWriteRTCTime, REG_I2C_ADDR, REG_DATE_TIME,
      deviceWrite_single w b 0x6f 0x00 _ 7 (by decide) (by decide), hblock]
  rw [hrun, hk, hnat, hyear]
  refine ⟨rfl, by simp only [decide_eq_true_eq], ?_, ⟨by omega, by omega⟩, by omega, by omega⟩
  exact ((MCP79410Time.bcd_of_range _ hh0 (by omega)).2.2.2.1 (by omega)).2

theorem setRTCTime_block_witness :
    ((946684800 : Int) ≤ 1551099686 ∧ (1551099686 : Int) < 4102444800) ∧
    (setRTCTime ackWire MCP79410.new ⟨(), []⟩ 1551099686).2.log =
      [BusOp.write 0x6f [0x00, 0xa6, 0x01, 0x13, 0x0a, 0x25, 0x02, 0x19] true] ∧
    (setRTCTime ackWire MCP79410.new ⟨(), []⟩ 1551099686).1 = true := by
  have h := setRTCTime_block ackWire MCP79410.new ⟨(), []⟩ 1551099686 (by decide) (by decide)
  refine ⟨⟨by decide, by decide⟩, ?_, h.2.1.2 rfl⟩
  rw [h.1]
  decide

end MCP79410

/-! ## Conversion to epoch seconds and the weekday byte -/

namespace MCP79410Time

/-- C21: `toUnixTime()` depends only on the year, month, day, hour, minute and second
bytes: two time values that agree on these six raw bytes convert to the same epoch
seconds, whatever their raw weekday bytes and alarm modes; in particular replacing the
weekday byte and the alarm mode of a value leaves its epoch seconds unchanged. -/
theorem toUnixTime_ignores_weekday (t1 t2 : MCP79410Time)
    (hyear : t1.rawYear = t2.rawYear) (hmonth : t1.rawMonth = t2.rawMonth)
    (hday : t1.rawDayOfMonth = t2.rawDayOfMonth) (hhour : t1.rawHour = t2.rawHour)
    (hminute : t1.rawMinute = t2.rawMinute) (hsecond : t1.rawSecond = t2.rawSecond) :
    t1.toUnixTime = t2.toUnixTime ∧
    ∀ wd mode : Nat, ({ t1 with rawDayOfWeek := wd, alarmMode := mode }).toUnixTime
      = t1.toUnixTime := by
  refine ⟨?_, fun wd mode => rfl⟩
  simp only [toUnixTime, getYear, getMonth, getDayOfMonth, getHour, getMinute, getSecond,
    hyear, hmonth, hday, hhour, hminute, hsecond]

theorem toUnixTime_ignores_weekday_witness :
    (clear.fromUnixTime 1551099686).toUnixTime =
      ({ clear.fromUnixTime 1551099686 with rawDayOfWeek := 0x2f, alarmMode := 7 }).toUnixTime ∧
    (clear.fromUnixTime 1551099686).rawDayOfWeek = 0x02 :=
  ⟨(toUnixTime_ignores_weekday (clear.fromUnixTime 1551099686)
      { clear.fromUnixTime 1551099686 with rawDayOfWeek := 0x2f, alarmMode := 7 }
      rfl rfl rfl rfl rfl rfl).1, by decide⟩

end MCP79410Time

/-! ## Chunked transfers -/

namespace MCP79410

variable {σ : Type}

theorem chunk_length (buf : List Nat) (off c : Nat) : (chunk buf off c).length = c := by
  simp [chunk]

theorem chunk_zero (buf : List Nat) (off : Nat) : chunk buf off 0 = [] := rfl

theorem chunk_append (buf : List Nat) (c1 : Nat) : ∀ (off c2 : Nat),
    chunk buf off (c1 + c2) = chunk buf off c1 ++ chunk buf (off + c1) c2 := by
  induction c1 with
  | zero => intro off c2; simp [chunk_zero]
  | succ c1 ih =>
    intro off c2
    rw [show c1 + 1 + c2 = (c1 + c2) + 1 by omega, chunk_succ, chunk_succ, ih (off + 1) c2,
      List.cons_append, show off + 1 + c1 = off + (c1 + 1) by omega]

theorem chunk_all : ∀ (buf : List Nat), chunk buf 0 buf.length = buf := by
  have h : ∀ (buf pre : List Nat), chunk (pre ++ buf) pre.length buf.length = buf := by
    intro buf
    induction buf with
    | nil => intro pre; rfl
    | cons x buf ih =>
      intro pre
      rw [List.length_cons, chunk_succ]
      have e := ih (pre ++ [x])
      simp only [List.append_assoc, List.singleton_append, List.length_append,
        List.length_singleton] at e
      rw [e]
      congr 1
      rw [List.getD_eq_getElem?_getD, List.getElem?_append_right (le_refl _)]
      simp
  intro buf
  exact h buf []

end MCP79410

namespace Bus

variable {σ : Type}

/-- When every transaction of the list is acknowledged in whatever state the bus is,
`transmitEach` returns status 0 (the initial status for an empty list). -/
theorem transmitEach_status (w : TwoWire σ) (settle : Bus σ → Bus σ) :
    ∀ (ops : List (Nat × List Nat)) (b : Bus σ) (stat : Int),
      (∀ s, ∀ o ∈ ops, (w.endTransmission s o.1 o.2 true).1 = 0) →
      (transmitEach w settle b stat ops).1 = (if ops = [] then stat else 0) := by
  intro ops
  induction ops with
  | nil => intro b stat _; simp [transmitEach]
  | cons o ops ih =>
    intro b stat hack
    obtain ⟨dev, data⟩ := o
    have h0 : (b.transmit w dev data true).1 = 0 := hack _ (dev, data) (List.mem_cons_self _ _)
    simp only [transmitEach, h0, ne_eq, not_true_eq_false, if_false]
    rw [ih _ _ (fun s o ho => hack s o (List.mem_cons_of_mem _ ho))]
    simp

/-- When every transaction of the list is acknowledged, `transmitEach` issues every
transaction of the list, each followed by what `settle` adds. -/
theorem transmitEach_log (w : TwoWire σ) (settle : Bus σ → Bus σ) (extra : List BusOp)
    (hsettle : ∀ b : Bus σ, (settle b).log = b.log ++ extra) :
    ∀ (ops : List (Nat × List Nat)) (b : Bus σ) (stat : Int),
      (∀ s, ∀ o ∈ ops, (w.endTransmission s o.1 o.2 true).1 = 0) →
      (transmitEach w settle b stat ops).2.log =
        b.log ++ (ops.map (fun o => BusOp.write o.1 o.2 true :: extra)).flatten := by
  intro ops
  induction ops with
  | nil => intro b stat _; simp [transmitEach]
  | cons o ops ih =>
    intro b stat hack
    obtain ⟨dev, data⟩ := o
    have h0 : (b.transmit w dev data true).1 = 0 := hack _ (dev, data) (List.mem_cons_self _ _)
    simp only [transmitEach, h0, ne_eq, not_true_eq_false, if_false]
    rw [ih _ _ (fun s o ho => hack s o (List.mem_cons_of_mem _ ho)), hsettle]
    simp [transmit]

/-- Whatever the bus answers, the transactions `transmitEach` issues without a settling
step are an initial segment of the list; the segment is the whole list when the status
returned is 0. -/
theorem transmitEach_prefix (w : TwoWire σ) :
    ∀ (ops : List (Nat × List Nat)) (b : Bus σ) (stat : Int),
      ∃ m, m ≤ ops.length ∧
        (transmitEach w (fun b1 => b1) b stat ops).2.log =
          b.log ++ ((ops.map (fun o => BusOp.write o.1 o.2 true)).take m) ∧
        ((transmitEach w (fun b1 => b1) b stat ops).1 = 0 → m = ops.length) ∧
        (m < ops.length → 0 < m ∧ (transmitEach w (fun b1 => b1) b stat ops).1 ≠ 0) := by
  intro ops
  induction ops with
  | nil => intro b stat; exact ⟨0, le_refl _, by simp [transmitEach], fun _ => rfl, by simp⟩
  | cons o ops ih =>
    intro b stat
    obtain ⟨dev, data⟩ := o
    by_cases h0 : (b.transmit w dev data true).1 = 0
    · obtain ⟨m, hm, hlog, hall, hpart⟩ := ih (b.transmit w dev data true).2
        (b.transmit w dev data true).1
      refine ⟨m + 1, by simp [hm], ?_, ?_, ?_⟩
      · simp only [transmitEach, h0, ne_eq, not_true_eq_false, if_false]
        simp only [h0] at hlog
        rw [hlog]
        simp [transmit]
      · intro hz
        simp only [transmitEach, h0, ne_eq, not_true_eq_false, if_false] at hz
        simp only [h0] at hall
        rw [hall hz, List.length_cons]
      · intro hlt
        simp only [transmitEach, h0, ne_eq, not_true_eq_false, if_false]
        simp only [h0] at hpart
        exact ⟨by omega, (hpart (by simpa using hlt)).2⟩
    · have e : transmitEach w (fun b1 => b1) b stat ((dev, data) :: ops)
          = b.transmit w dev data true := by
        simp only [transmitEach, ne_eq, h0, not_false_eq_true, if_true]
      rw [e]
      refine ⟨1, by simp, ?_, fun hz => absurd hz h0, fun _ => ⟨by omega, h0⟩⟩
      simp [transmit]

end Bus

namespace MCP79410

variable {σ : Type}

/-- The loop of `deviceWrite` is the chunked write of the specification, from any
offset on. -/
theorem deviceWriteLoop_each (w : TwoWire σ) (dev addr : Nat) (buf : List Nat) (n : Nat) :
    ∀ (m offset fuel : Nat) (stat : Int) (b : Bus σ),
      (n - offset + 30) / 31 = m → m ≤ fuel →
      deviceWriteLoop w dev addr buf n fuel offset stat b =
        Bus.transmitEach w (fun b1 => b1) b stat
          ((List.range m).map (fun k =>
            (dev, (addr + (offset + 31 * k)) % 256 ::
              chunk buf (offset + 31 * k) (min 31 (n - (offset + 31 * k)))))) := by
  intro m
  induction m with
  | zero =>
    intro offset fuel stat b hm _
    rw [deviceWriteLoop_done _ _ _ _ _ _ _ _ _ (by omega)]
    rfl
  | succ m ih =>
    intro offset fuel stat b hm hfuel
    obtain ⟨f, rfl⟩ : ∃ f, fuel = f + 1 := ⟨fuel - 1, by omega⟩
    have hlt : offset < n := by omega
    have hcount : (if n - offset > 31 then 31 else n - offset) = min 31 (n - offset) := by
      split_ifs with h
      · exact (min_eq_left (by omega)).symm
      · exact (min_eq_right (by omega)).symm
    simp only [deviceWriteLoop, if_pos hlt, hcount, List.range_succ_eq_map, List.map_cons,
      List.map_map, Bus.transmitEach, Nat.mul_zero, Nat.add_zero]
    split_ifs with hr
    · rfl
    · by_cases hbig : n - offset > 31
      · rw [min_eq_left (by omega), ih (offset + 31) f _ _ (by omega) (by omega)]
        congr 1
        apply List.map_congr_left
        intro k _
        simp only [Function.comp, Nat.succ_eq_add_one]
        rw [show offset + 31 + 31 * k = offset + 31 * (k + 1) by ring]
      · have hm0 : m = 0 := by omega
        subst hm0
        rw [min_eq_right (by omega), deviceWriteLoop_done _ _ _ _ _ _ _ _ _ (by omega)]
        rfl

/-- The chunks of at most 31 bytes, in order, make up the bytes sent. -/
theorem chunks_flatten (buf : List Nat) (n : Nat) : ∀ (m offset : Nat),
    (n - offset + 30) / 31 = m →
    ((List.range m).map (fun k =>
      chunk buf (offset + 31 * k) (min 31 (n - (offset + 31 * k))))).flatten
      = chunk buf offset (n - offset) := by
  intro m
  induction m with
  | zero =>
    intro offset hm
    rw [show n - offset = 0 by omega]
    rfl
  | succ m ih =>
    intro offset hm
    simp only [List.range_succ_eq_map, List.map_cons, List.map_map, List.flatten_cons,
      Nat.mul_zero, Nat.add_zero]
    by_cases hbig : n - offset > 31
    · have e := ih (offset + 31) (by omega)
      have e2 : List.map ((fun k => chunk buf (offset + 31 * k)
          (min 31 (n - (offset + 31 * k)))) ∘ Nat.succ) (List.range m)
          = List.map (fun k => chunk buf (offset + 31 + 31 * k)
            (min 31 (n - (offset + 31 + 31 * k)))) (List.range m) := by
        apply List.map_congr_left
        intro k _
        simp only [Function.comp, Nat.succ_eq_add_one]
        rw [show offset + 31 + 31 * k = offset + 31 * (k + 1) by ring]
      rw [e2, e, min_eq_left (by omega), show n - offset = 31 + (n - (offset + 31)) by omega,
        chunk_append]
    · have hm0 : m = 0 := by omega
      subst hm0
      rw [min_eq_right (by omega)]
      simp

/-- C24: `deviceWrite` is the chunked write of the specification over the
`ceil(n / 31)` transactions of which number `k` (from 0) goes to register
`(addr + 31 k) mod 256` with the bytes `31 k .. min(n, 31 k + 31) - 1` of the buffer:
issued in order, stopping at the first that fails, with the status of the last one
issued. On a bus that acknowledges every transmission the status is 0 and the log grows
by exactly these transactions; every transaction carries at most 31 bytes and the
payloads concatenated are the `n` bytes of the buffer; on any bus the transactions
issued are an initial segment of the list, the whole list when the status is 0, and a
pass whose transaction fails ends the loop with that status. -/
theorem deviceWrite_chunks (w : TwoWire σ) (b : Bus σ) (dev addr : Nat) (buf : List Nat)
    (n : Nat) :
    deviceWrite w b dev addr buf n =
      Bus.transmitEach w (fun b1 => b1) b 0
        ((List.range ((n + 30) / 31)).map (fun k =>
          (dev, (addr + 31 * k) % 256 :: chunk buf (31 * k) (min 31 (n - 31 * k))))) ∧
    ((∀ s d data stop, (w.endTransmission s d data stop).1 = 0) →
      (deviceWrite w b dev addr buf n).1 = 0 ∧
      (deviceWrite w b dev addr buf n).2.log = b.log ++
        (List.range ((n + 30) / 31)).map (fun k =>
          BusOp.write dev ((addr + 31 * k) % 256 :: chunk buf (31 * k) (min 31 (n - 31 * k)))
            true)) ∧
    (∀ k, (chunk buf (31 * k) (min 31 (n - 31 * k))).length ≤ 31) ∧
    ((List.range ((n + 30) / 31)).map (fun k =>
        chunk buf (31 * k) (min 31 (n - 31 * k)))).flatten = chunk buf 0 n ∧
    (buf.length = n → chunk buf 0 n = buf) ∧
    (∃ m, m ≤ (n + 30) / 31 ∧
      (deviceWrite w b dev addr buf n).2.log = b.log ++
        ((List.range ((n + 30) / 31)).map (fun k =>
          BusOp.write dev ((addr + 31 * k) % 256 :: chunk buf (31 * k) (min 31 (n - 31 * k)))
            true)).take m ∧
      ((deviceWrite w b dev addr buf n).1 = 0 → m = (n + 30) / 31) ∧
      (m < (n + 30) / 31 → 0 < m ∧ (deviceWrite w b dev addr buf n).1 ≠ 0)) ∧
    (∀ (fuel offset : Nat) (stat : Int) (b1 : Bus σ), offset < n →
      (b1.transmit w dev
        ((addr + offset) % 256 :: chunk buf offset (min 31 (n - offset))) true).1 ≠ 0 →
      deviceWriteLoop w dev addr buf n (fuel + 1) offset stat b1 =
        b1.transmit w dev
          ((addr + offset) % 256 :: chunk buf offset (min 31 (n - offset))) true) := by
  have hsimp : ∀ k, 0 + 31 * k = 31 * k := fun k => Nat.zero_add _
  have href : deviceWrite w b dev addr buf n =
      Bus.transmitEach w (fun b1 => b1) b 0
        ((List.range ((n + 30) / 31)).map (fun k =>
          (dev, (addr + 31 * k) % 256 :: chunk buf (31 * k) (min 31 (n - 31 * k))))) := by
    have h := deviceWriteLoop_each w dev addr buf n ((n + 30) / 31) 0 n 0 b (by simp)
      (by omega)
    simp only [hsimp] at h
    exact h
  refine ⟨href, fun hack => ?_, fun k => ?_, ?_, fun hlen => ?_, ?_, ?_⟩
  · have hall : ∀ s, ∀ o ∈ (List.range ((n + 30) / 31)).map (fun k =>
        (dev, (addr + 31 * k) % 256 :: chunk buf (31 * k) (min 31 (n - 31 * k)))),
        (w.endTransmission s o.1 o.2 true).1 = 0 := fun s o _ => hack s o.1 o.2 true
    have h1 := Bus.transmitEach_status w (fun b1 => b1) _ b 0 hall
    have h2 := Bus.transmitEach_log w (fun b1 => b1) [] (fun b1 => by simp) _ b 0 hall
    rw [href]
    refine ⟨by rw [h1]; simp, ?_⟩
    rw [h2]
    congr 1
    generalize (n + 30) / 31 = c
    induction c with
    | zero => rfl
    | succ c ih => simp only [List.range_succ, List.map_append, List.flatten_append, ih]; simp
  · rw [chunk_length]
    exact min_le_left _ _
  · have h := chunks_flatten buf n ((n + 30) / 31) 0 (by simp)
    simp only [hsimp, Nat.sub_zero] at h
    exact h
  · rw [← hlen]
    exact chunk_all buf
  · obtain ⟨m, hm, hlog, hall, hpart⟩ := Bus.transmitEach_prefix w
      ((List.range ((n + 30) / 31)).map (fun k =>
        (dev, (addr + 31 * k) % 256 :: chunk buf (31 * k) (min 31 (n - 31 * k))))) b 0
    simp only [List.length_map, List.length_range, List.map_map] at hm hlog hall hpart
    rw [href]
    exact ⟨m, hm, hlog, hall, hpart⟩
  · intro fuel offset stat b1 hlt hfail
    have hcount : (if n - offset > 31 then 31 else n - offset) = min 31 (n - offset) := by
      split_ifs with h
      · exact (min_eq_left (by omega)).symm
      · exact (min_eq_right (by omega)).symm
    simp only [deviceWriteLoop, if_pos hlt, hcount, if_pos hfail]

theorem deviceWrite_chunks_witness :
    (deviceWrite ackWire ⟨(), []⟩ 0x6f 0x20 (List.range 40) 40).1 = 0 ∧
    (deviceWrite ackWire ⟨(), []⟩ 0x6f 0x20 (List.range 40) 40).2.log =
      [BusOp.write 0x6f (0x20 :: List.range 31) true,
        BusOp.write 0x6f [0x3f, 31, 32, 33, 34, 35, 36, 37, 38, 39] true] ∧
    chunk (List.range 40) 0 40 = List.range 40 := by
  have h := deviceWrite_chunks ackWire ⟨(), []⟩ 0x6f 0x20 (List.range 40) 40
  obtain ⟨h1, h2⟩ := h.2.1 (fun _ _ _ _ => rfl)
  refine ⟨h1, ?_, h.2.2.2.2.1 (by decide)⟩
  rw [h2]
  decide

end MCP79410

namespace Bus

variable {σ : Type}

/-- With every transmission acknowledged, `readEach` works through every chunk of the
list: an address phase and a read request for each. -/
theorem readEach_ack (w : TwoWire σ) (dev : Nat)
    (hack : ∀ s d data stop, (w.endTransmission s d data stop).1 = 0) :
    ∀ (chunks : List (Nat × Nat × Nat)) (b : Bus σ) (stat : Int) (buf : List Nat),
      (readEach w dev b stat buf chunks).1 = (if chunks = [] then stat else 0) ∧
      (readEach w dev b stat buf chunks).2.2.log =
        b.log ++ (chunks.map (fun c =>
          [BusOp.write dev [c.1] false, BusOp.read dev c.2.1])).flatten := by
  intro chunks
  induction chunks with
  | nil => intro b stat buf; simp [readEach]
  | cons c chunks ih =>
    intro b stat buf
    obtain ⟨reg, count, offset⟩ := c
    have h0 : (b.transmit w dev [reg] false).1 = 0 := hack _ _ _ _
    simp only [readEach, h0, if_true]
    obtain ⟨i1, i2⟩ := ih ((b.transmit w dev [reg] false).2.request w dev count).2 0
      (storeAt buf offset ((b.transmit w dev [reg] false).2.request w dev count).1)
    refine ⟨?_, ?_⟩
    · rw [i1]; simp
    · rw [i2]
      simp [transmit, request]

end Bus

namespace MCP79410

variable {σ : Type}

/-- On a bus that delivers every byte requested, the loop of `deviceRead` is the
chunked read of the specification, from any offset on. -/
theorem deviceReadLoop_each (w : TwoWire σ) (dev addr n : Nat)
    (hfull : ∀ s d c, c ≤ (w.requestFrom s d c).1.length) :
    ∀ (m offset fuel : Nat) (stat : Int) (buf : List Nat) (b : Bus σ),
      (n - offset + 31) / 32 = m → m ≤ fuel →
      deviceReadLoop w dev addr n fuel offset stat buf b =
        some (Bus.readEach w dev b stat buf
          ((List.range m).map (fun k =>
            ((addr + (offset + 32 * k)) % 256, min 32 (n - (offset + 32 * k)),
              offset + 32 * k)))) := by
  intro m
  induction m with
  | zero =>
    intro offset fuel stat buf b hm _
    rw [deviceReadLoop_done _ _ _ _ _ _ _ _ _ (by omega)]
    rfl
  | succ m ih =>
    intro offset fuel stat buf b hm hfuel
    obtain ⟨f, rfl⟩ : ∃ f, fuel = f + 1 := ⟨fuel - 1, by omega⟩
    have hlt : offset < n := by omega
    have hcount : (if n - offset > 32 then 32 else n - offset) = min 32 (n - offset) := by
      split_ifs with h
      · exact (min_eq_left (by omega)).symm
      · exact (min_eq_right (by omega)).symm
    have hlen : ∀ (b1 : Bus σ) (c : Nat), (b1.request w dev c).1.length = c := by
      intro b1 c
      simp only [Bus.request, List.length_take]
      exact min_eq_left (hfull _ _ _)
    simp only [deviceReadLoop, if_pos hlt, hcount, List.range_succ_eq_map, List.map_cons,
      List.map_map, Bus.readEach, Nat.mul_zero, Nat.add_zero, hlen]
    split_ifs with hr
    · by_cases hbig : n - offset > 32
      · rw [min_eq_left (by omega), ih (offset + 32) f _ _ _ (by omega) (by omega)]
        congr 2
        apply List.map_congr_left
        intro k _
        simp only [Function.comp, Nat.succ_eq_add_one]
        rw [show offset + 32 + 32 * k = offset + 32 * (k + 1) by ring]
      · have hm0 : m = 0 := by omega
        subst hm0
        rw [min_eq_right (by omega), deviceReadLoop_done _ _ _ _ _ _ _ _ _ (by omega)]
        rfl
    · rfl

theorem chipWire_ack (s : Chip) (d : Nat) (data : List Nat) (stop : Bool) :
    (chipWire.endTransmission s d data stop).1 = 0 := by
  cases data <;> rfl

theorem chipWire_full (s : Chip) (d c : Nat) : c ≤ (chipWire.requestFrom s d c).1.length := by
  rw [chipWire_request, Chip.read_bytes, Chip.load_length]

/-- C25: for every length `n` and fuel that covers the `ceil(n / 32)` chunks,
`deviceRead` on a bus that delivers every byte requested is the chunked read of the
specification over the chunks of which number `k` (from 0) addresses register
`(addr + 32 k) mod 256` and requests `min(32, n - 32 k)` bytes, stored at offset `32 k`:
in order, stopping with the status when an address phase fails. When every address phase
is acknowledged the call returns status 0 and the log grows by exactly one address phase
and one read request per chunk; on the memory chip the buffer returned holds the `n`
bytes at the addresses `addr`, `addr + 1`, ... in order; and a pass whose address phase
fails ends the loop with that status, the buffer as it was and no request issued. -/
theorem deviceRead_chunks (w : TwoWire σ) (b : Bus σ) (dev addr : Nat) (buf : List Nat)
    (n fuel : Nat) (hfuel : (n + 31) / 32 ≤ fuel) :
    ((∀ s d c, c ≤ (w.requestFrom s d c).1.length) →
      deviceRead w fuel b dev addr buf n =
        some (Bus.readEach w dev b 0 buf
          ((List.range ((n + 31) / 32)).map (fun k =>
            ((addr + 32 * k) % 256, min 32 (n - 32 * k), 32 * k))))) ∧
    ((∀ s d c, c ≤ (w.requestFrom s d c).1.length) →
      (∀ s d data stop, (w.endTransmission s d data stop).1 = 0) →
      ∃ out b2, deviceRead w fuel b dev addr buf n = some (0, out, b2) ∧
        b2.log = b.log ++
          ((List.range ((n + 31) / 32)).map (fun k =>
            [BusOp.write dev [(addr + 32 * k) % 256] false,
              BusOp.read dev (min 32 (n - 32 * k))])).flatten) ∧
    (∀ (s : Chip) (log : List BusOp), buf.length = n →
      ∃ b2, deviceRead chipWire fuel ⟨s, log⟩ dev addr buf n =
          some (0, Chip.load (s.mem dev) addr n, b2) ∧
        b2.log = log ++
          ((List.range ((n + 31) / 32)).map (fun k =>
            [BusOp.write dev [(addr + 32 * k) % 256] false,
              BusOp.read dev (min 32 (n - 32 * k))])).flatten) ∧
    (∀ (fuel1 offset : Nat) (stat : Int) (out : List Nat) (b1 : Bus σ), offset < n →
      (b1.transmit w dev [(addr + offset) % 256] false).1 ≠ 0 →
      deviceReadLoop w dev addr n (fuel1 + 1) offset stat out b1 =
        some ((b1.transmit w dev [(addr + offset) % 256] false).1, out,
          (b1.transmit w dev [(addr + offset) % 256] false).2)) := by
  have hsimp : ∀ k, 0 + 32 * k = 32 * k := fun k => Nat.zero_add _
  have href : ∀ {τ : Type} (w1 : TwoWire τ) (b0 : Bus τ),
      (∀ s d c, c ≤ (w1.requestFrom s d c).1.length) →
      deviceRead w1 fuel b0 dev addr buf n =
        some (Bus.readEach w1 dev b0 0 buf
          ((List.range ((n + 31) / 32)).map (fun k =>
            ((addr + 32 * k) % 256, min 32 (n - 32 * k), 32 * k)))) := by
    intro τ w1 b0 hfull
    have h := deviceReadLoop_each w1 dev addr n hfull ((n + 31) / 32) 0 fuel 0 buf b0 (by simp)
      hfuel
    simp only [hsimp] at h
    exact h
  have hlog : ∀ {τ : Type} (w1 : TwoWire τ) (b0 : Bus τ),
      (∀ s d c, c ≤ (w1.requestFrom s d c).1.length) →
      (∀ s d data stop, (w1.endTransmission s d data stop).1 = 0) →
      ∃ out b2, deviceRead w1 fuel b0 dev addr buf n = some (0, out, b2) ∧
        b2.log = b0.log ++
          ((List.range ((n + 31) / 32)).map (fun k =>
            [BusOp.write dev [(addr + 32 * k) % 256] false,
              BusOp.read dev (min 32 (n - 32 * k))])).flatten := by
    intro τ w1 b0 hfull hack
    obtain ⟨h1, h2⟩ := Bus.readEach_ack w1 dev hack
      ((List.range ((n + 31) / 32)).map (fun k =>
        ((addr + 32 * k) % 256, min 32 (n - 32 * k), 32 * k))) b0 0 buf
    rw [href w1 b0 hfull]
    rw [List.map_map] at h2
    generalize Bus.readEach w1 dev b0 0 buf
      ((List.range ((n + 31) / 32)).map (fun k =>
        ((addr + 32 * k) % 256, min 32 (n - 32 * k), 32 * k))) = r at h1 h2
    obtain ⟨st, out, b2⟩ := r
    have h0 : st = 0 := by simpa using h1
    subst h0
    exact ⟨out, b2, rfl, h2⟩
  refine ⟨href w b, hlog w b, fun s log hlen => ?_, ?_⟩
  · obtain ⟨out, b2, hr, hl⟩ := hlog chipWire ⟨s, log⟩ chipWire_full chipWire_ack
    obtain ⟨b3, hc, -⟩ := deviceReadLoop_chip dev addr n fuel 0 0 buf s log (by omega)
      (by simpa using hfuel)
    have hstore : storeAt buf 0 (Chip.load (s.mem dev) (addr + 0) (n - 0))
        = Chip.load (s.mem dev) addr n := by
      have h := storeAt_all (Chip.load (s.mem dev) addr n) [] buf
        (by rw [Chip.load_length, hlen])
      simpa using h
    rw [hstore] at hc
    have hc2 : deviceRead chipWire fuel ⟨s, log⟩ dev addr buf n
        = some (0, Chip.load (s.mem dev) addr n, b3) := by
      rw [deviceRead, hc]
      simp
    rw [hc2] at hr
    obtain ⟨-, -, rfl⟩ : (0 : Int) = 0 ∧ Chip.load (s.mem dev) addr n = out ∧ b3 = b2 := by
      simpa using hr
    exact ⟨b3, hc2, hl⟩
  · intro fuel1 offset stat out b1 hlt hfail
    simp only [deviceReadLoop, if_pos hlt, if_neg hfail]

theorem deviceRead_chunks_witness :
    ∃ b2, deviceRead chipWire 2 ⟨sampleChip, []⟩ 0x6f 0 (List.replicate 40 9) 40 =
        some (0, [0xa6, 0x01, 0x13, 0x2a, 0x25, 0x02, 0x19, 0x83, 0, 0, 0, 0, 0, 0, 0, 0, 0, 0,
          0, 0, 0x9a, 0, 0, 0, 0, 0, 0, 0, 0, 0, 0, 0, 0, 0, 0, 0, 0, 0, 0, 0], b2) ∧
      b2.log = [BusOp.write 0x6f [0] false, BusOp.read 0x6f 32,
        BusOp.write 0x6f [32] false, BusOp.read 0x6f 8] := by
  obtain ⟨b2, h1, h2⟩ := (deviceRead_chunks chipWire ⟨sampleChip, []⟩ 0x6f 0
    (List.replicate 40 9) 40 2 (by decide)).2.2.1 sampleChip [] (by decide)
  refine ⟨b2, ?_, ?_⟩
  · rw [h1]
    have e : Chip.load (sampleChip.mem 0x6f) 0 40 =
        [0xa6, 0x01, 0x13, 0x2a, 0x25, 0x02, 0x19, 0x83, 0, 0, 0, 0, 0, 0, 0, 0, 0, 0,
          0, 0, 0x9a, 0, 0, 0, 0, 0, 0, 0, 0, 0, 0, 0, 0, 0, 0, 0, 0, 0, 0, 0] := by decide
    rw [e]
  · rw [h2]
    decide

end MCP79410

/-! ## The EEPROM: write-completion poll, single-byte writes, block protection -/

namespace MCP79410

variable {σ : Type}

/-- Whatever the bus answers, the poll loop issues at most `tries` address-only
transmissions to the EEPROM, and at least one when `tries` is positive. -/
theorem waitForEEPROMLoop_log (w : TwoWire σ) : ∀ (tries : Nat) (b : Bus σ),
    ∃ k, k ≤ tries ∧ (0 < tries → 0 < k) ∧
      (waitForEEPROMLoop w tries b).log = b.log ++ List.replicate k (BusOp.write 0x57 [] true) := by
  intro tries
  induction tries with
  | zero => intro b; exact ⟨0, le_refl _, fun h => h, by simp [waitForEEPROMLoop]⟩
  | succ tries ih =>
    intro b
    by_cases h0 : (b.transmit w EEPROM_I2C_ADDR [] true).1 = 0
    · refine ⟨1, by omega, fun _ => by omega, ?_⟩
      simp only [waitForEEPROMLoop, h0, if_true]
      rfl
    · obtain ⟨k, hk, -, hlog⟩ := ih (b.transmit w EEPROM_I2C_ADDR [] true).2
      refine ⟨k + 1, by omega, fun _ => by omega, ?_⟩
      simp only [waitForEEPROMLoop, h0, if_false]
      rw [hlog, List.replicate_succ]
      simp [Bus.transmit, EEPROM_I2C_ADDR]

/-- When the first poll is acknowledged the wait is that one poll. -/
theorem waitForEEPROM_ack (w : TwoWire σ) (b : Bus σ)
    (h : (w.endTransmission b.st 0x57 [] true).1 = 0) :
    (waitForEEPROM w b).log = b.log ++ [BusOp.write 0x57 [] true] := by
  have h0 : (b.transmit w EEPROM_I2C_ADDR [] true).1 = 0 := h
  simp only [waitForEEPROM, waitForEEPROMLoop, h0, if_true]
  rfl

/-- When no poll is acknowledged the loop issues all its polls. -/
theorem waitForEEPROMLoop_busy (w : TwoWire σ)
    (hpoll : ∀ s d stop, (w.endTransmission s d [] stop).1 ≠ 0) : ∀ (tries : Nat) (b : Bus σ),
    (waitForEEPROMLoop w tries b).log =
      b.log ++ List.replicate tries (BusOp.write 0x57 [] true) := by
  intro tries
  induction tries with
  | zero => intro b; simp [waitForEEPROMLoop]
  | succ tries ih =>
    intro b
    have h0 : ¬ (b.transmit w EEPROM_I2C_ADDR [] true).1 = 0 := hpoll _ _ _
    simp only [waitForEEPROMLoop, h0, if_false]
    rw [ih, List.replicate_succ]
    simp [Bus.transmit, EEPROM_I2C_ADDR]

/-- On a bus whose answers are fixed in advance, the poll loop stops with the first
acknowledge, at the latest when its tries are used up. -/
theorem waitForEEPROMLoop_seq (f : Nat → Int) : ∀ (tries c : Nat) (log : List BusOp) (j : Nat),
    (∀ i, i < j → f (c + i) ≠ 0) → (j < tries → f (c + j) = 0) →
    waitForEEPROMLoop (seqWire f) tries ⟨c, log⟩ =
      ⟨c + min tries (j + 1),
        log ++ List.replicate (min tries (j + 1)) (BusOp.write 0x57 [] true)⟩ := by
  intro tries
  induction tries with
  | zero => intro c log j _ _; simp [waitForEEPROMLoop]
  | succ tries ih =>
    intro c log j hn ha
    have ht : (Bus.transmit (seqWire f) ⟨c, log⟩ EEPROM_I2C_ADDR [] true)
        = (f c, ⟨c + 1, log ++ [BusOp.write 0x57 [] true]⟩) := rfl
    cases j with
    | zero =>
      have h0 : f c = 0 := by simpa using ha (by omega)
      simp only [waitForEEPROMLoop, ht, h0, if_true]
      simp
    | succ j =>
      have h0 : ¬ f c = 0 := by simpa using hn 0 (by omega)
      simp only [waitForEEPROMLoop, ht, h0, if_false]
      rw [ih (c + 1) _ j (fun i hi => by
          have := hn (i + 1) (by omega)
          rwa [show c + (i + 1) = c + 1 + i by omega] at this)
        (fun hj => by
          have := ha (by omega)
          rwa [show c + (j + 1) = c + 1 + j by omega] at this)]
      rw [Nat.succ_min_succ, List.replicate_succ]
      simp only [List.append_assoc, List.singleton_append]
      congr 1
      omega

/-- The loop of `deviceWriteEEPROM` is the chunked write of the specification with one
byte per transaction and the write-completion poll after each. -/
theorem deviceWriteEEPROMLoop_each (w : TwoWire σ) (addr : Nat) (buf : List Nat) (n : Nat) :
    ∀ (m offset fuel : Nat) (stat : Int) (b : Bus σ),
      n - offset = m → m ≤ fuel →
      deviceWriteEEPROMLoop w addr buf n fuel offset stat b =
        Bus.transmitEach w (waitForEEPROM w) b stat
          ((List.range m).map (fun k =>
            (0x57, [(addr + (offset + k)) % 256, buf.getD (offset + k) 0]))) := by
  intro m
  induction m with
  | zero =>
    intro offset fuel stat b hm _
    have hdone : ¬ offset < n := by omega
    cases fuel <;> simp [deviceWriteEEPROMLoop, hdone, Bus.transmitEach]
  | succ m ih =>
    intro offset fuel stat b hm hfuel
    obtain ⟨f, rfl⟩ : ∃ f, fuel = f + 1 := ⟨fuel - 1, by omega⟩
    have hlt : offset < n := by omega
    have hcount : (if n - offset > 1 then 1 else n - offset) = 1 := by
      split_ifs with h
      · rfl
      · omega
    have e1 : chunk buf offset 1 = [buf.getD offset 0] := chunk_succ buf offset 0
    simp only [deviceWriteEEPROMLoop, if_pos hlt, hcount, e1, List.range_succ_eq_map,
      List.map_cons, List.map_map, Bus.transmitEach, Nat.add_zero, EEPROM_I2C_ADDR]
    split_ifs with hr
    · rfl
    · rw [ih (offset + 1) f _ _ (by omega) (by omega)]
      congr 1
      apply List.map_congr_left
      intro k _
      simp only [Function.comp, Nat.succ_eq_add_one]
      rw [show offset + 1 + k = offset + (k + 1) by ring]

/-- C26: `deviceWriteEEPROM` is the chunked write of the specification over `n`
transactions to device `0x57`, of which number `k` carries the one byte `buf[k]` at
address `(addr + k) mod 256`, with `waitForEEPROM` run after each transaction that
succeeds and before the next byte is sent; it stops at the first transaction that fails
and returns its status. On a bus that acknowledges every transmission the status is 0
and the log is, for each byte in order, its write followed by one poll. -/
theorem deviceWriteEEPROM_bytes (w : TwoWire σ) (b : Bus σ) (addr : Nat) (buf : List Nat)
    (n : Nat) :
    deviceWriteEEPROM w b addr buf n =
      Bus.transmitEach w (waitForEEPROM w) b 0
        ((List.range n).map (fun k => (0x57, [(addr + k) % 256, buf.getD k 0]))) ∧
    ((∀ s d data stop, (w.endTransmission s d data stop).1 = 0) →
      (deviceWriteEEPROM w b addr buf n).1 = 0 ∧
      (deviceWriteEEPROM w b addr buf n).2.log = b.log ++
        ((List.range n).map (fun k =>
          [BusOp.write 0x57 [(addr + k) % 256, buf.getD k 0] true,
            BusOp.write 0x57 [] true])).flatten) ∧
    (buf.length = n → (List.range n).map (fun k => buf.getD k 0) = buf) ∧
    (∀ (fuel offset : Nat) (stat : Int) (b1 : Bus σ), offset < n →
      (b1.transmit w 0x57 [(addr + offset) % 256, buf.getD offset 0] true).1 ≠ 0 →
      deviceWriteEEPROMLoop w addr buf n (fuel + 1) offset stat b1 =
        b1.transmit w 0x57 [(addr + offset) % 256, buf.getD offset 0] true) := by
  have hsimp : ∀ k, 0 + k = k := fun k => Nat.zero_add _
  have href : deviceWriteEEPROM w b addr buf n =
      Bus.transmitEach w (waitForEEPROM w) b 0
        ((List.range n).map (fun k => (0x57, [(addr + k) % 256, buf.getD k 0]))) := by
    have h := deviceWriteEEPROMLoop_each w addr buf n n 0 n 0 b (by simp) (le_refl _)
    simp only [hsimp] at h
    exact h
  refine ⟨href, fun hack => ?_, fun hlen => ?_, ?_⟩
  · have hall : ∀ s, ∀ o ∈ (List.range n).map (fun k =>
        (0x57, [(addr + k) % 256, buf.getD k 0])),
        (w.endTransmission s o.1 o.2 true).1 = 0 := fun s o _ => hack s o.1 o.2 true
    have h1 := Bus.transmitEach_status w (waitForEEPROM w) _ b 0 hall
    have h2 := Bus.transmitEach_log w (waitForEEPROM w) [BusOp.write 0x57 [] true]
      (fun b1 => waitForEEPROM_ack w b1 (hack _ _ _ _)) _ b 0 hall
    rw [href]
    refine ⟨by rw [h1]; simp, ?_⟩
    rw [h2, List.map_map]
    rfl
  · have h := chunk_all buf
    rw [hlen] at h
    exact h
  · intro fuel offset stat b1 hlt hfail
    have hfail2 : (b1.transmit w EEPROM_I2C_ADDR [(addr + offset) % 256, buf.getD offset 0]
        true).1 ≠ 0 := hfail
    have hcount : (if n - offset > 1 then 1 else n - offset) = 1 := by
      split_ifs with h
      · rfl
      · omega
    have e1 : chunk buf offset 1 = [buf.getD offset 0] := chunk_succ buf offset 0
    simp only [deviceWriteEEPROMLoop, if_pos hlt, hcount, e1, if_pos hfail2]
    rfl

theorem deviceWriteEEPROM_bytes_witness :
    (deviceWriteEEPROM ackWire ⟨(), []⟩ 0x10 [0xde, 0xad, 0xbe] 3).1 = 0 ∧
    (deviceWriteEEPROM ackWire ⟨(), []⟩ 0x10 [0xde, 0xad, 0xbe] 3).2.log =
      [BusOp.write 0x57 [0x10, 0xde] true, BusOp.write 0x57 [] true,
        BusOp.write 0x57 [0x11, 0xad] true, BusOp.write 0x57 [] true,
        BusOp.write 0x57 [0x12, 0xbe] true, BusOp.write 0x57 [] true] := by
  obtain ⟨h1, h2⟩ := (deviceWriteEEPROM_bytes ackWire ⟨(), []⟩ 0x10 [0xde, 0xad, 0xbe] 3).2.1
    (fun _ _ _ _ => rfl)
  refine ⟨h1, ?_⟩
  rw [h2]
  decide

/-- C27: whatever the EEPROM answers, `waitForEEPROM` issues at least 1 and at most 50
address-only polls to device `0x57` and nothing else. On a bus whose answers are fixed
in advance, when the first acknowledge is the answer number `j` (from 0, so in position
`j + 1`), or none of the first 50 is an acknowledge, it issues exactly `min(50, j + 1)`
polls. A wait that uses up all 50 polls is not reported: on a bus that acknowledges
every transmission with an address byte, whatever it answers to the polls,
`deviceWriteEEPROM` returns status 0 and `setBlockProtection` returns true, and when no
poll is ever acknowledged `setBlockProtection` has written its byte and polled 50
times. -/
theorem waitForEEPROM_bounded (w : TwoWire σ) (b : Bus σ) :
    (∃ k, 1 ≤ k ∧ k ≤ 50 ∧
      (waitForEEPROM w b).log = b.log ++ List.replicate k (BusOp.write 0x57 [] true)) ∧
    (∀ (f : Nat → Int) (c : Nat) (log : List BusOp) (j : Nat),
      (∀ i, i < j → f (c + i) ≠ 0) → (j < 50 → f (c + j) = 0) →
      waitForEEPROM (seqWire f) ⟨c, log⟩ =
        ⟨c + min 50 (j + 1),
          log ++ List.replicate (min 50 (j + 1)) (BusOp.write 0x57 [] true)⟩) ∧
    ((∀ s d a ds stop, (w.endTransmission s d (a :: ds) stop).1 = 0) →
      (∀ (addr : Nat) (buf : List Nat) (n : Nat), (deviceWriteEEPROM w b addr buf n).1 = 0) ∧
      (∀ v : Nat, (MCP79410EEPROM.setBlockProtection w b v).1 = true)) ∧
    ((∀ s d a ds stop, (w.endTransmission s d (a :: ds) stop).1 = 0) →
      (∀ s d stop, (w.endTransmission s d [] stop).1 ≠ 0) →
      ∀ v : Nat, (MCP79410EEPROM.setBlockProtection w b v).2.log =
        b.log ++ BusOp.write 0x57 [0xff, (v &&& 3) <<< 2] true ::
          List.replicate 50 (BusOp.write 0x57 [] true)) := by
  have hbyte : ∀ v : Nat, (v &&& 3) <<< 2 % 256 = (v &&& 3) <<< 2 := by
    intro v
    have h3 : v &&& 3 ≤ 3 := Nat.and_le_right
    apply Nat.mod_eq_of_lt
    rw [Nat.shiftLeft_eq]
    omega
  refine ⟨?_, fun f c log j hn ha => waitForEEPROMLoop_seq f 50 c log j hn ha,
    fun hdata => ⟨fun addr buf n => ?_, fun v => ?_⟩, fun hdata hpoll v => ?_⟩
  · obtain ⟨k, hk, hpos, hlog⟩ := waitForEEPROMLoop_log w 50 b
    exact ⟨k, hpos (by decide), hk, hlog⟩
  · have h := deviceWriteEEPROMLoop_each w addr buf n n 0 n 0 b (by simp) (le_refl _)
    rw [deviceWriteEEPROM, h, Bus.transmitEach_status w (waitForEEPROM w) _ b 0
      (fun s o ho => by
        obtain ⟨k, -, rfl⟩ := List.mem_map.1 ho
        exact hdata _ _ _ _ _)]
    simp
  · simp only [MCP79410EEPROM.setBlockProtection,
      deviceWrite_single w b EEPROM_I2C_ADDR EEPROM_STATUS _ 1 (by decide) (by decide)]
    have e1 : ∀ x : Nat, chunk [x] 0 1 = [x] := fun _ => rfl
    rw [e1, if_pos (hdata _ _ _ _ _)]
  · simp only [MCP79410EEPROM.setBlockProtection,
      deviceWrite_single w b EEPROM_I2C_ADDR EEPROM_STATUS _ 1 (by decide) (by decide)]
    have e1 : ∀ x : Nat, chunk [x] 0 1 = [x] := fun _ => rfl
    rw [e1, if_pos (hdata _ _ _ _ _)]
    simp only [waitForEEPROM, waitForEEPROMLoop_busy w hpoll, hbyte]
    simp [EEPROM_I2C_ADDR, EEPROM_STATUS]

theorem waitForEEPROM_bounded_witness :
    waitForEEPROM (seqWire (fun i => if i = 2 then 0 else 2)) ⟨0, []⟩ =
      ⟨3, List.replicate 3 (BusOp.write 0x57 [] true)⟩ ∧
    waitForEEPROM (seqWire (fun _ => 2)) ⟨0, []⟩ =
      ⟨50, List.replicate 50 (BusOp.write 0x57 [] true)⟩ ∧
    (deviceWriteEEPROM busyWire ⟨(), []⟩ 0x10 [0xde, 0xad] 2).1 = 0 ∧
    (MCP79410EEPROM.setBlockProtection busyWire ⟨(), []⟩ 3).1 = true ∧
    (MCP79410EEPROM.setBlockProtection busyWire ⟨(), []⟩ 3).2.log =
      BusOp.write 0x57 [0xff, 0x0c] true :: List.replicate 50 (BusOp.write 0x57 [] true) := by
  have h1 := (waitForEEPROM_bounded ackWire ⟨(), []⟩).2.1 (fun i => if i = 2 then 0 else 2)
    0 [] 2 (by decide) (by decide)
  have h2 := (waitForEEPROM_bounded ackWire ⟨(), []⟩).2.1 (fun _ => 2)
    0 [] 50 (by decide) (by decide)
  have h3 := (waitForEEPROM_bounded busyWire ⟨(), []⟩).2.2.1 (fun _ _ _ _ _ => rfl)
  have h4 := (waitForEEPROM_bounded busyWire ⟨(), []⟩).2.2.2 (fun _ _ _ _ _ => rfl)
    (fun _ _ _ => (by decide : (2 : Int) ≠ 0)) 3
  exact ⟨h1, h2, h3.1 _ _ _, h3.2 3, h4⟩

end MCP79410

namespace MCP79410EEPROM

variable {σ : Type}

theorem protection_field (v : Nat) :
    (v &&& 3) <<< 2 % 256 = (v &&& 3) <<< 2 ∧ ((v &&& 3) <<< 2 >>> 2) &&& 3 = v &&& 3 := by
  have h3 : v &&& 3 ≤ 3 := Nat.and_le_right
  refine ⟨?_, ?_⟩
  · apply Nat.mod_eq_of_lt
    rw [Nat.shiftLeft_eq]
    omega
  · rw [Nat.shiftLeft_shiftRight, Nat.and_assoc]
    rfl

theorem getBlockProtection_chip (k : Nat) (s : Chip) (log : List BusOp) :
    getBlockProtection chipWire (k + 1) ⟨s, log⟩ =
      some ((s.mem 0x57 0xff >>> 2) &&& 3,
        ⟨((s.write 0x57 0xff []).read 0x57 1).2,
          log ++ [BusOp.write 0x57 [0xff] false, BusOp.read 0x57 1]⟩) := by
  simp only [getBlockProtection, MCP79410.EEPROM_I2C_ADDR, MCP79410.EEPROM_STATUS,
    MCP79410.deviceRead_chip k s log 0x57 0xff [0] 1 (by decide) (by decide), Option.map_some']
  rfl

/-- C22: block protection is the 2-bit field at bit position 2 of EEPROM status
register `0xff`. For every `v`, on any bus `setBlockProtection(v)` issues one
transaction that carries data, the single byte `(v & 3) << 2` to register `0xff` of
device `0x57`, followed only by acknowledge polls, and returns true exactly when that
transaction succeeds; on the memory chip `getBlockProtection()` returns
`(status >> 2) & 3` and changes no byte; and `getBlockProtection()` after
`setBlockProtection(v)` returns `v & 3`, which is `v` for each of the levels 0..3. -/
theorem blockProtection_roundtrip (v : Nat) :
    (∀ (τ : Type) (w : TwoWire τ) (b : Bus τ), ∃ j, j ≤ 50 ∧
      (setBlockProtection w b v).2.log =
        b.log ++ BusOp.write 0x57 [0xff, (v &&& 3) <<< 2] true ::
          List.replicate j (BusOp.write 0x57 [] true) ∧
      ((setBlockProtection w b v).1 = true ↔
        (w.endTransmission b.st 0x57 [0xff, (v &&& 3) <<< 2] true).1 = 0)) ∧
    (∀ (k : Nat) (s : Chip) (log : List BusOp), ∃ b2,
      getBlockProtection chipWire (k + 1) ⟨s, log⟩ =
        some ((s.mem 0x57 0xff >>> 2) &&& 3, b2) ∧ b2.st.mem = s.mem) ∧
    (∀ (k : Nat) (s : Chip) (log : List BusOp), ∃ b2 b3,
      setBlockProtection chipWire ⟨s, log⟩ v = (true, b2) ∧
      b2.st.mem 0x57 0xff = (v &&& 3) <<< 2 ∧
      getBlockProtection chipWire (k + 1) b2 = some (v &&& 3, b3)) ∧
    (v < 4 → v &&& 3 = v) := by
  obtain ⟨hbyte, hfield⟩ := protection_field v
  have e1 : ∀ x : Nat, MCP79410.chunk [x] 0 1 = [x] := fun _ => rfl
  refine ⟨fun τ w b => ?_, fun k s log => ⟨_, getBlockProtection_chip k s log, ?_⟩,
    fun k s log => ?_, fun hv => ?_⟩
  · simp only [setBlockProtection, MCP79410.EEPROM_I2C_ADDR, MCP79410.EEPROM_STATUS,
      MCP79410.deviceWrite_single w b 0x57 0xff _ 1 (by decide) (by decide), e1, hbyte]
    by_cases h0 : (w.endTransmission b.st 0x57 [0xff % 256, (v &&& 3) <<< 2] true).1 = 0
    · obtain ⟨j, hj, -, hlog⟩ := MCP79410.waitForEEPROMLoop_log w 50
        ⟨(w.endTransmission b.st 0x57 [0xff % 256, (v &&& 3) <<< 2] true).2,
          b.log ++ [BusOp.write 0x57 [0xff % 256, (v &&& 3) <<< 2] true]⟩
      refine ⟨j, hj, ?_, ?_⟩
      · rw [if_pos h0]
        simp only [MCP79410.waitForEEPROM, hlog]
        simp
      · rw [if_pos h0]
        exact ⟨fun _ => h0, fun _ => rfl⟩
    · refine ⟨0, by omega, ?_, ?_⟩
      · rw [if_neg h0]
        simp
      · rw [if_neg h0]
        exact ⟨fun h => absurd h (by simp), fun h => absurd h h0⟩
  · exact Chip.seek_mem s 0x57 0xff 1
  · have hset : setBlockProtection chipWire ⟨s, log⟩ v =
        (true, ⟨s.write 0x57 0xff [(v &&& 3) <<< 2],
          log ++ [BusOp.write 0x57 [0xff, (v &&& 3) <<< 2] true] ++
            [BusOp.write 0x57 [] true]⟩) := by
      simp only [setBlockProtection, MCP79410.EEPROM_I2C_ADDR, MCP79410.EEPROM_STATUS,
        MCP79410.deviceWrite_chip s log 0x57 0xff _ 1 (by decide) (by decide), e1, hbyte,
        if_true, MCP79410.waitForEEPROM_chip]
    have hmem : (s.write 0x57 0xff [(v &&& 3) <<< 2]).mem 0x57 0xff = (v &&& 3) <<< 2 := by
      simp [Chip.write, Chip.store]
    have hget := getBlockProtection_chip k (s.write 0x57 0xff [(v &&& 3) <<< 2])
      (log ++ [BusOp.write 0x57 [0xff, (v &&& 3) <<< 2] true] ++ [BusOp.write 0x57 [] true])
    rw [hmem, hfield] at hget
    exact ⟨_, _, hset, hmem, hget⟩
  · interval_cases v <;> rfl

theorem blockProtection_roundtrip_witness :
    (∃ b2 b3, setBlockProtection chipWire ⟨sampleChip, []⟩ 2 = (true, b2) ∧
      b2.st.mem 0x57 0xff = (2 &&& 3) <<< 2 ∧
      getBlockProtection chipWire 1 b2 = some (2 &&& 3, b3)) ∧
    ((2 : Nat) &&& 3) <<< 2 = 0x08 ∧ (0 : Nat) &&& 3 = 0 ∧ (1 : Nat) &&& 3 = 1 ∧
    (2 : Nat) &&& 3 = 2 ∧ (3 : Nat) &&& 3 = 3 :=
  ⟨(blockProtection_roundtrip 2).2.2.1 0 sampleChip [], by decide,
    (blockProtection_roundtrip 0).2.2.2 (by decide),
    (blockProtection_roundtrip 1).2.2.2 (by decide),
    (blockProtection_roundtrip 2).2.2.2 (by decide),
    (blockProtection_roundtrip 3).2.2.2 (by decide)⟩

end MCP79410EEPROM

namespace MCP79410

variable {σ : Type}

/-- C23: for every 8-byte buffer, on any bus, the transactions of
`eepromProtectedBlockWrite(buf)` are, in this order: the byte `0x55` to unlock register
`0x09` of device `0x6f`, the byte `0xaa` to the same register, one transaction to
device `0x57` at address `0xf0` carrying all 8 bytes of the buffer, and then only
acknowledge polls (none when that transaction failed). The call returns true exactly
when the 8-byte transaction succeeds. -/
theorem eepromProtectedBlockWrite_sequence (w : TwoWire σ) (b : Bus σ) (buf : List Nat)
    (hlen : buf.length = 8) :
    ∃ j, j ≤ 50 ∧
      (eepromProtectedBlockWrite w b buf).2.log =
        b.log ++ [BusOp.write 0x6f [0x09, 0x55] true, BusOp.write 0x6f [0x09, 0xaa] true,
          BusOp.write 0x57 (0xf0 :: buf) true] ++
          List.replicate j (BusOp.write 0x57 [] true) ∧
      ((eepromProtectedBlockWrite w b buf).1 = true ↔
        (w.endTransmission
          (w.endTransmission (w.endTransmission b.st 0x6f [0x09, 0x55] true).2
            0x6f [0x09, 0xaa] true).2 0x57 (0xf0 :: buf) true).1 = 0) ∧
      ((w.endTransmission
          (w.endTransmission (w.endTransmission b.st 0x6f [0x09, 0x55] true).2
            0x6f [0x09, 0xaa] true).2 0x57 (0xf0 :: buf) true).1 ≠ 0 → j = 0) := by
  have e1 : ∀ x : Nat, chunk [x] 0 1 = [x] := fun _ => rfl
  have e8 : chunk buf 0 8 = buf := by
    have h := chunk_all buf
    rw [hlen] at h
    exact h
  simp only [eepromProtectedBlockWrite, deviceWriteRegisterByte, REG_I2C_ADDR, REG_EE_UNLOCK,
    EEPROM_I2C_ADDR, EEPROM_PROTECTED, EEPROM_PROTECTED_BLOCK_SIZE,
    deviceWrite_single w _ 0x6f 0x09 _ 1 (by decide) (by decide),
    deviceWrite_single w _ 0x57 0xf0 _ 8 (by decide) (by decide), e1, e8]
  by_cases h0 : (w.endTransmission
      (w.endTransmission (w.endTransmission b.st 0x6f [0x09 % 256, 0x55] true).2
        0x6f [0x09 % 256, 0xaa] true).2 0x57 (0xf0 % 256 :: buf) true).1 = 0
  · obtain ⟨j, hj, -, hlog⟩ := waitForEEPROMLoop_log w 50
      ⟨(w.endTransmission
        (w.endTransmission (w.endTransmission b.st 0x6f [0x09 % 256, 0x55] true).2
          0x6f [0x09 % 256, 0xaa] true).2 0x57 (0xf0 % 256 :: buf) true).2,
        b.log ++ [BusOp.write 0x6f [0x09 % 256, 0x55] true] ++
          [BusOp.write 0x6f [0x09 % 256, 0xaa] true] ++
          [BusOp.write 0x57 (0xf0 % 256 :: buf) true]⟩
    refine ⟨j, hj, ?_, ?_, fun h => absurd h0 h⟩
    · rw [if_pos h0]
      simp only [waitForEEPROM, hlog]
      simp
    · rw [if_pos h0]
      simp only [decide_eq_true_eq]
  · refine ⟨0, by omega, ?_, ?_, fun _ => rfl⟩
    · rw [if_neg h0]
      simp
    · rw [if_neg h0]
      simp only [decide_eq_true_eq]

theorem eepromProtectedBlockWrite_sequence_witness :
    (eepromProtectedBlockWrite ackWire ⟨(), []⟩ [1, 2, 3, 4, 5, 6, 7, 8]).2.log =
      [BusOp.write 0x6f [0x09, 0x55] true, BusOp.write 0x6f [0x09, 0xaa] true,
        BusOp.write 0x57 [0xf0, 1, 2, 3, 4, 5, 6, 7, 8] true, BusOp.write 0x57 [] true] ∧
    (eepromProtectedBlockWrite ackWire ⟨(), []⟩ [1, 2, 3, 4, 5, 6, 7, 8]).1 = true := by
  obtain ⟨j, -, -, h2, -⟩ := eepromProtectedBlockWrite_sequence ackWire ⟨(), []⟩
    [1, 2, 3, 4, 5, 6, 7, 8] rfl
  exact ⟨by decide, h2.2 rfl⟩

end MCP79410

/-! ## Synchronisation with the host clock -/

namespace MCP79410

variable {σ : Type}

/-- Setting the clock is one write transaction to device `0x6f`, on any bus. -/
theorem setRTCTime_log (w : TwoWire σ) (self : MCP79410) (b : Bus σ) (t : Int) :
    ∃ data, (setRTCTime w self b t).2.log = b.log ++ [BusOp.write 0x6f data true] := by
  simp only [setRTCTime, deviceWriteRTCTime, REG_I2C_ADDR, REG_DATE_TIME,
    deviceWrite_single w b 0x6f 0 _ 7 (by decide) (by decide)]
  exact ⟨_, rfl⟩

/-- What one call of `loop()` can do. -/
theorem loop_cases (w : TwoWire σ) (self : MCP79410) (b : Bus σ) (host : Host) :
    loop w self b host = (self, b) ∨
    ((loop w self b host).1 = { self with timeSet := true } ∧
      ((loop w self b host).2 = b ∨
        (self.timeSet = false ∧ host.isValid = true ∧ host.timeSyncedLast ≠ 0 ∧
          self.timeSyncMode &&& 1 ≠ 0 ∧ host.isValidLater = true ∧
          (loop w self b host).2 = (setRTCTime w self b host.now).2))) := by
  by_cases h1 : self.timeSet = false
  · by_cases h2 : host.isValid = true
    · by_cases h3 : host.timeSyncedLast ≠ 0
      · right
        by_cases h4 : self.timeSyncMode &&& 1 ≠ 0
        · by_cases h5 : host.isValidLater = true
          · have e : loop w self b host =
                ({ self with timeSet := true }, (setRTCTime w self b host.now).2) := by
              simp only [loop, if_pos h1, if_pos h2, if_pos h3, TIME_SYNC_CLOUD_TO_RTC,
                if_pos h4, setRTCFromCloud, if_pos h5]
            rw [e]
            exact ⟨rfl, Or.inr ⟨h1, h2, h3, h4, h5, rfl⟩⟩
          · have e : loop w self b host = ({ self with timeSet := true }, b) := by
              simp only [loop, if_pos h1, if_pos h2, if_pos h3, TIME_SYNC_CLOUD_TO_RTC,
                if_pos h4, setRTCFromCloud, if_neg h5]
            rw [e]
            exact ⟨rfl, Or.inl rfl⟩
        · have e : loop w self b host = ({ self with timeSet := true }, b) := by
            simp only [loop, if_pos h1, if_pos h2, if_pos h3, TIME_SYNC_CLOUD_TO_RTC,
              if_neg h4]
          rw [e]
          exact ⟨rfl, Or.inl rfl⟩
      · left; simp only [loop, if_pos h1, if_pos h2, if_neg h3]
    · left; simp only [loop, if_pos h1, if_neg h2]
  · left; simp only [loop, if_neg h1]

theorem loop_timeSet (w : TwoWire σ) (self : MCP79410) (b : Bus σ) (host : Host)
    (h : self.timeSet = true) : loop w self b host = (self, b) := by
  have h1 : ¬ self.timeSet = false := by simp [h]
  simp only [loop, if_neg h1]

theorem loopCalls_timeSet (w : TwoWire σ) : ∀ (hosts : List Host) (self : MCP79410)
    (b : Bus σ), self.timeSet = true → loopCalls w self b hosts = (self, b) := by
  intro hosts
  induction hosts with
  | nil => intro self b _; rfl
  | cons host hosts ih =>
    intro self b h
    have e : loopCalls w self b (host :: hosts) =
        loopCalls w (loop w self b host).1 (loop w self b host).2 hosts := rfl
    rw [e, loop_timeSet w self b host h]
    exact ih self b h

theorem loopCalls_cases (w : TwoWire σ) : ∀ (hosts : List Host) (self : MCP79410) (b : Bus σ),
    ((loopCalls w self b hosts).1 = self ∨
      (loopCalls w self b hosts).1 = { self with timeSet := true }) ∧
    ((loopCalls w self b hosts).2.log = b.log ∨
      ∃ data, (loopCalls w self b hosts).2.log = b.log ++ [BusOp.write 0x6f data true]) := by
  intro hosts
  induction hosts with
  | nil => intro self b; exact ⟨Or.inl rfl, Or.inl rfl⟩
  | cons host hosts ih =>
    intro self b
    have e : loopCalls w self b (host :: hosts) =
        loopCalls w (loop w self b host).1 (loop w self b host).2 hosts := rfl
    rw [e]
    rcases loop_cases w self b host with h | ⟨h1, h2⟩
    · rw [h]
      exact ih self b
    · have hset : (loop w self b host).1.timeSet = true := by rw [h1]
      rw [loopCalls_timeSet w hosts _ _ hset]
      refine ⟨Or.inr h1, ?_⟩
      rcases h2 with h2 | ⟨-, -, -, -, -, h2⟩
      · left; rw [h2]
      · right
        rw [h2]
        exact setRTCTime_log w self b host.now

/-- C28: synchronisation of the RTC from the host by `loop()` is one-shot, on any bus
and for any answers of the host. Once `timeSet` is true a call of `loop()`, and every
sequence of calls, leaves the controller and the bus as they are. A call that issues a
transaction was made with `timeSet` false, the host time valid, a last synchronisation
other than 0 and bit `0b01` of the sync mode set; it issues exactly the one write
transaction of `setRTCTime` and sets `timeSet`; and when these conditions hold the call
does make that attempt. Over every sequence of calls at most one transaction is issued
in total, and the controller changes in nothing but `timeSet`. -/
theorem loop_one_shot (w : TwoWire σ) (self : MCP79410) (b : Bus σ) :
    (self.timeSet = true → ∀ host, loop w self b host = (self, b)) ∧
    (self.timeSet = true → ∀ hosts, loopCalls w self b hosts = (self, b)) ∧
    (∀ host, (loop w self b host).2.log ≠ b.log →
      self.timeSet = false ∧ host.isValid = true ∧ host.timeSyncedLast ≠ 0 ∧
      self.timeSyncMode &&& 1 ≠ 0 ∧ host.isValidLater = true ∧
      (loop w self b host).1.timeSet = true ∧
      ∃ data, (loop w self b host).2.log = b.log ++ [BusOp.write 0x6f data true]) ∧
    (∀ host, self.timeSet = false → host.isValid = true → host.timeSyncedLast ≠ 0 →
      self.timeSyncMode &&& 1 ≠ 0 → host.isValidLater = true →
      loop w self b host = ({ self with timeSet := true }, (setRTCTime w self b host.now).2)) ∧
    (∀ hosts, (loopCalls w self b hosts).2.log = b.log ∨
      ∃ data, (loopCalls w self b hosts).2.log = b.log ++ [BusOp.write 0x6f data true]) ∧
    (∀ hosts, (loopCalls w self b hosts).1 = self ∨
      (loopCalls w self b hosts).1 = { self with timeSet := true }) := by
  refine ⟨fun h host => loop_timeSet w self b host h,
    fun h hosts => loopCalls_timeSet w hosts self b h, fun host hne => ?_,
    fun host h1 h2 h3 h4 h5 => ?_, fun hosts => (loopCalls_cases w hosts self b).2,
    fun hosts => (loopCalls_cases w hosts self b).1⟩
  · rcases loop_cases w self b host with h | ⟨h1, h2⟩
    · rw [h] at hne
      exact absurd rfl hne
    · rcases h2 with h2 | ⟨a1, a2, a3, a4, a5, h2⟩
      · rw [h2] at hne
        exact absurd rfl hne
      · refine ⟨a1, a2, a3, a4, a5, by rw [h1], ?_⟩
        rw [h2]
        exact setRTCTime_log w self b host.now
  · simp only [loop, if_pos h1, if_pos h2, if_pos h3, TIME_SYNC_CLOUD_TO_RTC, if_pos h4,
      setRTCFromCloud, if_pos h5]

theorem loop_one_shot_witness :
    (loopCalls ackWire MCP79410.new ⟨(), []⟩
      [⟨false, 0, false, 0⟩, ⟨true, 0, true, 1551099600⟩, ⟨true, 5, true, 1551099686⟩,
        ⟨true, 9, true, 1551099687⟩, ⟨true, 9, true, 1551099688⟩]).2.log =
      [BusOp.write 0x6f [0x00, 0xa6, 0x01, 0x13, 0x0a, 0x25, 0x02, 0x19] true] ∧
    loop ackWire { MCP79410.new with timeSet := true } ⟨(), []⟩ ⟨true, 5, true, 1551099686⟩ =
      ({ MCP79410.new with timeSet := true }, ⟨(), []⟩) ∧
    loop ackWire MCP79410.new ⟨(), []⟩ ⟨true, 5, true, 1551099686⟩ =
      ({ MCP79410.new with timeSet := true },
        (setRTCTime ackWire MCP79410.new ⟨(), []⟩ 1551099686).2) :=
  ⟨by decide,
    (loop_one_shot ackWire { MCP79410.new with timeSet := true } ⟨(), []⟩).1 rfl _,
    (loop_one_shot ackWire MCP79410.new ⟨(), []⟩).2.2.2.1 ⟨true, 5, true, 1551099686⟩
      rfl rfl (by decide) (by decide) rfl⟩

end MCP79410

namespace MCP79410Time

theorem bcdToInt_nonneg (v : Nat) : 0 ≤ bcdToInt v := by
  unfold bcdToInt
  exact Int.ofNat_nonneg _

theorem getHour_nonneg (t : MCP79410Time) : 0 ≤ t.getHour := by
  unfold getHour
  have h1 := bcdToInt_nonneg (t.rawHour &&& 0x1f)
  have h2 := bcdToInt_nonneg (t.rawHour &&& 0x3f)
  simp only
  split_ifs <;> omega

theorem daysBeforeMonth_nonneg (leap : Bool) (mon : Int) : 0 ≤ daysBeforeMonth leap mon := by
  unfold daysBeforeMonth
  have h : (0 : Int) ≤ if 1 < mon ∧ leap = true then 1 else 0 := by split_ifs <;> omega
  split <;> omega

/-- The epoch seconds of a time value are positive whatever its raw bytes: the year is
2000 or later. -/
theorem toUnixTime_pos (t : MCP79410Time) : 0 < t.toUnixTime := by
  have hy := bcdToInt_nonneg t.rawYear
  have hmo := bcdToInt_nonneg (t.rawMonth &&& 0x1f)
  have hd := bcdToInt_nonneg (t.rawDayOfMonth &&& 0x3f)
  have hh := getHour_nonneg t
  have hmi := bcdToInt_nonneg (t.rawMinute &&& 0x7f)
  have hs := bcdToInt_nonneg (t.rawSecond &&& 0x7f)
  simp only [toUnixTime, mktime, getYear, getMonth, getDayOfMonth, getMinute, getSecond]
  generalize bcdToInt t.rawYear = y at hy
  generalize bcdToInt (t.rawMonth &&& 0x1f) = mo at hmo
  generalize bcdToInt (t.rawDayOfMonth &&& 0x3f) = d at hd
  generalize t.getHour = h at hh
  generalize bcdToInt (t.rawMinute &&& 0x7f) = mi at hmi
  generalize bcdToInt (t.rawSecond &&& 0x7f) = s at hs
  have hyear : 1999 ≤ y + 2000 - 1900 + 1900 + (mo - 1) / 12 := by omega
  generalize y + 2000 - 1900 + 1900 + (mo - 1) / 12 = year at hyear
  have hm := daysBeforeMonth_nonneg (isLeapYear year) ((mo - 1) % 12)
  generalize daysBeforeMonth (isLeapYear year) ((mo - 1) % 12) = dm at hm
  have hdy : 10592 ≤ daysBeforeYear year := by
    unfold daysBeforeYear
    omega
  generalize daysBeforeYear year = dy at hdy
  nlinarith

end MCP79410Time

namespace MCP79410

variable {σ : Type}

/-- Reading the clock of the memory chip: the call returns, with success exactly when
the year register is nonzero and the oscillator-running bit is set, and leaves every
byte of the chip as it was. -/
theorem getRTCTime_chip (k : Nat) (s : Chip) (log : List BusOp) (time : MCP79410Time) :
    ∃ t2 b2, getRTCTime chipWire (k + 1) ⟨s, log⟩ time =
        some (decide (s.mem 0x6f 6 ≠ 0 ∧ s.mem 0x6f 3 &&& 0x20 ≠ 0), t2, b2) ∧
      b2.st.mem = s.mem := by
  simp only [getRTCTime, deviceReadTime, TIME_MODE_RTC, true_or, if_true, REG_I2C_ADDR,
    REG_DATE_TIME, deviceRead_chip k s log 0x6f 0 _ 7 (by decide) (by decide),
    Option.map_some', Option.some_bind, time_block_year]
  by_cases hy : s.mem 0x6f 6 = 0
  · simp only [hy]
    exact ⟨_, _, rfl, Chip.seek_mem s 0x6f _ 7⟩
  · simp only [gt_iff_lt, Nat.pos_of_ne_zero hy, if_true, getOscillatorRunning,
      REG_RTCWKDAY, deviceReadRegisterByte_chip, Option.map_some', Chip.seek_mem,
      REG_RTCWKDAY_OSCRUN]
    have hd : decide (s.mem 0x6f 6 ≠ 0 ∧ s.mem 0x6f 3 &&& 0x20 ≠ 0)
        = decide (s.mem 0x6f (3 % 256) &&& 32 ≠ 0) := by simp [hy]
    rw [hd]
    exact ⟨_, _, rfl, by rw [Chip.seek_mem, Chip.seek_mem]⟩

/-- On a bus that delivers every byte requested, `deviceRead` returns once the fuel
covers the chunks of 32 bytes. -/
theorem deviceRead_returns (w : TwoWire σ)
    (hfull : ∀ s d c, c ≤ (w.requestFrom s d c).1.length) (fuel : Nat) (b : Bus σ)
    (dev addr : Nat) (buf : List Nat) (n : Nat) (hfuel : (n + 31) / 32 ≤ fuel) :
    ∃ r, deviceRead w fuel b dev addr buf n = some r :=
  ⟨_, deviceReadLoop_each w dev addr n hfull ((n + 31) / 32) 0 fuel 0 buf b (by simp) hfuel⟩

/-- On a bus that delivers every byte requested, reading the clock returns. -/
theorem getRTCTime_returns (w : TwoWire σ)
    (hfull : ∀ s d c, c ≤ (w.requestFrom s d c).1.length) (k : Nat) (b : Bus σ)
    (time : MCP79410Time) : ∃ r, getRTCTime w (k + 1) b time = some r := by
  obtain ⟨r, hr⟩ := deviceRead_returns w hfull (k + 1) b REG_I2C_ADDR REG_DATE_TIME
    (List.replicate 8 0) 7 (by omega)
  have hosc : ∀ b1 : Bus σ, ∃ o, getOscillatorRunning w (k + 1) b1 = some o := by
    intro b1
    obtain ⟨q, hq⟩ := deviceRead_returns w hfull (k + 1) b1 REG_I2C_ADDR REG_RTCWKDAY [0] 1
      (by omega)
    simp only [getOscillatorRunning, deviceReadRegisterByte, hq, Option.map_some']
    exact ⟨_, rfl⟩
  simp only [getRTCTime, deviceReadTime, TIME_MODE_RTC, true_or, if_true, hr,
    Option.map_some', Option.some_bind]
  by_cases h0 : r.1 = 0
  · simp only [h0, if_true]
    split_ifs
    · obtain ⟨o, ho⟩ := hosc r.2.2
      rw [ho]
      exact ⟨_, rfl⟩
    · exact ⟨_, rfl⟩
  · simp only [h0, if_false]
    exact ⟨_, rfl⟩

/-- C29: `setup()` passes the RTC time to the host clock if and only if the host time is
not valid, bit `0b10` of the sync mode is set and `getRTCTime` reports the RTC valid,
and the value passed is then the epoch seconds of the time read. When the host time is
valid or the bit is clear it touches the bus not at all; whenever it returns, the
controller is the one it was with `setupDone` true and no transaction carrying data was
issued. On a bus that delivers every byte requested it returns; on the memory chip it
returns, leaves every byte as it was, and passes the time exactly when, besides the two
conditions on the host side, the year register is nonzero and the oscillator-running
bit is set. -/
theorem setup_pushes_rtc (w : TwoWire σ) (fuel : Nat) (self : MCP79410) (b : Bus σ)
    (host : Host) :
    ((host.isValid = true ∨ self.timeSyncMode &&& 2 = 0) →
      setup w fuel self b host = some ({ self with setupDone := true }, none, b)) ∧
    (∀ self2 pushed b2, setup w fuel self b host = some (self2, pushed, b2) →
      self2 = { self with setupDone := true } ∧ self2.setupDone = true ∧ b.readsOnly b2 ∧
      (pushed ≠ none ↔ host.isValid = false ∧ self.timeSyncMode &&& 2 ≠ 0 ∧
        ∃ t2 b3, getRTCTime w fuel b MCP79410Time.clear = some (true, t2, b3)) ∧
      (∀ t2 b3, host.isValid = false → self.timeSyncMode &&& 2 ≠ 0 →
        getRTCTime w fuel b MCP79410Time.clear = some (true, t2, b3) →
        pushed = some t2.toUnixTime)) ∧
    ((∀ s d c, c ≤ (w.requestFrom s d c).1.length) →
      ∀ k : Nat, ∃ r, setup w (k + 1) self b host = some r) ∧
    (∀ (k : Nat) (s : Chip) (log : List BusOp), ∃ pushed b2,
      setup chipWire (k + 1) self ⟨s, log⟩ host =
        some ({ self with setupDone := true }, pushed, b2) ∧
      b2.st.mem = s.mem ∧
      (pushed ≠ none ↔ host.isValid = false ∧ self.timeSyncMode &&& 2 ≠ 0 ∧
        s.mem 0x6f 6 ≠ 0 ∧ s.mem 0x6f 3 &&& 0x20 ≠ 0)) := by
  have hidle : ∀ {τ : Type} (w1 : TwoWire τ) (f1 : Nat) (b1 : Bus τ),
      (host.isValid = true ∨ self.timeSyncMode &&& 2 = 0) →
      setup w1 f1 self b1 host = some ({ self with setupDone := true }, none, b1) := by
    intro τ w1 f1 b1 h
    by_cases h1 : host.isValid = false
    · have h2 : ¬ self.timeSyncMode &&& 2 ≠ 0 := by
        rcases h with h | h
        · rw [h1] at h; exact absurd h (by decide)
        · exact fun hn => hn h
      simp only [setup, if_pos h1, TIME_SYNC_RTC_TO_TIME, if_neg h2]
    · simp only [setup, if_neg h1]
  have hbusy : ∀ {τ : Type} (w1 : TwoWire τ) (f1 : Nat) (b1 : Bus τ),
      host.isValid = false → self.timeSyncMode &&& 2 ≠ 0 →
      setup w1 f1 self b1 host =
        (getRTCTime w1 f1 b1 MCP79410Time.clear).map (fun q =>
          ({ self with setupDone := true },
            if q.1 = true then some q.2.1.toUnixTime else none, q.2.2)) := by
    intro τ w1 f1 b1 h1 h2
    simp only [setup, if_pos h1, TIME_SYNC_RTC_TO_TIME, if_pos h2, getRTCTimeUnix,
      Option.map_map]
    congr 1
    funext q
    simp only [Function.comp]
    by_cases hq : q.1 = true
    · have hp := MCP79410Time.toUnixTime_pos q.2.1
      simp only [hq, if_true, if_pos (ne_of_gt hp)]
    · have hq2 : q.1 = false := by simpa using hq
      simp only [hq2, Bool.false_eq_true, if_false, ne_eq, not_true_eq_false]
  refine ⟨hidle w fuel b, fun self2 pushed b2 hs => ?_, fun hfull k => ?_, fun k s log => ?_⟩
  · by_cases h1 : host.isValid = false
    · by_cases h2 : self.timeSyncMode &&& 2 ≠ 0
      · rw [hbusy w fuel b h1 h2] at hs
        obtain ⟨q, hq, hq2⟩ := Option.map_eq_some'.1 hs
        obtain ⟨vb, t2, b3⟩ := q
        simp only [Prod.mk.injEq] at hq2
        obtain ⟨rfl, rfl, rfl⟩ := hq2
        have hro := getRTCTime_readsOnly w fuel b MCP79410Time.clear _ hq
        refine ⟨rfl, rfl, hro, ?_, ?_⟩
        · cases vb
          · simp only [Bool.false_eq_true, if_false, ne_eq, not_true_eq_false, false_iff,
              not_and, not_exists]
            intro _ _ t3 b4 h4
            rw [hq] at h4
            simp at h4
          · simp only [if_true, ne_eq, reduceCtorEq, not_false_eq_true, true_iff]
            exact ⟨h1, h2, t2, b3, hq⟩
        · intro t3 b4 _ _ h4
          rw [hq] at h4
          simp only [Option.some.injEq, Prod.mk.injEq] at h4
          obtain ⟨rfl, rfl, -⟩ := h4
          rfl
      · rw [hidle w fuel b (Or.inr (by simpa using h2))] at hs
        simp only [Option.some.injEq, Prod.mk.injEq] at hs
        obtain ⟨rfl, rfl, rfl⟩ := hs
        refine ⟨rfl, rfl, Bus.readsOnly_refl b, ?_, fun _ _ _ h => absurd h h2⟩
        simp only [ne_eq, not_true_eq_false, false_iff, not_and]
        exact fun _ h => absurd h h2
    · have h1t : host.isValid = true := by simpa using h1
      rw [hidle w fuel b (Or.inl h1t)] at hs
      simp only [Option.some.injEq, Prod.mk.injEq] at hs
      obtain ⟨rfl, rfl, rfl⟩ := hs
      refine ⟨rfl, rfl, Bus.readsOnly_refl b, ?_, fun _ _ h => absurd h h1⟩
      simp only [ne_eq, not_true_eq_false, false_iff, not_and]
      exact fun h => absurd h h1
  · by_cases h1 : host.isValid = false
    · by_cases h2 : self.timeSyncMode &&& 2 ≠ 0
      · obtain ⟨q, hq⟩ := getRTCTime_returns w hfull k b MCP79410Time.clear
        rw [hbusy w (k + 1) b h1 h2, hq]
        exact ⟨_, rfl⟩
      · exact ⟨_, hidle w (k + 1) b (Or.inr (by simpa using h2))⟩
    · exact ⟨_, hidle w (k + 1) b (Or.inl (by simpa using h1))⟩
  · by_cases h1 : host.isValid = false
    · by_cases h2 : self.timeSyncMode &&& 2 ≠ 0
      · obtain ⟨t2, b2, hq, hmem⟩ := getRTCTime_chip k s log MCP79410Time.clear
        rw [hbusy chipWire (k + 1) ⟨s, log⟩ h1 h2, hq]
        refine ⟨_, b2, rfl, hmem, ?_⟩
        by_cases hv : s.mem 0x6f 6 ≠ 0 ∧ s.mem 0x6f 3 &&& 0x20 ≠ 0
        · rw [decide_eq_true hv]
          exact ⟨fun _ => ⟨h1, h2, hv.1, hv.2⟩, fun _ => by simp⟩
        · rw [decide_eq_false hv]
          exact ⟨fun h => absurd rfl h, fun h => absurd ⟨h.2.2.1, h.2.2.2⟩ hv⟩
      · rw [hidle chipWire (k + 1) ⟨s, log⟩ (Or.inr (by simpa using h2))]
        refine ⟨none, ⟨s, log⟩, rfl, rfl, ?_⟩
        simp only [ne_eq, not_true_eq_false, false_iff]
        exact fun h => h2 h.2.1
    · have h1t : host.isValid = true := by simpa using h1
      rw [hidle chipWire (k + 1) ⟨s, log⟩ (Or.inl h1t)]
      refine ⟨none, ⟨s, log⟩, rfl, rfl, ?_⟩
      simp only [ne_eq, not_true_eq_false, false_iff]
      exact fun h => h1 h.1

theorem setup_pushes_rtc_witness :
    (∃ pushed b2, setup chipWire 1 MCP79410.new ⟨sampleChip, []⟩ ⟨false, 0, false, 0⟩ =
        some ({ MCP79410.new with setupDone := true }, pushed, b2) ∧
      b2.st.mem = sampleChip.mem ∧ pushed ≠ none) ∧
    (setup chipWire 1 MCP79410.new ⟨sampleChip, []⟩ ⟨false, 0, false, 0⟩).map
      (fun r => r.2.1) = some (some 1551099686) ∧
    (setup chipWire 1 MCP79410.new ⟨haltedChip, []⟩ ⟨false, 0, false, 0⟩).map
      (fun r => r.2.1) = some none ∧
    setup ackWire 1 MCP79410.new ⟨(), []⟩ ⟨true, 0, false, 0⟩ =
      some ({ MCP79410.new with setupDone := true }, none, ⟨(), []⟩) := by
  refine ⟨?_, by decide, by decide, ?_⟩
  · obtain ⟨pushed, b2, h1, h2, h3⟩ := (setup_pushes_rtc chipWire 1 MCP79410.new
      ⟨sampleChip, []⟩ ⟨false, 0, false, 0⟩).2.2.2 0 sampleChip []
    exact ⟨pushed, b2, h1, h2, h3.2 ⟨rfl, by decide, by decide, by decide⟩⟩
  · exact (setup_pushes_rtc ackWire 1 MCP79410.new ⟨(), []⟩ ⟨true, 0, false, 0⟩).1
      (Or.inl rfl)

end MCP79410

/-! ## The flag helper -/

namespace MCP79410

variable {σ : Type}

theorem byte_and_ff (v : Nat) (hv : v < 256) : v &&& 0xff = v := by
  have h := Nat.and_pow_two_sub_one_eq_mod v 8
  rw [Nat.mod_eq_of_lt hv] at h
  exact h

theorem byte_testBit_ff (v i : Nat) (hv : v < 256) (h : v.testBit i = true) :
    (0xff : Nat).testBit i = true := by
  by_cases hi : i < 8
  · have e := Nat.testBit_two_pow_sub_one 8 i
    simp only [hi, decide_True] at e
    exact e
  · have hlt : v < 2 ^ i :=
      lt_of_lt_of_le hv (Nat.pow_le_pow_right Nat.zero_lt_two (by omega : 8 ≤ i))
    rw [Nat.testBit_lt_two_pow hlt] at h
    exact absurd h (by decide)

/-- The bits of a byte after a flag is set or cleared in it. -/
theorem flag_bits (v f : Nat) (hv : v < 256) (hf : f < 256) (i : Nat) :
    (f.testBit i = false →
      (v ||| f).testBit i = v.testBit i ∧ (v &&& not8 f).testBit i = v.testBit i) ∧
    (f.testBit i = true →
      (v ||| f).testBit i = true ∧ (v &&& not8 f).testBit i = false) := by
  refine ⟨fun h => ?_, fun h => ?_⟩
  · rw [Nat.testBit_or, Nat.testBit_and, not8, Nat.testBit_xor, h]
    refine ⟨by simp, ?_⟩
    cases hvi : v.testBit i
    · simp
    · rw [byte_testBit_ff v i hv hvi]
      rfl
  · rw [Nat.testBit_or, Nat.testBit_and, not8, Nat.testBit_xor, h, byte_testBit_ff f i hf h]
    simp

/-- C30: on the memory chip, for every register address `addr`, flag byte `f` and prior
register byte `v`, `deviceWriteRegisterFlag(addr, f, true)` returns status 0 and leaves
the register equal to `v | f`, and `deviceWriteRegisterFlag(addr, f, false)` leaves it
equal to `v & ~f`; no other register changes; the same call applied again leaves the
same value; the bits of the register outside `f` are those of `v`, the bits inside `f`
are set, respectively clear; and on any bus the two calls are
`deviceWriteRegisterByteMask` with the masks `(0xff, f)` and `(~f, 0)`. -/
theorem deviceWriteRegisterFlag_bits (k : Nat) (s : Chip) (log : List BusOp) (addr f : Nat)
    (haddr : addr < 256) (hf : f < 256) (hv : s.mem 0x6f addr < 256) :
    (∃ b2, deviceWriteRegisterFlag chipWire (k + 1) ⟨s, log⟩ addr f true = some (0, b2) ∧
      b2.st.mem 0x6f addr = s.mem 0x6f addr ||| f ∧
      (∀ a, a ≠ addr → b2.st.mem 0x6f a = s.mem 0x6f a) ∧
      ∃ b3, deviceWriteRegisterFlag chipWire (k + 1) b2 addr f true = some (0, b3) ∧
        b3.st.mem 0x6f addr = s.mem 0x6f addr ||| f) ∧
    (∃ b2, deviceWriteRegisterFlag chipWire (k + 1) ⟨s, log⟩ addr f false = some (0, b2) ∧
      b2.st.mem 0x6f addr = s.mem 0x6f addr &&& not8 f ∧
      (∀ a, a ≠ addr → b2.st.mem 0x6f a = s.mem 0x6f a) ∧
      ∃ b3, deviceWriteRegisterFlag chipWire (k + 1) b2 addr f false = some (0, b3) ∧
        b3.st.mem 0x6f addr = s.mem 0x6f addr &&& not8 f) ∧
    (∀ i, (f.testBit i = false →
        (s.mem 0x6f addr ||| f).testBit i = (s.mem 0x6f addr).testBit i ∧
        (s.mem 0x6f addr &&& not8 f).testBit i = (s.mem 0x6f addr).testBit i) ∧
      (f.testBit i = true →
        (s.mem 0x6f addr ||| f).testBit i = true ∧
        (s.mem 0x6f addr &&& not8 f).testBit i = false)) ∧
    (∀ (τ : Type) (w : TwoWire τ) (fuel : Nat) (b : Bus τ),
      deviceWriteRegisterFlag w fuel b addr f true =
        deviceWriteRegisterByteMask w fuel b addr 0xff f ∧
      deviceWriteRegisterFlag w fuel b addr f false =
        deviceWriteRegisterByteMask w fuel b addr (not8 f) 0) := by
  have hmod : addr % 256 = addr := Nat.mod_eq_of_lt haddr
  have hcell : ∀ (s1 : Chip) (x : Nat),
      ((((s1.write 0x6f addr []).read 0x6f 1).2).write 0x6f addr [x]).mem 0x6f addr = x := by
    intro s1 x
    simp [Chip.write, Chip.store, hmod]
  have hrest : ∀ (s1 : Chip) (x a : Nat), a ≠ addr →
      ((((s1.write 0x6f addr []).read 0x6f 1).2).write 0x6f addr [x]).mem 0x6f a
        = s1.mem 0x6f a := by
    intro s1 x a ha
    simp [Chip.write, Chip.store, hmod, ha, Chip.read]
  have hset2 : ((s.mem 0x6f addr ||| f) &&& 0xff) ||| f = s.mem 0x6f addr ||| f := by
    rw [byte_and_ff _ (@Nat.or_lt_two_pow _ _ 8 hv hf), Nat.or_assoc, Nat.or_self]
  have hclr2 : ((s.mem 0x6f addr &&& not8 f) &&& not8 f) ||| 0 = s.mem 0x6f addr &&& not8 f := by
    rw [Nat.or_zero, Nat.and_assoc, Nat.and_self]
  refine ⟨?_, ?_, fun i => flag_bits _ f hv hf i, fun τ w fuel b => ⟨?_, ?_⟩⟩
  · rw [deviceWriteRegisterFlag_chip]
    simp only [if_true, hmod, byte_and_ff _ hv]
    refine ⟨_, rfl, hcell s _, fun a ha => hrest s _ a ha, ?_⟩
    rw [deviceWriteRegisterFlag_chip]
    simp only [if_true, hmod, hcell, hset2]
    exact ⟨_, rfl, hcell _ _⟩
  · rw [deviceWriteRegisterFlag_chip]
    simp only [Bool.false_eq_true, if_false, hmod, Nat.or_zero]
    refine ⟨_, rfl, hcell s _, fun a ha => hrest s _ a ha, ?_⟩
    rw [deviceWriteRegisterFlag_chip]
    simp only [Bool.false_eq_true, if_false, hmod, hcell, hclr2]
    exact ⟨_, rfl, hcell _ _⟩
  · simp only [deviceWriteRegisterFlag, if_true]
  · simp only [deviceWriteRegisterFlag, Bool.false_eq_true, if_false]

theorem deviceWriteRegisterFlag_bits_witness :
    (∃ b2, deviceWriteRegisterFlag chipWire 1 ⟨sampleChip, []⟩ 0x07 0x10 true = some (0, b2) ∧
      b2.st.mem 0x6f 0x07 = sampleChip.mem 0x6f 0x07 ||| 0x10) ∧
    (∃ b2, deviceWriteRegisterFlag chipWire 1 ⟨sampleChip, []⟩ 0x07 0x80 false = some (0, b2) ∧
      b2.st.mem 0x6f 0x07 = sampleChip.mem 0x6f 0x07 &&& not8 0x80) ∧
    sampleChip.mem 0x6f 0x07 ||| 0x10 = 0x93 ∧ sampleChip.mem 0x6f 0x07 &&& not8 0x80 = 0x03 := by
  obtain ⟨⟨b2, h1, h2, -⟩, -⟩ := deviceWriteRegisterFlag_bits 0 sampleChip [] 0x07 0x10
    (by decide) (by decide) (by decide)
  obtain ⟨-, ⟨b3, h3, h4, -⟩, -⟩ := deviceWriteRegisterFlag_bits 0 sampleChip [] 0x07 0x80
    (by decide) (by decide) (by decide)
  exact ⟨⟨b2, h1, h2⟩, ⟨b3, h3, h4⟩, by decide, by decide⟩

end MCP79410

/-! ## Setters and getters of the time value -/

namespace MCP79410Time

theorem bcd_flag_table : ∀ k : Nat, k < 100 →
    (k < 80 → intToBcd (k : Int) &&& 0x80 = 0) ∧
    (k < 40 → intToBcd (k : Int) &&& 0xc0 = 0) ∧
    (k < 8 → intToBcd (k : Int) &&& 0xf8 = 0) := by
  decide

theorem bcd_flags (n : Int) (h0 : 0 ≤ n) (h1 : n ≤ 99) :
    (n < 80 → intToBcd n &&& 0x80 = 0) ∧ (n < 40 → intToBcd n &&& 0xc0 = 0) ∧
    (n < 8 → intToBcd n &&& 0xf8 = 0) := by
  obtain ⟨k, rfl⟩ := Int.eq_ofNat_of_zero_le h0
  obtain ⟨a, b, c⟩ := bcd_flag_table k (by omega)
  exact ⟨fun h => a (by omega), fun h => b (by omega), fun h => c (by omega)⟩

/-- The part of a byte outside the field of a setter survives the setter. -/
theorem field_mask (r a v m : Nat) (ha : a &&& m = m) (hv : v &&& m = 0) :
    ((r &&& a) ||| v) &&& m = r &&& m := by
  rw [Nat.and_distrib_right, Nat.and_assoc, ha, hv, Nat.or_zero]

/-- C32: for every prior time value, `setHour(h)` with `h` in 0..23 stores an hour byte
with bit 6 clear (24-hour format) and `getHour()` then returns `h`; `getMonth` after
`setMonth(m)` returns `m` for `m` in 1..12, `getDayOfMonth` after `setDayOfMonth(d)`
returns `d` for `d` in 1..31, `getMinute` and `getSecond` return what was set for values
in 0..59, and `getYear` after `setYear(y)` returns `2000 + (y mod 100)` for every
`y ≥ 0`. -/
theorem setters_then_getters (t : MCP79410Time) :
    (∀ h : Int, 0 ≤ h → h ≤ 23 →
      (t.setHour h).rawHour &&& 0x40 = 0 ∧ (t.setHour h).getHour = h) ∧
    (∀ m : Int, 1 ≤ m → m ≤ 12 → (t.setMonth m).getMonth = m) ∧
    (∀ d : Int, 1 ≤ d → d ≤ 31 → (t.setDayOfMonth d).getDayOfMonth = d) ∧
    (∀ m : Int, 0 ≤ m → m ≤ 59 → (t.setMinute m).getMinute = m) ∧
    (∀ s : Int, 0 ≤ s → s ≤ 59 → (t.setSecond s).getSecond = s) ∧
    (∀ y : Int, 0 ≤ y → (t.setYear y).getYear = 2000 + y % 100) := by
  refine ⟨fun h h0 h1 => ?_, fun m h0 h1 => ?_, fun d h0 h1 => ?_, fun m h0 h1 => ?_,
    fun s h0 h1 => ?_, fun y h0 => ?_⟩
  · obtain ⟨hb, -, -, h40, -, -⟩ := bcd_of_range h h0 (by omega)
    obtain ⟨h3f, h6⟩ := h40 (by omega)
    refine ⟨h6, ?_⟩
    simp only [setHour, getHour, h6, ne_eq, not_true_eq_false, if_false, h3f, hb]
  · obtain ⟨hb, -, -, -, h20, -⟩ := bcd_of_range m (by omega) (by omega)
    simp only [setMonth, getMonth, h20 (by omega), hb]
  · obtain ⟨hb, -, -, h40, -, -⟩ := bcd_of_range d (by omega) (by omega)
    simp only [setDayOfMonth, getDayOfMonth]
    rw [keep_mask _ _ _ _ (by decide : not8 0x3f &&& 0x3f = 0), (h40 (by omega)).1, hb]
  · obtain ⟨hb, -, h80, -, -, -⟩ := bcd_of_range m h0 (by omega)
    simp only [setMinute, getMinute, h80 (by omega), hb]
  · obtain ⟨hb, -, h80, -, -, -⟩ := bcd_of_range s h0 (by omega)
    simp only [setSecond, getSecond]
    rw [keep_mask _ _ _ _ (by decide : not8 0x7f &&& 0x7f = 0), h80 (by omega), hb]
  · have hy : y.tmod 100 = y % 100 := Int.tmod_eq_emod h0 (by decide)
    obtain ⟨hb, -⟩ := bcd_of_range (y % 100) (by omega) (by omega)
    simp only [setYear, getYear, hy, hb]
    ring

theorem setters_then_getters_witness :
    ((clear.setHour 13).rawHour = 0x13 ∧ (clear.setHour 13).rawHour &&& 0x40 = 0 ∧
      (clear.setHour 13).getHour = 13) ∧
    (clear.setMonth 12).getMonth = 12 ∧ (clear.setDayOfMonth 31).getDayOfMonth = 31 ∧
    (clear.setMinute 59).getMinute = 59 ∧ (clear.setSecond 59).getSecond = 59 ∧
    (clear.setYear 2019).getYear = 2000 + 2019 % 100 :=
  ⟨⟨by decide, (setters_then_getters clear).1 13 (by decide) (by decide)⟩,
    (setters_then_getters clear).2.1 12 (by decide) (by decide),
    (setters_then_getters clear).2.2.1 31 (by decide) (by decide),
    (setters_then_getters clear).2.2.2.1 59 (by decide) (by decide),
    (setters_then_getters clear).2.2.2.2.1 59 (by decide) (by decide),
    (setters_then_getters clear).2.2.2.2.2 2019 (by decide)⟩

/-- The two decimal digits `intToBcd` packs, for a value that is not negative. -/
theorem intToBcd_digits (n : Int) (h : 0 ≤ n) :
    intToBcd n = ((n / 10 % 10).toNat * 16) ||| (n % 10).toNat := by
  have h1 : n.tdiv 10 = n / 10 := Int.tdiv_eq_ediv h (by decide)
  have h2 : (n / 10).tmod 10 = n / 10 % 10 := Int.tmod_eq_emod (by omega) (by decide)
  have h3 : n.tmod 10 = n % 10 := Int.tmod_eq_emod h (by decide)
  simp only [intToBcd, toU8, h1, h2, h3]
  congr 1
  · omega
  · omega

theorem digit_table : ∀ a : Nat, a < 10 → ∀ b : Nat, b < 10 →
    (a * 16 ||| b) >>> 4 = a ∧ (a * 16 ||| b) &&& 0xf = b ∧ a * 16 ||| b = a * 16 + b := by
  decide

/-- C36: for every integer `n ≥ 0`, `intToBcd(n)` equals `intToBcd(n mod 100)`: its high
nibble is `(n div 10) mod 10` and its low nibble is `n mod 10`; for example
`intToBcd(2019) = 0x19`. -/
theorem intToBcd_mod_hundred (n : Int) (h : 0 ≤ n) :
    intToBcd n = intToBcd (n % 100) ∧
    intToBcd n >>> 4 = (n / 10 % 10).toNat ∧
    intToBcd n &&& 0xf = (n % 10).toNat ∧
    intToBcd n = (n / 10 % 10).toNat * 16 + (n % 10).toNat ∧
    intToBcd n < 256 ∧
    intToBcd 2019 = 0x19 := by
  have hd := intToBcd_digits n h
  have hd2 := intToBcd_digits (n % 100) (by omega)
  have e1 : n % 100 / 10 % 10 = n / 10 % 10 := by omega
  have e2 : n % 100 % 10 = n % 10 := by omega
  rw [e1, e2] at hd2
  obtain ⟨t1, t2, t3⟩ := digit_table (n / 10 % 10).toNat (by omega) (n % 10).toNat (by omega)
  refine ⟨by rw [hd, hd2], by rw [hd, t1], by rw [hd, t2], by rw [hd, t3], ?_, by decide⟩
  rw [hd, t3]
  omega

theorem intToBcd_mod_hundred_witness :
    intToBcd 2019 = intToBcd (2019 % 100) ∧ intToBcd 2019 >>> 4 = 1 ∧
    intToBcd 2019 &&& 0xf = 9 ∧ intToBcd 2019 = 0x19 :=
  ⟨(intToBcd_mod_hundred 2019 (by decide)).1, (intToBcd_mod_hundred 2019 (by decide)).2.1,
    (intToBcd_mod_hundred 2019 (by decide)).2.2.1, by decide⟩

/-- C38: the field setters keep the flag bits that share their byte and touch no other
field. For every prior value, `setSecond(s)` with `s` in 0..59 leaves bit 7 of
`rawSecond` as it was, `setDayOfWeek(d)` with `d` in 0..6 leaves bits 3-7 of
`rawDayOfWeek`, and `setDayOfMonth(d)` with `d` in 1..31 leaves bits 6-7 of
`rawDayOfMonth`; each result is the prior value with only that raw byte replaced. -/
theorem setters_keep_flag_bits (t : MCP79410Time) :
    (∀ s : Int, 0 ≤ s → s ≤ 59 →
      (t.setSecond s).rawSecond &&& 0x80 = t.rawSecond &&& 0x80 ∧
      t.setSecond s = { t with rawSecond := (t.setSecond s).rawSecond }) ∧
    (∀ d : Int, 0 ≤ d → d ≤ 6 →
      (t.setDayOfWeek d).rawDayOfWeek &&& 0xf8 = t.rawDayOfWeek &&& 0xf8 ∧
      t.setDayOfWeek d = { t with rawDayOfWeek := (t.setDayOfWeek d).rawDayOfWeek }) ∧
    (∀ d : Int, 1 ≤ d → d ≤ 31 →
      (t.setDayOfMonth d).rawDayOfMonth &&& 0xc0 = t.rawDayOfMonth &&& 0xc0 ∧
      t.setDayOfMonth d = { t with rawDayOfMonth := (t.setDayOfMonth d).rawDayOfMonth }) := by
  refine ⟨fun s h0 h1 => ⟨?_, rfl⟩, fun d h0 h1 => ⟨?_, rfl⟩, fun d h0 h1 => ⟨?_, rfl⟩⟩
  · simp only [setSecond]
    exact field_mask _ _ _ _ (by decide) ((bcd_flags s h0 (by omega)).1 (by omega))
  · simp only [setDayOfWeek]
    exact field_mask _ _ _ _ (by decide) ((bcd_flags (d + 1) (by omega) (by omega)).2.2 (by omega))
  · simp only [setDayOfMonth]
    exact field_mask _ _ _ _ (by decide) ((bcd_flags d (by omega) (by omega)).2.1 (by omega))

theorem setters_keep_flag_bits_witness :
    (({ clear with rawSecond := 0xa6 } : MCP79410Time).setSecond 59).rawSecond &&& 0x80
      = 0xa6 &&& 0x80 ∧
    (({ clear with rawDayOfWeek := 0x2a } : MCP79410Time).setDayOfWeek 6).rawDayOfWeek &&& 0xf8
      = 0x2a &&& 0xf8 ∧
    (({ clear with rawDayOfMonth := 0xe5 } : MCP79410Time).setDayOfMonth 31).rawDayOfMonth
      &&& 0xc0 = 0xe5 &&& 0xc0 ∧
    (({ clear with rawSecond := 0xa6 } : MCP79410Time).setSecond 59).rawSecond = 0xd9 :=
  ⟨((setters_keep_flag_bits { clear with rawSecond := 0xa6 }).1 59 (by decide) (by decide)).1,
    ((setters_keep_flag_bits { clear with rawDayOfWeek := 0x2a }).2.1 6 (by decide)
      (by decide)).1,
    ((setters_keep_flag_bits { clear with rawDayOfMonth := 0xe5 }).2.2 31 (by decide)
      (by decide)).1, by decide⟩

end MCP79410Time

/-! ## Alarm slots, the battery flag and the interrupt flag on the memory chip -/

namespace MCP79410

variable {σ : Type}

/-- The register a read-modify-write has written holds the byte written. -/
theorem rmw_cell (s : Chip) (a x : Nat) (ha : a < 256) :
    ((((s.write 0x6f a []).read 0x6f 1).2).write 0x6f a [x]).mem 0x6f a = x := by
  simp [Chip.write, Chip.store, Nat.mod_eq_of_lt ha]

/-- A read-modify-write of one register leaves the other registers as they were. -/
theorem rmw_rest (s : Chip) (a x r : Nat) (ha : a < 256) (hr : r ≠ a) :
    ((((s.write 0x6f a []).read 0x6f 1).2).write 0x6f a [x]).mem 0x6f r = s.mem 0x6f r := by
  simp [Chip.write, Chip.store, Nat.mod_eq_of_lt ha, hr, Chip.read]

/-- A read-modify-write of a register leaves the other devices as they were. -/
theorem rmw_other (s : Chip) (a x d : Nat) (hd : d ≠ 0x6f) :
    ((((s.write 0x6f a []).read 0x6f 1).2).write 0x6f a [x]).mem d = s.mem d := by
  simp [Chip.write, hd, Chip.read]

theorem getAlarmRegister_mod (alarmNum : Int) (offset : Nat) :
    getAlarmRegister alarmNum offset % 256 = getAlarmRegister alarmNum offset := by
  simp only [getAlarmRegister, Nat.mod_mod]

theorem getAlarmRegister_lt (alarmNum : Int) (offset : Nat) :
    getAlarmRegister alarmNum offset < 256 := by
  simp only [getAlarmRegister]
  exact Nat.mod_lt _ (by decide)

theorem getInterrupt_chip (k : Nat) (s : Chip) (log : List BusOp) (alarmNum : Int) :
    getInterrupt chipWire (k + 1) ⟨s, log⟩ alarmNum =
      some (decide (s.mem 0x6f (getAlarmRegister alarmNum 3) &&& 0x08 ≠ 0),
        ⟨((s.write 0x6f (getAlarmRegister alarmNum 3) []).read 0x6f 1).2,
          log ++ [BusOp.write 0x6f [getAlarmRegister alarmNum 3] false,
            BusOp.read 0x6f 1]⟩) := by
  simp only [getInterrupt, REG_ALARM_WKDAY_OFFSET, deviceReadRegisterByte_chip,
    Option.map_some', getAlarmRegister_mod, REG_ALARM_WKDAY_ALMIF]

theorem clearInterrupt_chip (k : Nat) (s : Chip) (log : List BusOp) (alarmNum : Int) :
    clearInterrupt chipWire (k + 1) ⟨s, log⟩ alarmNum =
      some ⟨(((s.write 0x6f (getAlarmRegister alarmNum 3) []).read 0x6f 1).2).write 0x6f
          (getAlarmRegister alarmNum 3)
          [(s.mem 0x6f (getAlarmRegister alarmNum 3) &&& not8 0x08) ||| 0],
        log ++ [BusOp.write 0x6f [getAlarmRegister alarmNum 3] false, BusOp.read 0x6f 1,
          BusOp.write 0x6f [getAlarmRegister alarmNum 3,
            (s.mem 0x6f (getAlarmRegister alarmNum 3) &&& not8 0x08) ||| 0] true]⟩ := by
  simp only [clearInterrupt, REG_ALARM_WKDAY_OFFSET, deviceWriteRegisterFlag_chip,
    Option.map_some', getAlarmRegister_mod, REG_ALARM_WKDAY_ALMIF, Bool.false_eq_true,
    if_false]

/-- C33: on the memory chip, for slot 0 or 1 and every prior byte `c` of control
register `0x07`, `clearAlarm(slot)` returns success and leaves the register equal to `c`
with the slot's enable bit (`0x10` for slot 0, `0x20` for slot 1) cleared: every other
bit, among them the enable bit of the other slot and the square-wave bits `0x40` and
`0x03`, is as it was, and so is every other register, the alarm registers included, and
every other device. -/
theorem clearAlarm_frame (k : Nat) (s : Chip) (log : List BusOp) (alarmNum : Int)
    (hslot : alarmNum = 0 ∨ alarmNum = 1) (hc : s.mem 0x6f 0x07 < 256) :
    (getAlarmEnableBit alarmNum = if alarmNum = 0 then 0x10 else 0x20) ∧
    ∃ b2, clearAlarm chipWire (k + 1) ⟨s, log⟩ alarmNum = some (true, b2) ∧
      b2.st.mem 0x6f 0x07 = s.mem 0x6f 0x07 &&& not8 (getAlarmEnableBit alarmNum) ∧
      b2.st.mem 0x6f 0x07 &&& getAlarmEnableBit alarmNum = 0 ∧
      b2.st.mem 0x6f 0x07 &&& (if alarmNum = 0 then 0x20 else 0x10)
        = s.mem 0x6f 0x07 &&& (if alarmNum = 0 then 0x20 else 0x10) ∧
      b2.st.mem 0x6f 0x07 &&& 0x43 = s.mem 0x6f 0x07 &&& 0x43 ∧
      (∀ i, (getAlarmEnableBit alarmNum).testBit i = false →
        (b2.st.mem 0x6f 0x07).testBit i = (s.mem 0x6f 0x07).testBit i) ∧
      (∀ a, a ≠ 0x07 → b2.st.mem 0x6f a = s.mem 0x6f a) ∧
      (∀ d, d ≠ 0x6f → b2.st.mem d = s.mem d) ∧
      b2.log = log ++ [BusOp.write 0x6f [0x07] false, BusOp.read 0x6f 1,
        BusOp.write 0x6f [0x07, s.mem 0x6f 0x07 &&& not8 (getAlarmEnableBit alarmNum)]
          true] := by
  have hg : ¬ (alarmNum < 0 ∨ alarmNum > 1) := by omega
  have hbit : getAlarmEnableBit alarmNum = if alarmNum = 0 then 0x10 else 0x20 := by
    rcases hslot with rfl | rfl <;> rfl
  have hlt : getAlarmEnableBit alarmNum < 256 := by
    rcases hslot with rfl | rfl <;> decide
  have hand : ∀ m : Nat, (s.mem 0x6f 0x07 &&& not8 (getAlarmEnableBit alarmNum)) &&& m
      = s.mem 0x6f 0x07 &&& (not8 (getAlarmEnableBit alarmNum) &&& m) :=
    fun m => Nat.and_assoc _ _ _
  refine ⟨hbit, ?_⟩
  simp only [clearAlarm, if_neg hg, REG_CONTROL, deviceWriteRegisterFlag_chip,
    Option.map_some', Bool.false_eq_true, if_false, Nat.or_zero, decide_True]
  refine ⟨_, rfl, rmw_cell s 0x07 _ (by decide), ?_, ?_, ?_, ?_,
    fun a ha => rmw_rest s 0x07 _ a (by decide) ha, fun d hd => rmw_other s _ _ d hd, rfl⟩
  · rw [rmw_cell s 0x07 _ (by decide), hand]
    rcases hslot with rfl | rfl
    · rw [show not8 (getAlarmEnableBit 0) &&& getAlarmEnableBit 0 = 0 by decide,
        Nat.and_zero]
    · rw [show not8 (getAlarmEnableBit 1) &&& getAlarmEnableBit 1 = 0 by decide,
        Nat.and_zero]
  · rw [rmw_cell s 0x07 _ (by decide), hand]
    rcases hslot with rfl | rfl
    · rw [show not8 (getAlarmEnableBit 0) &&& (if (0 : Int) = 0 then 0x20 else 0x10)
        = (if (0 : Int) = 0 then 0x20 else 0x10) by decide]
    · rw [show not8 (getAlarmEnableBit 1) &&& (if (1 : Int) = 0 then 0x20 else 0x10)
        = (if (1 : Int) = 0 then 0x20 else 0x10) by decide]
  · rw [rmw_cell s 0x07 _ (by decide), hand]
    rcases hslot with rfl | rfl
    · rw [show not8 (getAlarmEnableBit 0) &&& 0x43 = 0x43 by decide]
    · rw [show not8 (getAlarmEnableBit 1) &&& 0x43 = 0x43 by decide]
  · intro i hi
    rw [rmw_cell s 0x07 _ (by decide)]
    exact ((flag_bits _ _ hc hlt i).1 hi).2

theorem clearAlarm_frame_witness :
    ∃ b2, clearAlarm chipWire 1 ⟨sampleChip, []⟩ 1 = some (true, b2) ∧
      b2.st.mem 0x6f 0x07 = sampleChip.mem 0x6f 0x07 &&& not8 (getAlarmEnableBit 1) ∧
      sampleChip.mem 0x6f 0x07 &&& not8 (getAlarmEnableBit 1) = 0x83 ∧
      b2.st.mem 0x6f 0x14 = 0x9a := by
  obtain ⟨b2, h1, h2, -, -, -, -, h3, -⟩ := (clearAlarm_frame 0 sampleChip [] 1 (Or.inr rfl)
    (by decide)).2
  exact ⟨b2, h1, h2, by decide, (h3 0x14 (by decide)).trans (by decide)⟩

/-- C34: for slot 0 or 1 and every offset in 0..5, `getAlarmRegister(slot, offset)` is
`base(slot) + offset` with `base(0) = 0x0a` and `base(1) = 0x11`. The register lies in
`0x0a..0x0f` for slot 0 and in `0x11..0x16` for slot 1, so the two windows have no
register in common and none in `0x00..0x09`, `0x18..0x1f` or `0x20..0x5f`. On the
memory chip `getInterrupt(slot)` addresses and reads only register `base(slot) + 3` and
changes nothing, and `clearInterrupt(slot)` reads and writes only that register: every
other register and every other device is as it was. -/
theorem alarm_windows (alarmNum : Int) (offset : Nat)
    (hslot : alarmNum = 0 ∨ alarmNum = 1) (hoff : offset ≤ 5) :
    getAlarmRegister alarmNum offset = (if alarmNum = 0 then 0x0a else 0x11) + offset ∧
    (alarmNum = 0 → 0x0a ≤ getAlarmRegister alarmNum offset ∧
      getAlarmRegister alarmNum offset ≤ 0x0f) ∧
    (alarmNum = 1 → 0x11 ≤ getAlarmRegister alarmNum offset ∧
      getAlarmRegister alarmNum offset ≤ 0x16) ∧
    (∀ offset2, offset2 ≤ 5 → getAlarmRegister 0 offset ≠ getAlarmRegister 1 offset2) ∧
    (¬ getAlarmRegister alarmNum offset ≤ 0x09 ∧
      ¬ (0x18 ≤ getAlarmRegister alarmNum offset ∧ getAlarmRegister alarmNum offset ≤ 0x1f) ∧
      ¬ (0x20 ≤ getAlarmRegister alarmNum offset ∧ getAlarmRegister alarmNum offset ≤ 0x5f)) ∧
    (∀ (k : Nat) (s : Chip) (log : List BusOp), ∃ b2,
      getInterrupt chipWire (k + 1) ⟨s, log⟩ alarmNum =
        some (decide (s.mem 0x6f ((if alarmNum = 0 then 0x0a else 0x11) + 3) &&& 0x08 ≠ 0),
          b2) ∧
      b2.log = log ++ [BusOp.write 0x6f [(if alarmNum = 0 then 0x0a else 0x11) + 3] false,
        BusOp.read 0x6f 1] ∧
      b2.st.mem = s.mem) ∧
    (∀ (k : Nat) (s : Chip) (log : List BusOp), ∃ b2,
      clearInterrupt chipWire (k + 1) ⟨s, log⟩ alarmNum = some b2 ∧
      b2.log = log ++ [BusOp.write 0x6f [(if alarmNum = 0 then 0x0a else 0x11) + 3] false,
        BusOp.read 0x6f 1,
        BusOp.write 0x6f [(if alarmNum = 0 then 0x0a else 0x11) + 3,
          (s.mem 0x6f ((if alarmNum = 0 then 0x0a else 0x11) + 3) &&& not8 0x08) ||| 0]
          true] ∧
      (∀ a, a ≠ (if alarmNum = 0 then 0x0a else 0x11) + 3 →
        b2.st.mem 0x6f a = s.mem 0x6f a) ∧
      (∀ d, d ≠ 0x6f → b2.st.mem d = s.mem d)) := by
  have hreg : ∀ (a : Int) (o : Nat), (a = 0 ∨ a = 1) → o ≤ 5 →
      getAlarmRegister a o = (if a = 0 then 0x0a else 0x11) + o := by
    intro a o ha ho
    rcases ha with rfl | rfl
    · simp only [getAlarmRegister, REG_ALARM0, if_true]
      omega
    · simp only [getAlarmRegister, REG_ALARM1, show ¬ ((1 : Int) = 0) by decide, if_false]
      omega
  have h3 := hreg alarmNum 3 hslot (by decide)
  have h0 := hreg alarmNum offset hslot hoff
  refine ⟨h0, fun h => ?_, fun h => ?_, fun o2 ho2 => ?_, ?_, fun k s log => ?_,
    fun k s log => ?_⟩
  · rw [h0, if_pos h]; omega
  · rw [h0, if_neg (by rw [h]; decide)]; omega
  · rw [hreg 0 offset (Or.inl rfl) hoff, hreg 1 o2 (Or.inr rfl) ho2]
    simp only [if_true, show ¬ ((1 : Int) = 0) by decide, if_false]
    omega
  · rw [h0]
    split_ifs <;> omega
  · rw [getInterrupt_chip, h3]
    exact ⟨_, rfl, rfl, Chip.seek_mem s 0x6f _ 1⟩
  · rw [clearInterrupt_chip, h3]
    have hlt : (if alarmNum = 0 then 0x0a else 0x11) + 3 < 256 := by split_ifs <;> omega
    exact ⟨_, rfl, rfl, fun a ha => rmw_rest s _ _ a hlt ha, fun d hd => rmw_other s _ _ d hd⟩

theorem alarm_windows_witness :
    getAlarmRegister 1 3 = (if (1 : Int) = 0 then 0x0a else 0x11) + 3 ∧
    getAlarmRegister 1 3 = 0x14 ∧ getAlarmRegister 0 5 = 0x0f ∧
    (∃ b2, clearInterrupt chipWire 1 ⟨sampleChip, []⟩ 1 = some b2 ∧
      b2.log = [] ++ [BusOp.write 0x6f [(if (1 : Int) = 0 then 0x0a else 0x11) + 3] false,
        BusOp.read 0x6f 1,
        BusOp.write 0x6f [(if (1 : Int) = 0 then 0x0a else 0x11) + 3,
          (sampleChip.mem 0x6f ((if (1 : Int) = 0 then 0x0a else 0x11) + 3) &&& not8 0x08)
            ||| 0] true]) := by
  have h := alarm_windows 1 3 (Or.inr rfl) (by decide)
  obtain ⟨b2, h1, h2, -⟩ := h.2.2.2.2.2.2 0 sampleChip []
  exact ⟨h.1, by decide, by decide, b2, h1, h2⟩

/-- C35: before `setup()` has run (`setupDone` false), `setBatteryEnable(v)` on any bus
issues no transaction, returns true and only records `v` in the controller, and the
weekday byte that a later `setRTCTime` writes (the fifth byte of its one transaction)
has bit 3 equal to `v`. After `setup()`, on the memory chip, `setBatteryEnable(v)`
returns true, records `v`, and reads register `0x03` and writes it back with bit 3 set
to `v` and every other bit as read; no other register and no other device changes. -/
theorem setBatteryEnable_deferred (self : MCP79410) (v : Bool) :
    (self.setupDone = false → ∀ (τ : Type) (w : TwoWire τ) (fuel : Nat) (b : Bus τ),
      setBatteryEnable w fuel self b v = some (true, { self with batteryEnable := v }, b)) ∧
    (∀ (τ : Type) (w : TwoWire τ) (b : Bus τ) (t : Int),
      ∃ d0 d1 d2 wk d4 d5 d6,
        (setRTCTime w { self with batteryEnable := v } b t).2.log =
          b.log ++ [BusOp.write 0x6f [0x00, d0, d1, d2, wk, d4, d5, d6] true] ∧
        wk &&& 0x08 = (if v = true then 0x08 else 0x00)) ∧
    (self.setupDone = true → ∀ (k : Nat) (s : Chip) (log : List BusOp),
      s.mem 0x6f 0x03 < 256 →
      ∃ b2, setBatteryEnable chipWire (k + 1) self ⟨s, log⟩ v =
          some (true, { self with batteryEnable := v }, b2) ∧
        b2.st.mem 0x6f 0x03 =
          (if v = true then s.mem 0x6f 0x03 ||| 0x08 else s.mem 0x6f 0x03 &&& not8 0x08) ∧
        b2.log = log ++ [BusOp.write 0x6f [0x03] false, BusOp.read 0x6f 1,
          BusOp.write 0x6f [0x03, b2.st.mem 0x6f 0x03] true] ∧
        (b2.st.mem 0x6f 0x03).testBit 3 = v ∧
        (∀ i, i ≠ 3 → (b2.st.mem 0x6f 0x03).testBit i = (s.mem 0x6f 0x03).testBit i) ∧
        (∀ a, a ≠ 0x03 → b2.st.mem 0x6f a = s.mem 0x6f a) ∧
        (∀ d, d ≠ 0x6f → b2.st.mem d = s.mem d)) := by
  have hbit : ∀ i : Nat, (0x08 : Nat).testBit i = decide (i = 3) := by
    intro i
    have h := @Nat.testBit_two_pow 3 i
    simpa [eq_comm] using h
  refine ⟨fun hs τ w fuel b => ?_, fun τ w b t => ?_, fun hs k s log hc => ?_⟩
  · have hs2 : ¬ ({ self with batteryEnable := v } : MCP79410).setupDone = true := by
      simp [hs]
    simp only [setBatteryEnable, if_neg hs2]
  · have hblock : ∀ a0 a1 a2 a3 a4 a5 a6 : Nat,
        chunk [a0, a1, a2, a3, a4, a5, a6] 0 7 = [a0, a1, a2, a3, a4, a5, a6] :=
      fun _ _ _ _ _ _ _ => rfl
    cases v
    · simp only [setRTCTime, Bool.false_eq_true, if_false, deviceWriteRTCTime, REG_I2C_ADDR,
        REG_DATE_TIME, deviceWrite_single w b 0x6f 0 _ 7 (by decide) (by decide), hblock,
        REG_RTCWKDAY_VBATEN]
      refine ⟨_, _, _, _, _, _, _, rfl, ?_⟩
      rw [Nat.and_assoc, show not8 8 &&& 8 = 0 by decide, Nat.and_zero]
    · simp only [setRTCTime, if_true, deviceWriteRTCTime, REG_I2C_ADDR,
        REG_DATE_TIME, deviceWrite_single w b 0x6f 0 _ 7 (by decide) (by decide), hblock,
        REG_RTCWKDAY_VBATEN]
      refine ⟨_, _, _, _, _, _, _, rfl, ?_⟩
      rw [Nat.and_distrib_right, show (8 : Nat) &&& 8 = 8 by decide, or_absorb]
  · have hs2 : ({ self with batteryEnable := v } : MCP79410).setupDone = true := hs
    have hnew : (if v = true then (s.mem 0x6f 0x03 &&& 0xff) ||| 0x08
        else (s.mem 0x6f 0x03 &&& not8 0x08) ||| 0)
        = (if v = true then s.mem 0x6f 0x03 ||| 0x08 else s.mem 0x6f 0x03 &&& not8 0x08) := by
      rw [byte_and_ff _ hc, Nat.or_zero]
    simp only [setBatteryEnable, if_pos hs2, REG_RTCWKDAY, REG_RTCWKDAY_VBATEN,
      deviceWriteRegisterFlag_chip, Option.map_some', decide_True, hnew]
    refine ⟨_, rfl, rmw_cell s 0x03 _ (by decide), ?_, ?_, ?_,
      fun a ha => rmw_rest s 0x03 _ a (by decide) ha, fun d hd => rmw_other s _ _ d hd⟩
    · rw [rmw_cell s 0x03 _ (by decide)]
    · rw [rmw_cell s 0x03 _ (by decide)]
      have h8 := (flag_bits (s.mem 0x6f 0x03) 0x08 hc (by decide) 3).2 (by decide)
      cases v
      · simp only [Bool.false_eq_true, if_false]
        exact h8.2
      · simp only [if_true]
        exact h8.1
    · intro i hi
      rw [rmw_cell s 0x03 _ (by decide)]
      have h8 := (flag_bits (s.mem 0x6f 0x03) 0x08 hc (by decide) i).1
        (by rw [hbit]; simp [hi])
      cases v
      · simp only [Bool.false_eq_true, if_false]
        exact h8.2
      · simp only [if_true]
        exact h8.1

theorem setBatteryEnable_deferred_witness :
    setBatteryEnable ackWire 1 MCP79410.new ⟨(), []⟩ false =
      some (true, { MCP79410.new with batteryEnable := false }, ⟨(), []⟩) ∧
    (setRTCTime ackWire { MCP79410.new with batteryEnable := false } ⟨(), []⟩ 1551099686).2.log
      = [BusOp.write 0x6f [0x00, 0xa6, 0x01, 0x13, 0x02, 0x25, 0x02, 0x19] true] ∧
    (∃ b2, setBatteryEnable chipWire 1 { MCP79410.new with setupDone := true }
        ⟨sampleChip, []⟩ false =
        some (true, { MCP79410.new with setupDone := true, batteryEnable := false }, b2) ∧
      b2.st.mem 0x6f 0x03 = 0x22) := by
  refine ⟨(setBatteryEnable_deferred MCP79410.new false).1 rfl Unit ackWire 1 ⟨(), []⟩,
    by decide, ?_⟩
  obtain ⟨b2, h1, h2, -⟩ := (setBatteryEnable_deferred { MCP79410.new with setupDone := true }
    false).2.2 rfl 0 sampleChip [] (by decide)
  exact ⟨b2, h1, h2.trans (by decide)⟩

end MCP79410

/-! ## Where the driver departs from its description -/

namespace MCP79410

variable {σ : Type}

/-- When the read inside `deviceWriteRegisterByteMask` fails, the write is still made,
with 0 in place of the register contents, and its status is the one returned. -/
theorem deviceWriteRegisterByteMask_failed_read (w : TwoWire σ) (fuel : Nat) (b : Bus σ)
    (addr andMask orMask : Nat) (e : Int) (buf : List Nat) (b1 : Bus σ)
    (h : deviceRead w fuel b REG_I2C_ADDR addr [0] 1 = some (e, buf, b1)) (he : e ≠ 0) :
    deviceWriteRegisterByteMask w fuel b addr andMask orMask =
      some (deviceWriteRegisterByte w b1 addr ((0 &&& andMask) ||| orMask)) := by
  simp only [deviceWriteRegisterByteMask, deviceReadRegisterByte, h, Option.map_some',
    if_neg he]

/-- C31, evaluated where the code departs from it: `deviceReadRegisterByte` returns 0
when its read fails and `deviceWriteRegisterByteMask` does not look at a status. On the
sample chip behind a bus that loses the first transmission (the address phase of the
read), the mask write to control register `0x07`, which holds `0x83`, writes `0x40`
computed from 0 and returns status 0; `clearAlarm(0)` writes `0x00` to it and returns
true; and `setBatteryEnable(false)` writes `0x00` to register `0x03`, which holds
`0x2a`, and returns true. -/
theorem failed_read_not_propagated :
    (sampleChip.mem 0x6f 0x07 = 0x83 ∧ sampleChip.mem 0x6f 0x03 = 0x2a) ∧
    (deviceWriteRegisterByteMask lossyChipWire 1 ⟨(1, sampleChip), []⟩ 0x07 0xff 0x40).map
        (fun r => (r.1, r.2.log, r.2.st.2.mem 0x6f 0x07))
      = some (0, [BusOp.write 0x6f [0x07] false, BusOp.write 0x6f [0x07, 0x40] true], 0x40) ∧
    (clearAlarm lossyChipWire 1 ⟨(1, sampleChip), []⟩ 0).map
        (fun r => (r.1, r.2.log, r.2.st.2.mem 0x6f 0x07))
      = some (true, [BusOp.write 0x6f [0x07] false, BusOp.write 0x6f [0x07, 0x00] true],
          0x00) ∧
    (setBatteryEnable lossyChipWire 1 { MCP79410.new with setupDone := true }
        ⟨(1, sampleChip), []⟩ false).map
        (fun r => (r.1, r.2.2.log, r.2.2.st.2.mem 0x6f 0x03))
      = some (true, [BusOp.write 0x6f [0x03] false, BusOp.write 0x6f [0x03, 0x00] true],
          0x00) ∧
    (setBatteryEnable lossyChipWire 1 { MCP79410.new with setupDone := true }
        ⟨(0, sampleChip), []⟩ false).map
        (fun r => (r.1, r.2.2.log, r.2.2.st.2.mem 0x6f 0x03))
      = some (true, [BusOp.write 0x6f [0x03] false, BusOp.read 0x6f 1,
          BusOp.write 0x6f [0x03, 0x22] true], 0x22) := by
  decide

/-- Bit 3 of the weekday byte of the alarm block is bit 3 of the raw weekday byte of the
time value. -/
theorem alarmBlock_flag (time : MCP79410Time) (polarity : Bool) :
    (alarmBlock time polarity).getD 3 0 &&& 0x08 = time.rawDayOfWeek &&& 0x08 := by
  have hmode : ((time.alarmMode &&& 0x7) <<< 4) &&& 0x08 = 0 := by
    have h7 : time.alarmMode &&& 0x7 ≤ 7 := Nat.and_le_right
    generalize time.alarmMode &&& 0x7 = m at h7
    interval_cases m <;> rfl
  simp only [alarmBlock, List.getD_cons_succ, List.getD_cons_zero, REG_ALARM_WKDAY_ALMPOL]
  rw [Nat.and_distrib_right, hmode, Nat.or_zero]
  cases polarity
  · simp only [Bool.false_eq_true, if_false]
    rw [Nat.and_assoc, show not8 0x80 &&& 0x08 = 0x08 by decide]
  · simp only [if_true]
    rw [Nat.and_distrib_right, show (0x80 : Nat) &&& 0x08 = 0 by decide, Nat.or_zero]

/-- On the memory chip with the oscillator running, `setAlarm` for slot 0 or 1 succeeds
and `getInterrupt` for the slot right afterwards returns bit 3 of the raw weekday byte
of the time value: false exactly when that bit is clear. -/
theorem setAlarm_then_getInterrupt (k : Nat) (s : Chip) (log : List BusOp)
    (time : MCP79410Time) (polarity : Bool) (alarmNum : Int)
    (hslot : alarmNum = 0 ∨ alarmNum = 1) (hosc : s.mem 0x6f 3 &&& 0x20 ≠ 0) :
    ∃ b2 b3, setAlarm chipWire (k + 1) ⟨s, log⟩ time polarity alarmNum = some (true, b2) ∧
      getInterrupt chipWire (k + 1) b2 alarmNum =
        some (decide (time.rawDayOfWeek &&& 0x08 ≠ 0), b3) := by
  have hg : ¬ (alarmNum < 0 ∨ alarmNum > 1) := by omega
  have hblock : chunk (alarmBlock time polarity) 0 6 = alarmBlock time polarity := rfl
  have hrun : decide (s.mem 0x6f 3 &&& 0x20 ≠ 0) = true := decide_eq_true hosc
  have hflag := alarmBlock_flag time polarity
  have hset : ∃ s2 log2, setAlarm chipWire (k + 1) ⟨s, log⟩ time polarity alarmNum
      = some (true, ⟨s2, log2⟩) ∧
      s2.mem 0x6f (getAlarmRegister alarmNum 3) = (alarmBlock time polarity).getD 3 0 := by
    simp only [setAlarm, if_neg hg, getOscillatorRunning_chip, Option.some_bind, hrun, if_true,
      clearInterrupt, deviceWriteRegisterFlag_chip, Option.map_some', REG_I2C_ADDR,
      deviceWrite_chip _ _ 0x6f _ _ 6 (by decide) (by decide), hblock, Chip.seek_mem,
      Bool.false_eq_true, if_false, REG_CONTROL, REG_ALARM_WKDAY_ALMIF, REG_ALARM_WKDAY_OFFSET,
      decide_True, List.append_assoc, List.cons_append, List.nil_append]
    refine ⟨_, _, rfl, ?_⟩
    rcases hslot with rfl | rfl <;> rfl
  obtain ⟨s2, log2, h1, h2⟩ := hset
  have hget := getInterrupt_chip k s2 log2 alarmNum
  have hd : decide ((alarmBlock time polarity).getD 3 0 &&& 0x08 ≠ 0)
      = decide (time.rawDayOfWeek &&& 0x08 ≠ 0) := by rw [hflag]
  rw [h2, hd] at hget
  exact ⟨⟨s2, log2⟩, _, h1, hget⟩

/-- C37, evaluated where the code departs from it: `setAlarm` copies the raw weekday
byte of the time value into the alarm weekday register after it has cleared the
interrupt flag there, and bit 3 of that byte is the flag. For the time value read from
the running clock (weekday byte `0x2a`, battery bit set) and then given
`setAlarmTime(1551099746)`, `setAlarm` on the sample chip succeeds, the alarm 0 weekday
register `0x0d` holds `0xfa` and `getInterrupt(0)` returns true; for a fresh time value
with the same `setAlarmTime` the register holds `0xf2` and `getInterrupt(0)` returns
false. -/
theorem setAlarm_can_set_interrupt_flag :
    ((setAlarm chipWire 1 ⟨sampleChip, []⟩
        (({ rawYear := 0x19, rawMonth := 0x02, rawDayOfMonth := 0x25, rawDayOfWeek := 0x2a,
            rawHour := 0x13, rawMinute := 0x01, rawSecond := 0xa6, alarmMode := 0 }
            : MCP79410Time).setAlarmTime 1551099746) true 0).bind
        (fun r => (getInterrupt chipWire 1 r.2 0).map
          (fun g => (r.1, g.1, r.2.st.mem 0x6f 0x0d))))
      = some (true, true, 0xfa) ∧
    ((setAlarm chipWire 1 ⟨sampleChip, []⟩ (MCP79410Time.clear.setAlarmTime 1551099746)
        true 0).bind
        (fun r => (getInterrupt chipWire 1 r.2 0).map
          (fun g => (r.1, g.1, r.2.st.mem 0x6f 0x0d))))
      = some (true, false, 0xf2) ∧
    (0xfa : Nat) &&& 0x08 = 0x08 := by
  decide

end MCP79410

/-- C39, evaluated where the code departs from it: the bounds check of the accessors
forms `addr + dataLen` in `size_t`, and a request whose sum wraps is accepted. With a
32-bit `size_t` on a bus that acknowledges everything, the SRAM `writeData` at offset
`0xFFFFFFE0` with 40 bytes returns true and writes from register `0x00` on (the clock,
control, alarm and power-fail registers), the SRAM `readData` of the same request reads
from register `0x00`, the EEPROM `writeData` at offset `0xFFFFFFFF` with 1 byte returns
true and writes the status register `0xff`, and the EEPROM `readData` at offset
`0xFFFFFFF0` with 24 bytes returns true and reads from the protected block `0xf0`
on. -/
theorem memory_window_escape :
    ((MCP79410SRAM.writeData ackWire 32 ⟨(), []⟩ 4294967264 (List.range 40) 40).1 = true ∧
      (MCP79410SRAM.writeData ackWire 32 ⟨(), []⟩ 4294967264 (List.range 40) 40).2.log
        = [BusOp.write 0x6f (0x00 :: List.range 31) true,
            BusOp.write 0x6f [0x1f, 31, 32, 33, 34, 35, 36, 37, 38, 39] true]) ∧
    (MCP79410SRAM.readData ackWire 32 2 ⟨(), []⟩ 4294967264 (List.replicate 40 0) 40).map
        (fun r => (r.1, r.2.2.log))
      = some (true, [BusOp.write 0x6f [0x00] false, BusOp.read 0x6f 32,
          BusOp.write 0x6f [0x20] false, BusOp.read 0x6f 8]) ∧
    ((MCP79410EEPROM.writeData ackWire 32 ⟨(), []⟩ 4294967295 [0x0c] 1).1 = true ∧
      (MCP79410EEPROM.writeData ackWire 32 ⟨(), []⟩ 4294967295 [0x0c] 1).2.log
        = [BusOp.write 0x57 [0xff, 0x0c] true, BusOp.write 0x57 [] true]) ∧
    (MCP79410EEPROM.readData ackWire 32 1 ⟨(), []⟩ 4294967280 (List.replicate 24 0) 24).map
        (fun r => (r.1, r.2.2.log))
      = some (true, [BusOp.write 0x57 [0xf0] false, BusOp.read 0x57 24]) := by
  decide

namespace MCP79410

variable {σ : Type}

/-- On a bus where every read request for at least one byte delivers at least one, the
loop of `deviceRead` returns once the fuel covers the bytes still to be read. -/
theorem deviceReadLoop_progress (w : TwoWire σ) (dev addr n : Nat)
    (hprog : ∀ s d c, 0 < c → 0 < (w.requestFrom s d c).1.length) :
    ∀ (fuel offset : Nat) (stat : Int) (buf : List Nat) (b : Bus σ), n - offset ≤ fuel →
      ∃ r, deviceReadLoop w dev addr n fuel offset stat buf b = some r := by
  intro fuel
  induction fuel with
  | zero =>
    intro offset stat buf b h
    exact ⟨_, deviceReadLoop_done w dev addr n 0 offset stat buf b (by omega)⟩
  | succ fuel ih =>
    intro offset stat buf b h
    by_cases hlt : offset < n
    · simp only [deviceReadLoop, if_pos hlt]
      have hc : 0 < (if n - offset > 32 then 32 else n - offset) := by
        split_ifs <;> omega
      generalize (if n - offset > 32 then 32 else n - offset) = c at hc ⊢
      by_cases h0 : (b.transmit w dev [(addr + offset) % 256] false).1 = 0
      · rw [if_pos h0]
        apply ih
        have hq := hprog (b.transmit w dev [(addr + offset) % 256] false).2.st dev c hc
        have hlen : 0 < ((b.transmit w dev [(addr + offset) % 256] false).2.request w dev
            c).1.length := by
          simp only [Bus.request, List.length_take]
          exact lt_min hc hq
        omega
      · rw [if_neg h0]
        exact ⟨_, rfl⟩
    · exact ⟨_, deviceReadLoop_done w dev addr n _ offset stat buf b hlt⟩

/-- C40, evaluated where the code departs from it: the loop of `deviceRead` moves on by
the number of bytes a request delivers and has no bound of its own. On a bus that
acknowledges every transmission and delivers no byte, a read of one byte or more is
still in its loop after any number of passes, each of which issues an address phase and
a read request: no fuel is enough for it to return. -/
theorem deviceRead_can_hang :
    ∀ (fuel n : Nat) (log : List BusOp) (dev addr : Nat) (buf : List Nat),
      deviceRead deafWire fuel ⟨(), log⟩ dev addr buf (n + 1) = none := by
  intro fuel n
  have h : ∀ (fuel : Nat) (stat : Int) (log : List BusOp) (dev addr : Nat) (buf : List Nat),
      deviceReadLoop deafWire dev addr (n + 1) fuel 0 stat buf ⟨(), log⟩ = none := by
    intro fuel
    induction fuel with
    | zero => intro stat log dev addr buf; simp [deviceReadLoop]
    | succ fuel ih =>
      intro stat log dev addr buf
      have ht : (Bus.transmit deafWire ⟨(), log⟩ dev [(addr + 0) % 256] false)
          = (0, ⟨(), log ++ [BusOp.write dev [(addr + 0) % 256] false]⟩) := rfl
      have hq : ∀ (l : List BusOp) (c : Nat), (Bus.request deafWire ⟨(), l⟩ dev c)
          = ([], ⟨(), l ++ [BusOp.read dev c]⟩) := by
        intro l c
        simp [Bus.request, deafWire]
      simp only [deviceReadLoop, Nat.zero_lt_succ, if_true, ht, hq, List.length_nil,
        Nat.add_zero, storeAt]
      exact ih _ _ _ _ _
  intro log dev addr buf
  exact h fuel 0 log dev addr buf

end MCP79410

/-! ## The windows of the memory accessors when the bounds check does not wrap -/

namespace Bus

variable {σ : Type}

theorem within_refl (dev lo hi : Nat) (b : Bus σ) : Bus.within dev lo hi b b :=
  ⟨[], by simp, by simp⟩

theorem within_trans {dev lo hi : Nat} {b1 b2 b3 : Bus σ} (h12 : Bus.within dev lo hi b1 b2)
    (h23 : Bus.within dev lo hi b2 b3) : Bus.within dev lo hi b1 b3 := by
  obtain ⟨o1, e1, p1⟩ := h12
  obtain ⟨o2, e2, p2⟩ := h23
  refine ⟨o1 ++ o2, by rw [e2, e1, List.append_assoc], ?_⟩
  intro op hop
  rcases List.mem_append.mp hop with h | h
  · exact p1 op h
  · exact p2 op h

theorem within_transmit (w : TwoWire σ) (b : Bus σ) (dev lo hi r : Nat) (ds : List Nat)
    (stop : Bool) (h1 : lo ≤ r) (h2 : r ≤ hi) :
    Bus.within dev lo hi b (b.transmit w dev (r :: ds) stop).2 :=
  ⟨[BusOp.write dev (r :: ds) stop], rfl, by simp [BusOp.inWindow, h1, h2]⟩

theorem within_request (w : TwoWire σ) (b : Bus σ) (dev lo hi count : Nat) :
    Bus.within dev lo hi b (b.request w dev count).2 :=
  ⟨[BusOp.read dev count], rfl, by simp [BusOp.inWindow]⟩

end Bus

namespace MCP79410

variable {σ : Type}

theorem deviceWriteLoop_within (w : TwoWire σ) (dev addr : Nat) (buf : List Nat)
    (n lo hi : Nat) (hreg : ∀ o, o < n → lo ≤ (addr + o) % 256 ∧ (addr + o) % 256 ≤ hi) :
    ∀ (fuel offset : Nat) (stat : Int) (b : Bus σ),
      Bus.within dev lo hi b (deviceWriteLoop w dev addr buf n fuel offset stat b).2 := by
  intro fuel
  induction fuel with
  | zero => intro offset stat b; exact Bus.within_refl _ _ _ b
  | succ fuel ih =>
    intro offset stat b
    by_cases hlt : offset < n
    · simp only [deviceWriteLoop, if_pos hlt]
      generalize (if n - offset > 31 then 31 else n - offset) = c
      have h1 := Bus.within_transmit w b dev lo hi ((addr + offset) % 256) (chunk buf offset c)
        true (hreg offset hlt).1 (hreg offset hlt).2
      split_ifs with h0
      · exact h1
      · exact Bus.within_trans h1 (ih _ _ _)
    · rw [deviceWriteLoop_done _ _ _ _ _ _ _ _ _ hlt]
      exact Bus.within_refl _ _ _ b

theorem deviceReadLoop_within (w : TwoWire σ) (dev addr n lo hi : Nat)
    (hreg : ∀ o, o < n → lo ≤ (addr + o) % 256 ∧ (addr + o) % 256 ≤ hi) :
    ∀ (fuel offset : Nat) (stat : Int) (buf : List Nat) (b : Bus σ)
      (r : Int × List Nat × Bus σ),
      deviceReadLoop w dev addr n fuel offset stat buf b = some r →
      Bus.within dev lo hi b r.2.2 := by
  intro fuel
  induction fuel with
  | zero =>
    intro offset stat buf b r h
    by_cases hlt : offset < n
    · simp [deviceReadLoop, hlt] at h
    · rw [deviceReadLoop_done _ _ _ _ _ _ _ _ _ hlt] at h
      obtain rfl := Option.some.inj h
      exact Bus.within_refl _ _ _ b
  | succ fuel ih =>
    intro offset stat buf b r h
    by_cases hlt : offset < n
    · simp only [deviceReadLoop, if_pos hlt] at h
      generalize (if n - offset > 32 then 32 else n - offset) = c at h
      have h1 := Bus.within_transmit w b dev lo hi ((addr + offset) % 256) [] false
        (hreg offset hlt).1 (hreg offset hlt).2
      by_cases h0 : (b.transmit w dev [(addr + offset) % 256] false).1 = 0
      · rw [if_pos h0] at h
        exact Bus.within_trans (Bus.within_trans h1 (Bus.within_request w _ dev lo hi c))
          (ih _ _ _ _ r h)
      · rw [if_neg h0] at h
        obtain rfl := Option.some.inj h
        exact h1
    · rw [deviceReadLoop_done _ _ _ _ _ _ _ _ _ hlt] at h
      obtain rfl := Option.some.inj h
      exact Bus.within_refl _ _ _ b

theorem waitForEEPROM_within (w : TwoWire σ) (lo hi : Nat) (b : Bus σ) :
    Bus.within 0x57 lo hi b (waitForEEPROM w b) := by
  obtain ⟨k, -, -, hlog⟩ := waitForEEPROMLoop_log w 50 b
  refine ⟨_, hlog, ?_⟩
  intro op hop
  rw [List.eq_of_mem_replicate hop]
  rfl

theorem deviceWriteEEPROMLoop_within (w : TwoWire σ) (addr : Nat) (buf : List Nat)
    (n lo hi : Nat) (hreg : ∀ o, o < n → lo ≤ (addr + o) % 256 ∧ (addr + o) % 256 ≤ hi) :
    ∀ (fuel offset : Nat) (stat : Int) (b : Bus σ),
      Bus.within 0x57 lo hi b (deviceWriteEEPROMLoop w addr buf n fuel offset stat b).2 := by
  intro fuel
  induction fuel with
  | zero => intro offset stat b; exact Bus.within_refl _ _ _ b
  | succ fuel ih =>
    intro offset stat b
    by_cases hlt : offset < n
    · simp only [deviceWriteEEPROMLoop, if_pos hlt, EEPROM_I2C_ADDR]
      generalize (if n - offset > 1 then 1 else n - offset) = c
      have h1 := Bus.within_transmit w b 0x57 lo hi ((addr + offset) % 256)
        (chunk buf offset c) true (hreg offset hlt).1 (hreg offset hlt).2
      split_ifs with h0
      · exact h1
      · exact Bus.within_trans h1 (Bus.within_trans (waitForEEPROM_within w lo hi _) (ih _ _ _))
    · have e : deviceWriteEEPROMLoop w addr buf n (fuel + 1) offset stat b = (stat, b) := by
        simp only [deviceWriteEEPROMLoop, if_neg hlt]
      rw [e]
      exact Bus.within_refl _ _ _ b

end MCP79410

theorem eraseLoop_within {σ : Type} (wd : Bus σ → Nat → List Nat → Nat → Bool × Bus σ)
    (buf : List Nat) (len dev lo hi : Nat)
    (hwd : ∀ (b : Bus σ) (offset count : Nat), offset + count ≤ len →
      Bus.within dev lo hi b (wd b offset buf count).2) :
    ∀ (fuel offset : Nat) (res : Bool) (b : Bus σ),
      Bus.within dev lo hi b (MCP79410MemoryBase.eraseLoop wd buf len fuel offset res b).2 := by
  intro fuel
  induction fuel with
  | zero => intro offset res b; exact Bus.within_refl _ _ _ b
  | succ fuel ih =>
    intro offset res b
    by_cases hlt : offset < len
    · simp only [MCP79410MemoryBase.eraseLoop, if_pos hlt]
      have hc : offset + (if 16 > len - offset then len - offset else 16) ≤ len := by
        split_ifs <;> omega
      generalize (if 16 > len - offset then len - offset else 16) = c at hc ⊢
      have h1 := hwd b offset c hc
      split_ifs with h0
      · exact h1
      · exact Bus.within_trans h1 (ih _ _ _)
    · have e : MCP79410MemoryBase.eraseLoop wd buf len (fuel + 1) offset res b = (res, b) := by
        simp only [MCP79410MemoryBase.eraseLoop, if_neg hlt]
      rw [e]
      exact Bus.within_refl _ _ _ b

/-- When `addr + dataLen` does not wrap in `size_t`, every transaction of the SRAM
accessor goes to device `0x6f` at a register in `0x20..0x5f`, and every transaction of
the EEPROM accessor goes to device `0x57` at an address in `0x00..0x7f`, whatever the
bus answers. -/
theorem accessors_within_window {σ : Type} (w : TwoWire σ) (bits : Nat) (hbits : 8 ≤ bits)
    (b : Bus σ) (addr : Nat) (data : List Nat) (dataLen : Nat)
    (hsum : addr + dataLen < 2 ^ bits) :
    (∀ fuel r, MCP79410SRAM.readData w bits fuel b addr data dataLen = some r →
      Bus.within 0x6f 0x20 0x5f b r.2.2) ∧
    Bus.within 0x6f 0x20 0x5f b (MCP79410SRAM.writeData w bits b addr data dataLen).2 ∧
    Bus.within 0x6f 0x20 0x5f b (MCP79410SRAM.erase w bits b).2 ∧
    (∀ fuel r, MCP79410EEPROM.readData w bits fuel b addr data dataLen = some r →
      Bus.within 0x57 0x00 0x7f b r.2.2) ∧
    Bus.within 0x57 0x00 0x7f b (MCP79410EEPROM.writeData w bits b addr data dataLen).2 ∧
    Bus.within 0x57 0x00 0x7f b (MCP79410EEPROM.erase w bits b).2 := by
  have h256 : (256 : Nat) ≤ 2 ^ bits :=
    le_trans (by decide : (256 : Nat) ≤ 2 ^ 8) (Nat.pow_le_pow_right Nat.zero_lt_two hbits)
  have hmod : ∀ x : Nat, x < 256 → x % 2 ^ bits = x := fun x hx =>
    Nat.mod_eq_of_lt (lt_of_lt_of_le hx h256)
  have hsram : ∀ (a n : Nat), a + n ≤ 64 → ∀ o, o < n →
      0x20 ≤ ((MCP79410.REG_SRAM + a) % 2 ^ bits % 256 + o) % 256 ∧
      ((MCP79410.REG_SRAM + a) % 2 ^ bits % 256 + o) % 256 ≤ 0x5f := by
    intro a n han o ho
    have e : (MCP79410.REG_SRAM + a) % 2 ^ bits = 0x20 + a :=
      hmod _ (by simp only [MCP79410.REG_SRAM]; omega)
    rw [e]
    omega
  have heep : ∀ (a n : Nat), a + n ≤ 128 → ∀ o, o < n →
      0x00 ≤ (a % 256 + o) % 256 ∧ (a % 256 + o) % 256 ≤ 0x7f := by
    intro a n han o ho
    omega
  have hsw : ∀ (b1 : Bus σ) (a : Nat) (d : List Nat) (n : Nat), a + n < 2 ^ bits →
      Bus.within 0x6f 0x20 0x5f b1 (MCP79410SRAM.writeData w bits b1 a d n).2 := by
    intro b1 a d n hs
    simp only [MCP79410SRAM.writeData, Nat.mod_eq_of_lt hs, MCP79410SRAM.length]
    split_ifs with hg
    · exact Bus.within_refl _ _ _ b1
    · exact MCP79410.deviceWriteLoop_within w _ _ d n _ _ (hsram a n (by omega)) _ _ _ _
  have hew : ∀ (b1 : Bus σ) (a : Nat) (d : List Nat) (n : Nat), a + n < 2 ^ bits →
      Bus.within 0x57 0x00 0x7f b1 (MCP79410EEPROM.writeData w bits b1 a d n).2 := by
    intro b1 a d n hs
    simp only [MCP79410EEPROM.writeData, Nat.mod_eq_of_lt hs, MCP79410EEPROM.length]
    split_ifs with hg
    · exact Bus.within_refl _ _ _ b1
    · exact MCP79410.deviceWriteEEPROMLoop_within w _ d n _ _ (heep a n (by omega)) _ _ _ _
  refine ⟨fun fuel r h => ?_, hsw b addr data dataLen hsum, ?_, fun fuel r h => ?_,
    hew b addr data dataLen hsum, ?_⟩
  · simp only [MCP79410SRAM.readData, Nat.mod_eq_of_lt hsum, MCP79410SRAM.length] at h
    split_ifs at h with hg
    · obtain rfl := Option.some.inj h
      exact Bus.within_refl _ _ _ b
    · obtain ⟨q, hq, rfl⟩ := Option.map_eq_some'.1 h
      exact MCP79410.deviceReadLoop_within w _ _ dataLen _ _ (hsram addr dataLen (by omega))
        _ _ _ _ _ q hq
  · exact eraseLoop_within _ _ 64 _ _ _
      (fun b1 offset count h => hsw b1 offset _ count (lt_of_le_of_lt h (by omega))) _ _ _ _
  · simp only [MCP79410EEPROM.readData, Nat.mod_eq_of_lt hsum, MCP79410EEPROM.length] at h
    split_ifs at h with hg
    · obtain rfl := Option.some.inj h
      exact Bus.within_refl _ _ _ b
    · obtain ⟨q, hq, rfl⟩ := Option.map_eq_some'.1 h
      exact MCP79410.deviceReadLoop_within w _ _ dataLen _ _ (heep addr dataLen (by omega))
        _ _ _ _ _ q hq
  · exact eraseLoop_within _ _ 128 _ _ _
      (fun b1 offset count h => hew b1 offset _ count (lt_of_le_of_lt h (by omega))) _ _ _ _
